import Mathlib

/-!
# Linkit: a verification development of the redirect pipeline

Shallow embedding of the Go sources of the short-link service:

* `internal/domain`      : the records `ShortLink`, `RedirectRule`, `ClickLog`, the error values;
* `internal/usecase`     : `matchRule`, `Get`, `Redirect`, `Update`, `Create`, `List`,
                           `ListClickLogs`, `validateURL`;
* `internal/repository`  : `setCache`, `Create`, `GetByCode`, `Update`, `GetRules`,
                           `CreateRule`, `IncrementClicks` and its drain goroutine, `LogClick`,
                           `List`, `ListClickLogs`;
* `internal/delivery/http`: `validateCode`, `handleError`, `detectDevice` and the handlers
                           `Redirect`, `Create`, `List`, `ListClickLogs`;
* `pkg/utils`            : `GenerateShortCode`, `ValidateCustomCode`, `parseRegion`,
                           `GetIPRegion`.
  The repository methods `Create` and `Update` are `ShortLinkRepository.Create` and
  `ShortLinkRepository.Update`; `Update` alone is the method of the use case.

Conventions of the embedding.

* `time.Time` is an instant on the integer line (`Time := Int`); `a.Before b` is `a < b`,
  `a.After b` is `a > b`.
* Every reading of the clock and every draw of the random generator is an explicit
  argument, so that the functions below are pure.
* The two stores (the relational database and Redis) are an explicit state `Store`
  that each repository method takes and returns.
* A goroutine started by a method is a separate operation on the state: the method
  itself returns before the goroutine runs.
* `json.Marshal` followed by `json.Unmarshal` at the same struct type is the identity;
  a Redis value is therefore kept in decoded form, tagged with what it decodes to.
-/

namespace Linkit

/-! ## internal/domain -/

/-- An instant, as `time.Time`; only the order of instants is used by the code. -/
abbrev Time := Int

/-- `RedirectType` of domain/shortlink.go: a Go `int`; the four named values follow. -/
abbrev RedirectType := Int

def RedirectPermanent : RedirectType := 1
def RedirectTemporary : RedirectType := 2
def RedirectTemporaryKeepMethod : RedirectType := 3
def RedirectPermanentKeepMethod : RedirectType := 4

/-- `DeviceType` of domain/shortlink.go: a Go `int`. -/
abbrev DeviceType := Int

def DeviceAll : DeviceType := 0
def DeviceMobile : DeviceType := 1
def DeviceDesktop : DeviceType := 2
def DeviceTablet : DeviceType := 3

/-- The error values of the program: the sentinels of domain/errors.go, an error coming
out of a library (Redis, gorm), `fmt.Errorf("msg: %w", inner)`, a `fmt.Errorf`
without `%w`, and `fmt.Errorf("%w: msg", inner)`. -/
inductive Err where
  | ErrShortLinkNotFound
  | ErrShortLinkExpired
  | ErrCustomCodeExists
  | ErrInvalidCustomCode
  | ErrInvalidURL
  | ErrDatabaseError
  | ErrCacheError
  | ErrRateLimitExceeded
  | ErrMaxVisitsReached
  | external (msg : String)
  | wrapped (msg : String) (inner : Err)
  | plain (msg : String)
  | suffixed (inner : Err) (msg : String)
  deriving DecidableEq, Repr

/-- Go's `errors.Is err target` for a sentinel target: follow the `%w` chain. -/
def Err.Is : Err → Err → Bool
  | .wrapped m inner, target => (Err.wrapped m inner == target) || Err.Is inner target
  | .suffixed inner m, target => (Err.suffixed inner m == target) || Err.Is inner target
  | e, target => e == target

/-- The method `Error()`: the text of an error. -/
def Err.Error : Err → String
  | .ErrShortLinkNotFound => "short link not found"
  | .ErrShortLinkExpired => "short link expired"
  | .ErrCustomCodeExists => "custom code already exists"
  | .ErrInvalidCustomCode => "invalid custom code"
  | .ErrInvalidURL => "invalid url"
  | .ErrDatabaseError => "database error"
  | .ErrCacheError => "cache error"
  | .ErrRateLimitExceeded => "rate limit exceeded"
  | .ErrMaxVisitsReached => "maximum visits limit reached"
  | .external msg => msg
  | .wrapped msg inner => msg ++ ": " ++ inner.Error
  | .plain msg => msg
  | .suffixed inner msg => inner.Error ++ ": " ++ msg

/-- `utils.RegionInfo`. -/
structure RegionInfo where
  Country : String
  Region : String
  Province : String
  City : String
  ISP : String
  deriving DecidableEq, Repr

/-- `domain.RedirectRule`. `Typ` is the Go field `Type`. -/
structure RedirectRule where
  ID : Nat
  ShortLinkID : Nat
  Name : String
  Description : String
  Priority : Int
  Typ : RedirectType
  TargetURL : String
  Device : DeviceType
  StartTime : Option Time
  EndTime : Option Time
  Countries : List String
  Provinces : List String
  Cities : List String
  Percentage : Option Int
  MaxVisits : Option Int
  CreatedAt : Time
  UpdatedAt : Time
  deriving DecidableEq, Repr

/-- `domain.ShortLink`. `Clicks` and `MaxVisits` are `uint64` in the source. -/
structure ShortLink where
  ID : Nat
  ShortCode : String
  LongURL : String
  UserID : Nat
  Clicks : Nat
  MaxVisits : Option Nat
  ExpiresAt : Time
  NeverExpire : Bool
  DefaultRedirect : RedirectType
  Rules : List RedirectRule
  CreatedAt : Time
  UpdatedAt : Time
  deriving DecidableEq, Repr

/-- `domain.ClickLog`. -/
structure ClickLog where
  ID : Nat
  ShortLinkID : Nat
  RuleID : Option Nat
  IP : String
  UserAgent : String
  Referer : String
  Country : String
  Device : DeviceType
  CreatedAt : Time
  deriving DecidableEq, Repr

/-- `domain.UpdateShortLinkInput`: every field is a pointer in the source. -/
structure UpdateShortLinkInput where
  LongURL : Option String
  MaxVisits : Option Nat
  ExpiresAt : Option Time
  NeverExpire : Option Bool
  DefaultRedirect : Option RedirectType
  deriving DecidableEq, Repr

/-! ## internal/usecase: matchRule -/

/-- The membership loop of `matchRule`:
`matched := false; for _, x := range xs { if x == v { matched = true; break } }`. -/
def matchedIn (v : String) : List String → Bool
  | [] => false
  | x :: rest => if x = v then true else matchedIn v rest

/-- `ShortLinkUseCase.matchRule`.
`GetIPRegion` is `utils.GetIPRegion`, `now` the value of `time.Now()` read by this call
and `intn` the value of `rand.Intn(100)` (a number in `0..99`) drawn by this call. -/
def matchRule (GetIPRegion : String → RegionInfo) (now : Time) (intn : Nat)
    (rule : RedirectRule) (clickLog : ClickLog) : Bool :=
  -- 检查设备类型
  if rule.Device ≠ DeviceAll ∧ rule.Device ≠ clickLog.Device then false
  -- 检查时间范围
  else if (match rule.StartTime with
      | some st => decide (now < st)
      | none => false) then false
  else if (match rule.EndTime with
      | some et => decide (now > et)
      | none => false) then false
  -- 检查地区匹配
  else if (if rule.Countries.length > 0 ∨ rule.Provinces.length > 0 ∨ rule.Cities.length > 0 then
        let region := GetIPRegion clickLog.IP
        -- 检查国家匹配
        if rule.Countries.length > 0 ∧ matchedIn region.Country rule.Countries = false then true
        -- 检查省份匹配
        else if rule.Provinces.length > 0 ∧ matchedIn region.Province rule.Provinces = false then
          true
        -- 检查城市匹配
        else if rule.Cities.length > 0 ∧ matchedIn region.City rule.Cities = false then true
        else false
      else false) then false
  -- 检查访问次数
  else if (match rule.MaxVisits with
      | some mv => decide (mv ≤ 0)
      | none => false) then false
  -- 检查百分比
  else if (match rule.Percentage with
      | some p => decide (((intn : Int) + 1) > p)
      | none => false) then false
  else true

/-! ## internal/usecase: Get, Redirect, Update over the repository interface -/

/-- `domain.ShortLinkRepository`, the methods the use case calls on the hot path, in
`Update` and in `Create`, over a store state `σ`. A method returns its Go results and the
next state;
an `error` result that is `nil` is `none`. `Create` also returns the record behind the
pointer it was given, which the insert completes with the primary key. -/
structure Repo (σ : Type) where
  GetByCode : String → σ → Except Err ShortLink × σ
  GetRules : Nat → σ → Except Err (List RedirectRule) × σ
  IncrementClicks : String → σ → Option Err × σ
  LogClick : ClickLog → σ → Option Err × σ
  Update : ShortLink → σ → Option Err × σ
  Create : ShortLink → σ → Option Err × ShortLink × σ

/-- What one call of `Redirect` reads from outside the repository: the clock read by
`Get`, and for the loop iteration with index `i` the clock and the `rand.Intn(100)` draw
taken by that call of `matchRule`; `GetIPRegion` is `utils.GetIPRegion`. -/
structure Env where
  nowGet : Time
  nowRule : Nat → Time
  intn : Nat → Nat
  GetIPRegion : String → RegionInfo

/-- `ShortLinkUseCase.Get`. -/
def Get {σ : Type} (repo : Repo σ) (now : Time) (code : String) (s : σ) :
    Except Err ShortLink × σ :=
  match repo.GetByCode code s with
  | (.error err, s1) =>
    if err = Err.ErrShortLinkNotFound then (.error Err.ErrShortLinkNotFound, s1)
    else (.error (Err.wrapped "failed to get short link" err), s1)
  | (.ok shortLink, s1) =>
    -- 检查是否过期
    if now > shortLink.ExpiresAt then (.error Err.ErrShortLinkExpired, s1)
    else
      -- 加载规则
      match repo.GetRules shortLink.ID s1 with
      | (.error _, s2) => (.ok shortLink, s2)
      | (.ok rules, s2) => (.ok { shortLink with Rules := rules }, s2)

/-- The rule loop of `Redirect`:
`for _, rule := range rules { if u.matchRule(&rule, clickLog) { matchedRule = &rule; break } }`.
`i` is the index of the first rule of the list in the whole slice. The result is
`matchedRule` and the number of calls of `matchRule` made so far. -/
def matchLoop (env : Env) (clickLog : ClickLog) : List RedirectRule → Nat →
    Option RedirectRule × Nat
  | [], i => (none, i)
  | rule :: rest, i =>
    if matchRule env.GetIPRegion (env.nowRule i) (env.intn i) rule clickLog then (some rule, i + 1)
    else matchLoop env clickLog rest (i + 1)

/-- The visit-cap test of `Redirect`:
`shortLink.MaxVisits != nil && shortLink.Clicks >= *shortLink.MaxVisits`. -/
def visitCapReached (shortLink : ShortLink) : Bool :=
  match shortLink.MaxVisits with
  | some mv => decide (shortLink.Clicks ≥ mv)
  | none => false

/-- The outcome of one `Redirect`: the Go results `(string, RedirectType, error)` as an
`Except`, the caller's `*clickLog` after the call, the final store, and observations of
the run: the local variable `matchedRule` when the function returns, the number of
`matchRule` calls made, and whether `IncrementClicks` and `LogClick` were called. -/
structure RedirectOut (σ : Type) where
  result : Except Err (String × RedirectType)
  clickLog : ClickLog
  matchedRule : Option RedirectRule
  evaluated : Nat
  incremented : Bool
  logged : Bool
  state : σ

/-- The target of `Redirect`: `targetURL := shortLink.LongURL`, overwritten by the
matched rule's `TargetURL` when there is a matched rule and its target is not empty. -/
def targetOf (shortLink : ShortLink) (matchedRule : Option RedirectRule) : String :=
  match matchedRule with
  | some r => if r.TargetURL ≠ "" then r.TargetURL else shortLink.LongURL
  | none => shortLink.LongURL

/-- The redirect type of `Redirect`: `redirectType := shortLink.DefaultRedirect`,
overwritten by the matched rule's `Type` when there is a matched rule. -/
def typeOf (shortLink : ShortLink) (matchedRule : Option RedirectRule) : RedirectType :=
  match matchedRule with
  | some r => r.Typ
  | none => shortLink.DefaultRedirect

/-- The assignment `clickLog.RuleID = &matchedRule.ID`, made when there is a matched
rule. -/
def withRuleID (clickLog : ClickLog) (matchedRule : Option RedirectRule) : ClickLog :=
  match matchedRule with
  | some r => { clickLog with RuleID := some r.ID }
  | none => clickLog

/-- `ShortLinkUseCase.Redirect`. -/
def Redirect {σ : Type} (repo : Repo σ) (env : Env) (code : String) (clickLog : ClickLog)
    (s : σ) : RedirectOut σ :=
  match Get repo env.nowGet code s with
  | (.error err, s1) => ⟨.error err, clickLog, none, 0, false, false, s1⟩
  | (.ok shortLink, s1) =>
    -- 检查访问次数限制
    if visitCapReached shortLink then
      ⟨.error Err.ErrMaxVisitsReached, clickLog, none, 0, false, false, s1⟩
    else
      -- 获取所有规则
      match repo.GetRules shortLink.ID s1 with
      | (.error err, s2) =>
        ⟨.error (Err.wrapped "failed to get rules" err), clickLog, none, 0, false, false, s2⟩
      | (.ok rules, s2) =>
        -- 按优先级排序并匹配规则
        let matchedRule := (matchLoop env clickLog rules 0).1
        let evaluated := (matchLoop env clickLog rules 0).2
        -- 设置重定向URL和类型
        let targetURL := targetOf shortLink matchedRule
        let redirectType := typeOf shortLink matchedRule
        let clickLog := withRuleID clickLog matchedRule
        -- 增加点击次数
        match repo.IncrementClicks code s2 with
        | (some err, s3) =>
          ⟨.error (Err.wrapped "failed to increment clicks" err), clickLog, matchedRule,
            evaluated, true, false, s3⟩
        | (none, s3) =>
          -- 记录点击日志
          match repo.LogClick { clickLog with ShortLinkID := shortLink.ID } s3 with
          | (some err, s4) =>
            ⟨.error (Err.wrapped "failed to log click" err),
              { clickLog with ShortLinkID := shortLink.ID }, matchedRule, evaluated, true, true, s4⟩
          | (none, s4) =>
            ⟨.ok (targetURL, redirectType), { clickLog with ShortLinkID := shortLink.ID },
              matchedRule, evaluated, true, true, s4⟩

/-- `ShortLinkUseCase.validateURL`. `urlParse` is `url.Parse` reduced to what the function
reads of it: an error, or the scheme of the parsed URL. `len(longURL)` is the length in
bytes. -/
def validateURL (urlParse : String → Except String String) (longURL : String) : Option Err :=
  match urlParse longURL with
  | .error e => some (Err.suffixed Err.ErrInvalidURL e)
  | .ok scheme =>
    if scheme ≠ "http" ∧ scheme ≠ "https" then
      some (Err.suffixed Err.ErrInvalidURL "invalid scheme")
    else if longURL.utf8ByteSize > 2048 then some (Err.suffixed Err.ErrInvalidURL "url too long")
    else none

/-- The zero `time.Time`, the instant `IsZero` recognises; instants are counted from it. -/
def zeroTime : Time := 0

/-- `ShortLinkUseCase.Update`. `now` is the clock, `addDate100 t` is `t.AddDate(100, 0, 0)`. -/
def Update {σ : Type} (repo : Repo σ) (urlParse : String → Except String String)
    (now : Time) (addDate100 : Time → Time) (code : String) (input : UpdateShortLinkInput)
    (s : σ) : Except Err ShortLink × σ :=
  -- 获取现有短链接
  match repo.GetByCode code s with
  | (.error err, s1) => (.error (Err.wrapped "failed to get short link" err), s1)
  | (.ok link, s1) =>
    -- 更新字段
    match (match input.LongURL with
        | some u =>
          match validateURL urlParse u with
          | some err => Except.error err
          | none => Except.ok { link with LongURL := u }
        | none => Except.ok link) with
    | .error err => (.error err, s1)
    | .ok link =>
      let link := match input.MaxVisits with
        | some mv => { link with MaxVisits := some mv }
        | none => link
      match (match input.ExpiresAt with
          | some e =>
            if e ≠ zeroTime ∧ e < now then
              Except.error (Err.plain "expiration time cannot be in the past")
            else Except.ok { link with ExpiresAt := e }
          | none => Except.ok link) with
      | .error err => (.error err, s1)
      | .ok link =>
        let link := match input.NeverExpire with
          | some ne =>
            -- 如果设置为永不过期,将过期时间设置为100年后
            if ne then { link with NeverExpire := ne, ExpiresAt := addDate100 now }
            else { link with NeverExpire := ne }
          | none => link
        let link := match input.DefaultRedirect with
          | some d => { link with DefaultRedirect := d }
          | none => link
        -- 更新时间
        let link := { link with UpdatedAt := now }
        -- 保存更新
        match repo.Update link s1 with
        | (some err, s2) => (.error (Err.wrapped "failed to update short link" err), s2)
        | (none, s2) => (.ok link, s2)

/-! ## internal/repository -/

/-- A `time.Duration` of one second and of one minute, in nanoseconds. -/
def Second : Int := 1000000000
def Minute : Int := 60 * Second

/-- The anonymous struct `cacheData` of `setCache` and `GetByCode`: the JSON payload kept
under `link:<code>`. -/
structure CacheData where
  ID : Nat
  LongURL : String
  ExpiresAt : Time
  Clicks : Nat
  MaxVisits : Option Nat
  DefaultRedirect : Nat
  NeverExpire : Bool
  CreatedAt : Time
  UpdatedAt : Time
  deriving DecidableEq, Repr

/-- A string stored under `link:<code>`: the empty string written on a durable miss, the
JSON of a `cacheData`, or a string that `json.Unmarshal` rejects. -/
inductive LinkVal where
  | empty
  | json (d : CacheData)
  | garbled
  deriving DecidableEq, Repr

/-- A Redis key: the value and the instant at which the key expires; `none` is a key
stored without a time to live. -/
structure Entry (α : Type) where
  val : α
  expireAt : Option Time
  deriving DecidableEq, Repr

/-- The relational database and Redis.
`links`, `rules`, `logs` are the tables `short_links`, `redirect_rules`, `click_logs`;
`linkCache code` is the key `link:<code>`, `rulesCache id` the key `rules:<id>` (`none` as
a value is a string that does not decode to a rule list), `counter code` the key
`clicks:<code>` and `lock code` the key `clicks_sync:<code>` with its expiry.
`dbDown` and `redisDown` make every call to that store fail. `dbQueries` counts the
statements sent to the database. -/
structure Store where
  links : List ShortLink
  rules : List RedirectRule
  logs : List ClickLog
  nextLinkID : Nat
  nextRuleID : Nat
  linkCache : String → Option (Entry LinkVal)
  rulesCache : Nat → Option (Entry (Option (List RedirectRule)))
  counter : String → Option Int
  lock : String → Option Time
  dbDown : Bool
  redisDown : Bool
  dbQueries : Nat

/-- Redis `GET` of a key at instant `now`: an expired key is absent. -/
def live {α : Type} (now : Time) (e : Option (Entry α)) : Option (Entry α) :=
  match e with
  | some x =>
    match x.expireAt with
    | some t => if now < t then some x else none
    | none => some x
  | none => none

/-- The struct literal of `setCache`: the fields of the link copied into the payload.
`uint(link.DefaultRedirect)` is the conversion of a Go `int` to `uint`. -/
def cacheDataOf (link : ShortLink) : CacheData :=
  { ID := link.ID
    LongURL := link.LongURL
    ExpiresAt := link.ExpiresAt
    Clicks := link.Clicks
    MaxVisits := link.MaxVisits
    DefaultRedirect := (link.DefaultRedirect % 2 ^ 64).toNat
    NeverExpire := link.NeverExpire
    CreatedAt := link.CreatedAt
    UpdatedAt := link.UpdatedAt }

/-- `ShortLinkRepository.setCache`: `time.Until(link.ExpiresAt)` is `ExpiresAt - now`. -/
def setCache (now : Time) (link : ShortLink) (s : Store) : Option Err × Store :=
  -- 计算剩余过期时间
  let expiration := link.ExpiresAt - now
  if expiration ≤ 0 then (none, s) -- 已过期，不缓存
  else if s.redisDown then (some (Err.external "redis: set failed"), s)
  else
    (none, { s with linkCache := (Function.update s.linkCache link.ShortCode
      (some ⟨LinkVal.json (cacheDataOf link), some (now + expiration)⟩)) })

/-- The record behind the pointer after gorm's `Create` has completed it, which it does
before it sends the insert: a `DefaultRedirect` of 0 becomes the default of the tag
`default:1`, a zero `CreatedAt` (`autoCreateTime`) or `UpdatedAt` (`autoUpdateTime`)
becomes the clock. The defaults of `clicks` and `never_expire` are the zero values. -/
def gormCompleted (now : Time) (link : ShortLink) : ShortLink :=
  let link := if link.DefaultRedirect = 0 then { link with DefaultRedirect := 1 } else link
  let link := if link.CreatedAt = zeroTime then { link with CreatedAt := now } else link
  if link.UpdatedAt = zeroTime then { link with UpdatedAt := now } else link

/-- The primary key an insert of `link` uses: an `ID` of 0 is left to the sequence of the
table and read back into the record, another `ID` is inserted as given. -/
def insertID (link : ShortLink) (s : Store) : Nat :=
  if link.ID = 0 then s.nextLinkID else link.ID

/-- `ShortLinkRepository.Create`: gorm's `Create` on the table `short_links`, then
`setCache`, whose error is only printed. The insert fails when the database is down, when
the unique index on `short_code` is violated, or when the primary key is there already.
Returns the record behind the pointer as well. -/
def ShortLinkRepository.Create (now : Time) (link : ShortLink) (s : Store) :
    Option Err × ShortLink × Store :=
  let s := { s with dbQueries := s.dbQueries + 1 }
  if s.dbDown then
    (some (Err.wrapped "failed to create short link" (Err.external "db: down")), link, s)
  else
    let id := insertID link s
    let usesSequence := decide (link.ID = 0)
    let link := gormCompleted now link
    if s.links.any (fun row => row.ShortCode = link.ShortCode) ∨
        s.links.any (fun row => row.ID = id) then
      (some (Err.wrapped "failed to create short link" (Err.external "db: duplicate key")),
        link, s)
    else
      let link := { link with ID := id }
      let s := { s with links := s.links ++ [{ link with Rules := [] }] }
      let s := if usesSequence then { s with nextLinkID := s.nextLinkID + 1 } else s
      -- 设置缓存
      (none, link, (setCache now link s).2)

/-- The first part of `GetByCode`: the Redis `GET` of `link:<code>` and the decoding of
its value. The result is the decoded payload when the key is present, not empty and
decodes; in every other case the function goes on to the database. -/
def cachedPayload (now : Time) (code : String) (s : Store) : Option CacheData :=
  if s.redisDown then none
  else match live now (s.linkCache code) with
    | some ⟨LinkVal.json d, _⟩ => some d
    | some ⟨LinkVal.garbled, _⟩ => none   -- json.Unmarshal fails
    | some ⟨LinkVal.empty, _⟩ => none     -- data == ""
    | none => none                        -- redis.Nil

/-- The conversion of a Go `uint` to `int` (both 64 bits wide), as in
`domain.RedirectType(cacheData.DefaultRedirect)`: the same bits, read as a signed number. -/
def intOfUint (u : Nat) : Int :=
  if u % 2 ^ 64 < 2 ^ 63 then ((u % 2 ^ 64 : Nat) : Int) else ((u % 2 ^ 64 : Nat) : Int) - 2 ^ 64

/-- The record `GetByCode` builds from a decoded payload: the payload has no `user_id`. -/
def linkOfPayload (code : String) (cacheData : CacheData) : ShortLink :=
  { ID := cacheData.ID
    ShortCode := code
    LongURL := cacheData.LongURL
    UserID := 0
    Clicks := cacheData.Clicks
    MaxVisits := cacheData.MaxVisits
    ExpiresAt := cacheData.ExpiresAt
    NeverExpire := cacheData.NeverExpire
    DefaultRedirect := intOfUint cacheData.DefaultRedirect
    Rules := []
    CreatedAt := cacheData.CreatedAt
    UpdatedAt := cacheData.UpdatedAt }

/-- The second part of `GetByCode`: the query of `short_links`, the empty value written
for five minutes on a miss, the default of `default_redirect`, and `setCache`. -/
def readDurable (now : Time) (code : String) (s : Store) : Except Err ShortLink × Store :=
  -- 从数据库中获取
  let s := { s with dbQueries := s.dbQueries + 1 }
  if s.dbDown then (.error Err.ErrShortLinkNotFound, s)
  else match s.links.find? (fun row => row.ShortCode = code) with
    | none =>
      -- 设置空值缓存，防止缓存穿透
      let s := if s.redisDown then s
        else { s with linkCache := (Function.update s.linkCache code
                (some ⟨LinkVal.empty, some (now + 5 * Minute)⟩)) }
      (.error Err.ErrShortLinkNotFound, s)
    | some link =>
      -- 如果default_redirect为0,设置为默认值1
      let link := if link.DefaultRedirect = 0 then
          { link with DefaultRedirect := RedirectPermanent } else link
      -- 设置缓存
      (.ok link, (setCache now link s).2)

/-- `ShortLinkRepository.GetByCode`. -/
def GetByCode (now : Time) (code : String) (s : Store) : Except Err ShortLink × Store :=
  -- 先从Redis缓存中获取
  match cachedPayload now code s with
  | some cacheData => (.ok (linkOfPayload code cacheData), s)
  | none => readDurable now code s

/-- `ShortLinkRepository.Update`: gorm `Save` writes every column of the row whose primary
key is `link.ID` (and inserts the record when there is no such row), then `setCache`. -/
def ShortLinkRepository.Update (now : Time) (link : ShortLink) (s : Store) :
    Option Err × Store :=
  let s := { s with dbQueries := s.dbQueries + 1 }
  if s.dbDown then
    (some (Err.wrapped "failed to update short link" (Err.external "db: down")), s)
  else
    let row := { link with Rules := [] }
    let s := if s.links.any (fun r => r.ID = link.ID) then
        { s with links := s.links.map (fun r => if r.ID = link.ID then row else r) }
      else { s with links := s.links ++ [row] }
    -- 更新缓存
    (none, (setCache now link s).2)

/-- The `ORDER BY priority DESC` of `GetRules`. -/
def orderByPriorityDesc (rs : List RedirectRule) : List RedirectRule :=
  rs.insertionSort (fun a b => a.Priority ≥ b.Priority)

/-- `ShortLinkRepository.GetRules`, up to the `go r.setRulesCache(...)` it starts, which is
the operation `setRulesCache` below. -/
def GetRules (now : Time) (shortLinkID : Nat) (s : Store) :
    Except Err (List RedirectRule) × Store :=
  -- 尝试从缓存获取
  let cached : Option (List RedirectRule) :=
    if s.redisDown then none
    else match live now (s.rulesCache shortLinkID) with
      | some ⟨some rules, _⟩ => some rules
      | _ => none
  match cached with
  | some rules => (.ok rules, s)
  | none =>
    -- 缓存未命中,从数据库查询
    let s := { s with dbQueries := s.dbQueries + 1 }
    if s.dbDown then (.error (Err.wrapped "failed to get rules" (Err.external "db: down")), s)
    else (.ok (orderByPriorityDesc (s.rules.filter (fun r => r.ShortLinkID = shortLinkID))), s)

/-- `ShortLinkRepository.setRulesCache`: the value is kept for five minutes. -/
def setRulesCache (now : Time) (shortLinkID : Nat) (rules : List RedirectRule) (s : Store) :
    Option Err × Store :=
  if s.redisDown then (some (Err.external "redis: set failed"), s)
  else (none, { s with rulesCache := (Function.update s.rulesCache shortLinkID
          (some ⟨some rules, some (now + 5 * Minute)⟩)) })

/-- `ShortLinkRepository.CreateRule`: the `INSERT ... RETURNING id`; the two timestamps
written are the clock. Returns the rule behind the pointer as well. -/
def CreateRule (now : Time) (rule : RedirectRule) (s : Store) :
    Option Err × RedirectRule × Store :=
  let s := { s with dbQueries := s.dbQueries + 1 }
  if s.dbDown then (some (Err.wrapped "failed to create rule" (Err.external "db: down")), rule, s)
  else
    let rule := { rule with ID := s.nextRuleID }
    (none, rule, { s with rules := s.rules ++ [{ rule with CreatedAt := now, UpdatedAt := now }],
                          nextRuleID := s.nextRuleID + 1 })

/-- `ShortLinkRepository.UpdateRule`: the `UPDATE redirect_rules SET ... WHERE id = ?`,
which writes every column but `short_link_id` and `created_at`; `updated_at` is the
clock. -/
def UpdateRule (now : Time) (rule : RedirectRule) (s : Store) : Option Err × Store :=
  let s := { s with dbQueries := s.dbQueries + 1 }
  if s.dbDown then (some (Err.wrapped "failed to update rule" (Err.external "db: down")), s)
  else
    (none, { s with rules := s.rules.map (fun row =>
      if row.ID = rule.ID then
        { rule with ShortLinkID := row.ShortLinkID, CreatedAt := row.CreatedAt, UpdatedAt := now }
      else row) })

/-- `ShortLinkRepository.DeleteRule`: the delete by primary key. -/
def DeleteRule (ruleID : Nat) (s : Store) : Option Err × Store :=
  let s := { s with dbQueries := s.dbQueries + 1 }
  if s.dbDown then (some (Err.wrapped "failed to delete rule" (Err.external "db: down")), s)
  else (none, { s with rules := s.rules.filter (fun row => row.ID ≠ ruleID) })

/-- The inserts of `UpdateRules`: each rule gets the next primary key and the link id. -/
def insertRules (shortLinkID : Nat) : List RedirectRule → Nat → List RedirectRule
  | [], _ => []
  | rule :: rest, next =>
    { rule with ID := next, ShortLinkID := shortLinkID } :: insertRules shortLinkID rest (next + 1)

/-- `ShortLinkRepository.UpdateRules`: in one transaction the rules of the link are
deleted and the new ones inserted; then `rules:<id>` is deleted from Redis, an error of
which is only printed. -/
def UpdateRules (shortLinkID : Nat) (rules : List RedirectRule) (s : Store) :
    Option Err × Store :=
  let s := { s with dbQueries := s.dbQueries + 1 }
  if s.dbDown then
    (some (Err.wrapped "failed to delete existing rules" (Err.external "db: down")), s)
  else
    let s := { s with
      rules := s.rules.filter (fun row => row.ShortLinkID ≠ shortLinkID) ++
        insertRules shortLinkID rules s.nextRuleID
      nextRuleID := s.nextRuleID + rules.length }
    -- 删除规则缓存
    if s.redisDown then (none, s)
    else (none, { s with rulesCache := Function.update s.rulesCache shortLinkID none })

/-- The value of `r.redis.TTL(ctx, key).Val()` for a key that is there at `now`: Redis
answers the remaining life in whole seconds, rounded to the nearest, and go-redis makes
a `time.Duration` of it; for a key without a time to live the answer is the duration
`-1`. -/
def redisTTL (now : Time) (expireAt : Option Time) : Int :=
  match expireAt with
  | some t => ((t - now + 500000000) / Second) * Second
  | none => -1

/-- The expiry of a key written at `now` by `r.redis.Set(ctx, key, value, ttl)` over a key
whose expiry was `old`: a positive `ttl` is the new time to live, the duration `-1`
(`redis.KeepTTL`) keeps what the key had, and any other value stores the key without a
time to live. -/
def expiryAfterSet (now : Time) (old : Option Time) (ttl : Int) : Option Time :=
  if ttl > 0 then some (now + ttl)
  else if ttl = -1 then old
  else none

/-- `ShortLinkRepository.IncrementClicks`, up to the two goroutines it starts: the Redis
`INCR` of `clicks:<code>`, then the bump of the cached payload. The struct the payload is
decoded into here has no `NeverExpire` field, so the payload written back has no
`never_expire` key and decodes with `NeverExpire = false`; `Clicks` is a `uint64`. The
payload is written back with the time to live that `TTL` reports for the key. -/
def IncrementClicks (now : Time) (code : String) (s : Store) : Option Err × Store :=
  -- 递增Redis计数器
  if s.redisDown then (some (Err.external "redis: incr failed"), s)
  else
    let s := { s with counter := (Function.update s.counter code
      (some ((s.counter code).getD 0 + 1))) }
    -- 如果有缓存,也更新缓存中的clicks
    match live now (s.linkCache code) with
    | some ⟨LinkVal.json d, expireAt⟩ =>
      -- 使用原有的过期时间
      let ttl := redisTTL now expireAt
      (none, { s with linkCache := (Function.update s.linkCache code
        (some ⟨LinkVal.json { d with Clicks := (d.Clicks + 1) % 2 ^ 64, NeverExpire := false },
          expiryAfterSet now expireAt ttl⟩)) })
    | _ => (none, s)

/-- The first half of the drain goroutine of `IncrementClicks`: `SetNX` of the lock
`clicks_sync:<code>` for ten seconds and, when it is acquired, the read of the counter.
The result is the local variable `count` when the goroutine goes on to the update
(`count > 0`); otherwise the goroutine ends (and its deferred `Del` releases the lock it
took). -/
def drainRead (now : Time) (code : String) (s : Store) : Option Int × Store :=
  if s.redisDown then (none, s)
  else match (match s.lock code with
      | some t => decide (now < t)
      | none => false) with
    | true => (none, s)          -- 锁被占用
    | false =>
      match s.counter code with
      | none => (none, { s with lock := Function.update s.lock code none })
      | some count =>
        if count > 0 then
          (some count, { s with lock := Function.update s.lock code (some (now + 10 * Second)) })
        else (none, { s with lock := Function.update s.lock code none })

/-- The second half of the drain goroutine: inside one transaction
`UPDATE short_links SET clicks = clicks + count WHERE short_code = code`, then
`DecrBy(clicks:<code>, count)`; an error of either rolls the transaction back. The
deferred `Del` releases the lock. -/
def drainApply (code : String) (count : Int) (s : Store) : Store :=
  let s := { s with dbQueries := s.dbQueries + 1 }
  if s.dbDown then { s with lock := Function.update s.lock code none }
  else if s.redisDown then s
  else
    { s with
      links := s.links.map (fun row =>
        if row.ShortCode = code then { row with Clicks := ((row.Clicks : Int) + count).toNat }
        else row)
      counter := Function.update s.counter code (some ((s.counter code).getD 0 - count))
      lock := Function.update s.lock code none }

/-- One whole run of the drain goroutine with nothing in between its two halves. -/
def syncClicks (now : Time) (code : String) (s : Store) : Store :=
  match drainRead now code s with
  | (some count, s1) => drainApply code count s1
  | (none, s1) => s1

/-- `ShortLinkRepository.LogClick`, up to the goroutine that inserts the row: it returns
`nil`. -/
def LogClick (_log : ClickLog) (s : Store) : Option Err × Store := (none, s)

/-- The goroutine of `LogClick`: the insert into `click_logs`, whose error is only
printed. -/
def logInsert (log : ClickLog) (s : Store) : Store :=
  let s := { s with dbQueries := s.dbQueries + 1 }
  if s.dbDown then s else { s with logs := s.logs ++ [log] }

/-- The repository as the use case sees it, at clock reading `now`. -/
def repository (now : Time) : Repo Store :=
  { GetByCode := GetByCode now
    GetRules := GetRules now
    IncrementClicks := IncrementClicks now
    LogClick := LogClick
    Update := ShortLinkRepository.Update now
    Create := ShortLinkRepository.Create now }

/-- The value of the column `clicks` of the row of `code` in `short_links`. -/
def durableClicks (s : Store) (code : String) : Option Nat :=
  (s.links.find? (fun row => row.ShortCode = code)).map (fun row => row.Clicks)

/-- The value of the counter `clicks:<code>` (an absent key counts as 0). -/
def bufferedClicks (s : Store) (code : String) : Int := (s.counter code).getD 0

/-- The sum the drain protocol keeps: the durable `clicks` of the row of `code` plus the
buffered counter `clicks:<code>`. -/
def clicksTotal (s : Store) (code : String) : Int :=
  (((durableClicks s code).getD 0 : Nat) : Int) + bufferedClicks s code

/-- The steps of the counter protocol of one code: an `IncrementClicks` on the hot path,
the first half of a drain goroutine (lock and read), and the second half of the oldest
drain goroutine that has read and not yet written (update and subtract). -/
inductive ClickOp where
  | increment (now : Time)
  | read (now : Time)
  | apply
  deriving DecidableEq, Repr

/-- The stores together with the local variable `count` of every drain goroutine that is
between its read and its update, oldest first. -/
structure DrainState where
  store : Store
  pending : List Int

/-- One step of the counter protocol. -/
def clickStep (code : String) : ClickOp → DrainState → DrainState
  | .increment now, st => { st with store := (IncrementClicks now code st.store).2 }
  | .read now, st =>
    match drainRead now code st.store with
    | (some count, s1) => ⟨s1, st.pending ++ [count]⟩
    | (none, s1) => ⟨s1, st.pending⟩
  | .apply, st =>
    match st.pending with
    | count :: rest => ⟨drainApply code count st.store, rest⟩
    | [] => st

/-- A run of the counter protocol. -/
def clickRun (code : String) : List ClickOp → DrainState → DrainState
  | [], st => st
  | op :: ops, st => clickRun code ops (clickStep code op st)

/-- The number of `IncrementClicks` steps of a run. -/
def increments : List ClickOp → Nat
  | [] => 0
  | .increment _ :: ops => increments ops + 1
  | _ :: ops => increments ops

/-! ## internal/delivery/http: the resolve endpoint -/

/-- A JSON body sent by a handler: `gin.H{"code": .., "message": .., "details": ..}`,
`gin.H{"error": .., "details": ..}` (the second key is not always there), or a link
record. -/
inductive Body where
  | coded (code : Nat) (message : String) (details : String)
  | failure (error : String) (details : Option String)
  | shortLink (link : ShortLink)
  deriving DecidableEq, Repr

/-- What a handler writes: `c.JSON(status, body)` or `c.Redirect(status, location)`. -/
inductive Response where
  | json (status : Nat) (body : Body)
  | redirect (status : Nat) (location : String)
  deriving DecidableEq, Repr

/-- The HTTP status of a response. -/
def Response.status : Response → Nat
  | .json status _ => status
  | .redirect status _ => status

/-- `ShortLinkHandler.validateCode`; `len(code)` is the length in bytes. -/
def validateCode (code : String) : Option Err :=
  if code = "" then some (Err.plain "short code is required")
  else if code.utf8ByteSize > 16 then some (Err.plain "short code too long")
  else none

/-- The status switch of `ShortLinkHandler.Redirect` on the redirect type. -/
def statusCode (redirectType : RedirectType) : Nat :=
  if redirectType = RedirectPermanent then 301            -- http.StatusMovedPermanently
  else if redirectType = RedirectTemporary then 302       -- http.StatusFound
  else if redirectType = RedirectTemporaryKeepMethod then 307  -- http.StatusTemporaryRedirect
  else if redirectType = RedirectPermanentKeepMethod then 308  -- http.StatusPermanentRedirect
  else 301                                                -- 默认301

/-- The error switch of `ShortLinkHandler.Redirect`: `switch { case errors.Is(err, ..) }`. -/
def redirectError (err : Err) : Response :=
  if err.Is Err.ErrShortLinkNotFound then
    .json 404 (.coded 404001 "短链接不存在" "请检查短链接是否正确")
  else if err.Is Err.ErrShortLinkExpired then
    .json 410 (.coded 410001 "短链接已过期" "该链接已超过设定的有效期，无法访问")
  else if err.Is Err.ErrMaxVisitsReached then
    .json 403 (.coded 403001 "访问次数已达上限" "该短链接的访问次数已达到限制,无法继续访问")
  else
    .json 500 (.coded 500001 "服务器内部错误" "请稍后重试，如果问题持续存在请联系管理员")

/-- The click log `ShortLinkHandler.Redirect` builds for a request: `clientIP`,
`userAgent` and `referer` are what gin reads from the request, `now` is the clock read
for `CreatedAt`, `detectDevice` is the handler's device detection. -/
def requestClickLog (env : Env) (detectDevice : String → DeviceType) (now : Time)
    (clientIP userAgent referer : String) : ClickLog :=
  { ID := 0
    ShortLinkID := 0
    RuleID := none
    IP := clientIP
    UserAgent := userAgent
    Referer := referer
    Device := detectDevice userAgent
    Country := (env.GetIPRegion clientIP).Country
    CreatedAt := now }

/-- `ShortLinkHandler.Redirect` for a request `GET /{code}`. -/
def ShortLinkHandler.Redirect {σ : Type} (repo : Repo σ) (env : Env)
    (detectDevice : String → DeviceType) (now : Time)
    (code clientIP userAgent referer : String) (s : σ) : Response × σ :=
  match validateCode code with
  | some err => (.json 400 (.failure "无效的短码" (some err.Error)), s)
  | none =>
    match (Linkit.Redirect repo env code
        (requestClickLog env detectDevice now clientIP userAgent referer) s).result with
    | .error err =>
      (redirectError err, (Linkit.Redirect repo env code
        (requestClickLog env detectDevice now clientIP userAgent referer) s).state)
    | .ok (url, redirectType) =>
      -- 根据规则设置不同的状态码
      (.redirect (statusCode redirectType) url, (Linkit.Redirect repo env code
        (requestClickLog env detectDevice now clientIP userAgent referer) s).state)

/-! ## pkg/utils: shortcode.go -/

/-- The constant `charset`: 默认字符集. -/
def charset : String := "abcdefghijklmnopqrstuvwxyzABCDEFGHIJKLMNOPQRSTUVWXYZ0123456789"

/-- The constant `customCodePattern`: 自定义短码的正则表达式. -/
def customCodePattern : String := "^[a-zA-Z0-9-_]{4,16}$"

/-- The expression `charset[n.Int64()]` for a draw `n` of
`rand.Int(rand.Reader, big.NewInt(len(charset)))`, which lies in `0..61`. -/
def charsetAt (n : Fin 62) : Char := charset.data.get (n.cast (by decide))

/-- The loop of `GenerateShortCode`: `remaining` iterations are left, the next one has
index `i`, `b` holds the bytes written so far. `draws i` is the result of the call of
`rand.Int` made by iteration `i`. -/
def generateLoop (draws : Nat → Except Err (Fin 62)) : Nat → Nat → List Char →
    String × Option Err
  | 0, _, b => (String.mk b, none)
  | remaining + 1, i, b =>
    match draws i with
    | .error err => ("", some err)
    | .ok n => generateLoop draws remaining (i + 1) (b ++ [charsetAt n])

/-- `utils.GenerateShortCode` for a length that is not negative (`make` panics on a
negative one). The result is the pair `(string, error)` of the Go function. -/
def GenerateShortCode (length : Nat) (draws : Nat → Except Err (Fin 62)) :
    String × Option Err :=
  generateLoop draws length 0 []

/-! ### The fragment of Go's `regexp` that `customCodePattern` uses

A pattern is a sequence of pieces; a piece is an atom with a repetition `{min,max}`
(`{1,1}` when none is written). The atoms are `^` (beginning of the text, the multi-line
flag being off), `$` (end of the text), a literal character, and a bracket class of
single characters and ranges. Any other syntax is not compiled. -/

/-- An atom of a pattern. -/
inductive Atom where
  | beginText
  | endText
  | charClass (ranges : List (Char × Char))
  deriving DecidableEq, Repr

/-- An atom with its repetition. -/
structure Piece where
  atom : Atom
  min : Nat
  max : Nat
  deriving DecidableEq, Repr

/-- The characters that have a meaning of their own in a pattern. -/
def metaChars : List Char :=
  ['\\', '.', '+', '*', '?', '(', ')', '|', '[', ']', '{', '}', '^', '$']

/-- The body of a bracket class, as `parseClass` of `regexp/syntax` reads it with the Perl
flags: until the closing `]` (which is a literal when it comes first), read a character
`lo`; if a `-` follows that is not the last character of the class, read `hi` and add the
range `lo-hi` (an error when `hi < lo`), otherwise add the single character `lo`. A `-`
that does not follow a `lo` is therefore itself a `lo`. Escapes, negation and named
classes are outside the fragment. -/
def parseClass : Nat → Bool → List Char → List (Char × Char) →
    Option (List (Char × Char) × List Char)
  | 0, _, _, _ => none
  | fuel + 1, first, t, acc =>
    match t with
    | [] => none                                   -- missing closing ]
    | ']' :: rest =>
      if first then
        match rest with
        | '-' :: hi :: rest2 =>
          if hi = ']' then parseClass fuel false rest (acc ++ [(']', ']')])
          else if hi < ']' then none
          else parseClass fuel false rest2 (acc ++ [(']', hi)])
        | _ => parseClass fuel false rest (acc ++ [(']', ']')])
      else some (acc, rest)
    | lo :: rest =>
      if lo = '\\' ∨ lo = '[' ∨ (first ∧ lo = '^') then none
      else
        match rest with
        | '-' :: hi :: rest2 =>
          if hi = ']' then parseClass fuel false rest (acc ++ [(lo, lo)])
          else if hi = '\\' then none
          else if hi < lo then none              -- invalid character class range
          else parseClass fuel false rest2 (acc ++ [(lo, hi)])
        | _ => parseClass fuel false rest (acc ++ [(lo, lo)])

/-- A run of decimal digits at the head of the text, as a number, and the rest of the
text; `none` when the text does not start with a digit. -/
def parseNat : Nat → List Char → Option Nat → Option (Nat × List Char)
  | 0, _, _ => none
  | fuel + 1, t, acc =>
    match t with
    | c :: rest =>
      if c.isDigit then parseNat fuel rest (some (acc.getD 0 * 10 + (c.toNat - '0'.toNat)))
      else acc.map (fun n => (n, t))
    | [] => acc.map (fun n => (n, t))

/-- A repetition `{n}` or `{n,m}` at the head of the text; the pair `(1, 1)` and the text
unchanged when there is none. Other repetition operators are outside the fragment. -/
def parseRepeat (t : List Char) : Option ((Nat × Nat) × List Char) :=
  match t with
  | '{' :: rest =>
    match parseNat (rest.length + 1) rest none with
    | some (n, '}' :: rest2) => some ((n, n), rest2)
    | some (n, ',' :: rest2) =>
      match parseNat (rest2.length + 1) rest2 none with
      | some (m, '}' :: rest3) => if m < n then none else some ((n, m), rest3)
      | _ => none
    | _ => none
  | c :: _ => if c = '*' ∨ c = '+' ∨ c = '?' then none else some ((1, 1), t)
  | [] => some ((1, 1), t)

/-- The pieces of a pattern. -/
def parsePieces : Nat → List Char → Option (List Piece)
  | 0, _ => none
  | fuel + 1, t =>
    match t with
    | [] => some []
    | c :: rest =>
      match (if c = '^' then some (Atom.beginText, rest)
          else if c = '$' then some (Atom.endText, rest)
          else if c = '[' then
            (parseClass (rest.length + 1) true rest []).map
              (fun p => (Atom.charClass p.1, p.2))
          else if c ∈ metaChars then none
          else some (Atom.charClass [(c, c)], rest)) with
      | none => none
      | some (atom, rest1) =>
        match parseRepeat rest1 with
        | none => none
        | some ((min, max), rest2) =>
          (parsePieces fuel rest2).map (fun ps => ⟨atom, min, max⟩ :: ps)

/-- `regexp.Compile` on the fragment: `none` is a compile error. -/
def compile (pattern : String) : Option (List Piece) :=
  parsePieces (pattern.data.length + 1) pattern.data

/-- Whether a character lies in one of the ranges of a class. -/
def inClass (ranges : List (Char × Char)) (c : Char) : Bool :=
  ranges.any (fun r => decide (r.1 ≤ c) && decide (c ≤ r.2))

/-- One step of an atom at a position of the text: the position is the number of
characters before it and the characters from it on. An assertion consumes nothing, a
class consumes one character. -/
def matchAtom : Atom → Nat × List Char → Option (Nat × List Char)
  | .beginText, (pos, rest) => if pos = 0 then some (pos, rest) else none
  | .endText, (pos, rest) => if rest = [] then some (pos, rest) else none
  | .charClass ranges, (pos, rest) =>
    match rest with
    | c :: cs => if inClass ranges c then some (pos + 1, cs) else none
    | [] => none

/-- An atom repeated between `min` and `max` times, followed by the continuation `k`. -/
def repeatAtom (atom : Atom) (k : Nat × List Char → Bool) :
    Nat → Nat → Nat × List Char → Bool
  | 0, min, st => decide (min = 0) && k st
  | max + 1, min, st =>
    (decide (min = 0) && k st) ||
      (match matchAtom atom st with
       | none => false
       | some st1 => repeatAtom atom k max (min - 1) st1)

/-- Whether the pieces match at a position, up to any end position. -/
def matchPieces : List Piece → Nat × List Char → Bool
  | [], _ => true
  | p :: ps, st => repeatAtom p.atom (matchPieces ps) p.max p.min st

/-- `Regexp.MatchString`: the pattern matches somewhere in the text. -/
def matchString (re : List Piece) (s : String) : Bool :=
  (List.range (s.data.length + 1)).any (fun i => matchPieces re (i, s.data.drop i))

/-- `utils.ValidateCustomCode`: `match, _ := regexp.MatchString(customCodePattern, code)`;
on a compile error `match` is `false`. -/
def ValidateCustomCode (code : String) : Bool :=
  match compile customCodePattern with
  | some re => matchString re code
  | none => false

/-! ## internal/usecase: Create; internal/delivery/http: the create endpoint -/

/-- `domain.CreateShortLinkInput`. -/
structure CreateShortLinkInput where
  LongURL : String
  CustomCode : String
  ExpiresAt : Time
  UserID : Nat
  DefaultRedirect : RedirectType
  NeverExpire : Bool
  deriving DecidableEq, Repr

/-- What one call of the use case `Create` reads from outside the repository:
`urlParse` is `url.Parse` (see `validateURL`), `length` is
`viper.GetInt("shortlink.length")`, `draws` are the calls of `rand.Int` made by
`GenerateShortCode`, `expiration` is
`time.ParseDuration(viper.GetString("shortlink.expiration"))`, `addDate100 t` is
`t.AddDate(100, 0, 0)`, and the three clock readings are the `time.Now()` of the expiry
computation, of `CreatedAt` and of `UpdatedAt`, in that order. -/
structure CreateEnv where
  urlParse : String → Except String String
  length : Nat
  draws : Nat → Except Err (Fin 62)
  expiration : Except String Int
  addDate100 : Time → Time
  nowExpire : Time
  nowCreated : Time
  nowUpdated : Time

/-- `ShortLinkUseCase.Create`. -/
def ShortLinkUseCase.Create {σ : Type} (repo : Repo σ) (cenv : CreateEnv)
    (input : CreateShortLinkInput) (s : σ) : Except Err ShortLink × σ :=
  -- 验证URL安全性
  match validateURL cenv.urlParse input.LongURL with
  | some err => (.error err, s)
  | none =>
    -- 验证自定义短码
    match (if input.CustomCode ≠ "" then
        if ValidateCustomCode input.CustomCode = false then
          (some (Err.suffixed Err.ErrInvalidCustomCode "invalid format"), s)
        else
          -- 检查自定义短码是否已存在
          match repo.GetByCode input.CustomCode s with
          | (.ok _, s1) => (some Err.ErrCustomCodeExists, s1)
          | (.error err, s1) =>
            if err ≠ Err.ErrShortLinkNotFound then
              (some (Err.wrapped "failed to check custom code" err), s1)
            else (none, s1)
      else (none, s)) with
    | (some err, s1) => (.error err, s1)
    | (none, s1) =>
      -- 生成短码
      match (if input.CustomCode ≠ "" then (input.CustomCode, none)
          else GenerateShortCode cenv.length cenv.draws) with
      | (_, some err) => (.error (Err.wrapped "failed to generate short code" err), s1)
      | (shortCode, none) =>
        -- 设置过期时间
        match (if input.NeverExpire then Except.ok (cenv.addDate100 cenv.nowExpire)
            else if input.ExpiresAt = zeroTime then
              match cenv.expiration with
              | .error e =>
                Except.error
                  (Err.wrapped "failed to parse expiration duration" (Err.external e))
              | .ok duration => Except.ok (cenv.nowExpire + duration)
            else Except.ok input.ExpiresAt) with
        | .error err => (.error err, s1)
        | .ok expiresAt =>
          -- 创建短链接
          match repo.Create
              { ID := 0
                ShortCode := shortCode
                LongURL := input.LongURL
                UserID := input.UserID
                Clicks := 0
                MaxVisits := none
                ExpiresAt := expiresAt
                NeverExpire := input.NeverExpire
                DefaultRedirect := input.DefaultRedirect
                Rules := []
                CreatedAt := cenv.nowCreated
                UpdatedAt := cenv.nowUpdated } s1 with
          | (some err, _, s2) => (.error (Err.wrapped "failed to create short link" err), s2)
          | (none, shortLink, s2) => (.ok shortLink, s2)

/-- `strings.Contains`. -/
def stringsContains (s substr : String) : Bool :=
  s.data.tails.any (fun t => substr.data.isPrefixOf t)

/-- `ShortLinkHandler.handleError`: a `switch err` on the error value itself, then a
look at the text of the error. -/
def handleError (err : Err) : Response :=
  if err = Err.ErrInvalidURL then
    .json 400 (.coded 400001 "无效的URL格式"
      "请检查URL是否正确，必须是以http://或https://开头的完整URL")
  else if err = Err.ErrCustomCodeExists then
    .json 409 (.coded 409001 "自定义短码已被使用" "请尝试使用其他短码，或让系统自动生成短码")
  else if err = Err.ErrInvalidCustomCode then
    .json 400 (.coded 400002 "无效的自定义短码"
      "短码只能包含字母、数字、下划线和中划线，长度在4-16个字符之间")
  else if err = Err.ErrShortLinkNotFound then
    .json 404 (.coded 404001 "短链接不存在" "请检查短码是否正确，或者该链接可能已被删除")
  else if err = Err.ErrShortLinkExpired then
    .json 410 (.coded 410001 "短链接已过期" "该链接已超过设定的有效期，无法访问")
  else if err = Err.ErrRateLimitExceeded then
    .json 429 (.coded 429001 "请求频率超限" "请稍后再试")
  -- 检查是否包含特定错误信息
  else if stringsContains err.Error "failed to check custom code" then
    .json 400 (.coded 400003 "短码验证失败" "请检查短码格式是否正确")
  -- 其他未预期的错误
  else .json 500 (.coded 500001 "服务器内部错误" "请稍后重试，如果问题持续存在请联系管理员")

/-- `ShortLinkHandler.Create` for a request whose body has passed `ShouldBindJSON` and
bound to `input`; `now` is the clock read by the check of `ExpiresAt`. -/
def ShortLinkHandler.Create {σ : Type} (repo : Repo σ) (cenv : CreateEnv)
    (now : Time) (input : CreateShortLinkInput) (s : σ) : Response × σ :=
  -- 验证过期时间
  if input.ExpiresAt ≠ zeroTime ∧ input.ExpiresAt < now then
    (.json 400 (.failure "过期时间不能早于当前时间" none), s)
  else
    -- 设置默认跳转类型
    let input := if input.DefaultRedirect = 0 then
        { input with DefaultRedirect := RedirectPermanent } else input
    match ShortLinkUseCase.Create repo cenv input s with
    | (.error err, s1) => (handleError err, s1)
    | (.ok shortLink, s1) => (.json 201 (.shortLink shortLink), s1)

/-! ## internal/delivery/http: detectDevice -/

/-- Go's `unicode.ToLower`: an ASCII character is lower-cased by the function itself
(`A`..`Z` move to `a`..`z`, the others stay); a character outside ASCII is looked up in
the case tables of the `unicode` package, here `table`. -/
def unicodeToLower (table : Char → Char) (r : Char) : Char :=
  if r.toNat ≤ 127 then
    if 'A' ≤ r ∧ r ≤ 'Z' then Char.ofNat (r.toNat + 32) else r
  else table r

/-- Go's `strings.ToLower`: the string with every character mapped by `unicode.ToLower`. -/
def stringsToLower (table : Char → Char) (s : String) : String :=
  ⟨s.data.map (unicodeToLower table)⟩

/-- `ShortLinkHandler.detectDevice`. -/
def detectDevice (table : Char → Char) (userAgent : String) : DeviceType :=
  let ua := stringsToLower table userAgent
  if stringsContains ua "mobile" then DeviceMobile
  else if stringsContains ua "tablet" then DeviceTablet
  else DeviceDesktop

/-- Two characters that differ at most in case, by the case folding of Lean's library
(`A`..`Z` against `a`..`z`). -/
def equalFold (a b : Char) : Bool := decide (a.toLower = b.toLower)

/-- The characters of `word` stand at the head of `cs`, case not told apart. -/
def startsWithFold : List Char → List Char → Bool
  | [], _ => true
  | _ :: _, [] => false
  | w :: ws, c :: cs => equalFold w c && startsWithFold ws cs

/-- The scan of the specification: `word` occurs somewhere in `s`, case not told
apart. -/
def containsFold (s word : String) : Bool := s.data.tails.any (startsWithFold word.data)

/-- The device of the specification: Mobile for a user agent with `mobile` in any case,
else Tablet for one with `tablet` in any case, else Desktop. -/
def deviceOfSpec (userAgent : String) : DeviceType :=
  if containsFold userAgent "mobile" then DeviceMobile
  else if containsFold userAgent "tablet" then DeviceTablet
  else DeviceDesktop

/-- A word of lower-case ASCII letters. -/
def lowerWord (word : String) : Prop := ∀ m ∈ word.data, m.toNat ≤ 127 ∧ m.toLower = m

/-! ## pkg/utils: ip.go -/

/-- The region returned for local addresses: every field is `LOCAL`. -/
def localRegion : RegionInfo :=
  { Country := "LOCAL", Region := "LOCAL", Province := "LOCAL", City := "LOCAL", ISP := "LOCAL" }

/-- The region returned when nothing is known: every field is `UNKNOWN`. -/
def unknownRegion : RegionInfo :=
  { Country := "UNKNOWN", Region := "UNKNOWN", Province := "UNKNOWN", City := "UNKNOWN",
    ISP := "UNKNOWN" }

/-- The segments of a character list between the occurrences of `sep`. -/
def splitChars (sep : Char) : List Char → List (List Char)
  | [] => [[]]
  | c :: cs =>
    if c = sep then [] :: splitChars sep cs
    else match splitChars sep cs with
      | p :: ps => (c :: p) :: ps
      | [] => [[c]]

/-- Go's `strings.Split(s, sep)` for a separator of one character: the substrings of `s`
between the separators, one more than there are separators. -/
def stringsSplit (s : String) (sep : Char) : List String :=
  (splitChars sep s.data).map String.mk

/-- `parseRegion`. The index expressions `parts[0]`..`parts[4]` are reached with
`len(parts) = 5`. -/
def parseRegion (region : String) : RegionInfo :=
  let parts := stringsSplit region '|'
  if parts.length ≠ 5 then unknownRegion
  else
    -- 处理"0"值
    let parts := parts.map (fun p => if p = "0" then "" else p)
    { Country := parts.getD 0 ""
      Region := parts.getD 1 ""
      Province := parts.getD 2 ""
      City := parts.getD 3 ""
      ISP := parts.getD 4 "" }

/-- Go's `net.IP`: a slice of bytes, four for an IPv4 address and sixteen for an IPv6
address or an IPv4 address in its IPv6 form. -/
abbrev IP := List (Fin 256)

/-- Go's `net.IPv6loopback`, the address `::1`. -/
def IPv6loopback : IP := [0, 0, 0, 0, 0, 0, 0, 0, 0, 0, 0, 0, 0, 0, 0, 1]

/-- Go's `IP.To4`: the four bytes of an IPv4 address, given in four bytes or as
`::ffff:a.b.c.d` in sixteen; `none` is the Go `nil`. -/
def IP.To4 (ip : IP) : Option IP :=
  if ip.length = 4 then some ip
  else if ip.length = 16 ∧ ip.take 10 = List.replicate 10 0 ∧ ip.getD 10 0 = 0xff ∧
      ip.getD 11 0 = 0xff then some (ip.drop 12)
  else none

/-- Go's `IP.IsPrivate`: RFC 1918 for an IPv4 address, RFC 4193 for an IPv6 address. -/
def IP.IsPrivate (ip : IP) : Bool :=
  match IP.To4 ip with
  | some ip4 =>
    (ip4.getD 0 0).val = 10 ||
      ((ip4.getD 0 0).val = 172 && (ip4.getD 1 0).val &&& 0xf0 = 16) ||
      ((ip4.getD 0 0).val = 192 && (ip4.getD 1 0).val = 168)
  | none => ip.length = 16 && (ip.getD 0 0).val &&& 0xfe = 0xfc

/-- Go's `IP.IsLoopback`. -/
def IP.IsLoopback (ip : IP) : Bool :=
  match IP.To4 ip with
  | some ip4 => (ip4.getD 0 0).val = 127
  | none => ip = IPv6loopback

/-- `GetIPRegion`. `parseIP` is `net.ParseIP` (`none` is the Go `nil`); `searcher` is the
package variable, `none` before `InitIPSearcher`, and otherwise the method `SearchByStr`
of the loaded database. -/
def GetIPRegion (parseIP : String → Option IP) (searcher : Option (String → Except String String))
    (ip : String) : RegionInfo :=
  -- 处理本地回环地址
  if ip = "127.0.0.1" ∨ ip = "::1" ∨ ip = "localhost" then localRegion
  else
    -- 检查是否是私有IP
    match (match parseIP ip with
        | some ipAddr => IP.IsPrivate ipAddr || IP.IsLoopback ipAddr
        | none => false) with
    | true => localRegion
    | false =>
      -- 如果searcher未初始化，返回UNKNOWN
      match searcher with
      | none => unknownRegion
      | some searchByStr =>
        -- 搜索IP地区
        match searchByStr ip with
        | .error _ => unknownRegion
        | .ok region => parseRegion region

/-- The address ranges the specification names as local, in numbers: the IPv4 ranges
127.0.0.0/8, 10.0.0.0/8, 172.16.0.0/12 and 192.168.0.0/16 (for an address in four bytes or
in its IPv6 form), and the IPv6 address `::1`. -/
def namedLocalRanges (ip : IP) : Bool :=
  match IP.To4 ip with
  | some ip4 =>
    (ip4.getD 0 0).val = 127 || (ip4.getD 0 0).val = 10 ||
      ((ip4.getD 0 0).val = 172 && 16 ≤ (ip4.getD 1 0).val && (ip4.getD 1 0).val ≤ 31) ||
      ((ip4.getD 0 0).val = 192 && (ip4.getD 1 0).val = 168)
  | none => ip = IPv6loopback

/-- The IPv6 unique local addresses `fc00::/7` of RFC 4193: sixteen bytes, not an IPv4
address in IPv6 form, the first byte `0xfc` or `0xfd`. -/
def uniqueLocal (ip : IP) : Bool :=
  match IP.To4 ip with
  | some _ => false
  | none => ip.length = 16 && ((ip.getD 0 0).val = 0xfc || (ip.getD 0 0).val = 0xfd)

/-! ## What a resolve leaves of the clicks -/

/-- The `clicks` of the payload that a Redis `GET` of `link:<code>` decodes at `now`. -/
def cachedClicks (now : Time) (code : String) (s : Store) : Option Nat :=
  (cachedPayload now code s).map (fun d => d.Clicks)

/-- The store `s1` has the counters, the click log and the rows of `s`, and the cached
clicks of `code` that `s` has; where `s` has no cached clicks, `s1` has none either or has
the `clicks` of the row. -/
def ClicksUntouched (now : Time) (code : String) (s s1 : Store) : Prop :=
  s1.counter = s.counter ∧ s1.logs = s.logs ∧ s1.links = s.links ∧
  (∀ k, cachedClicks now code s = some k → cachedClicks now code s1 = some k) ∧
  (cachedClicks now code s = none →
    cachedClicks now code s1 = none ∨ cachedClicks now code s1 = durableClicks s code)

/-! ## Listing: internal/domain, internal/repository, internal/usecase, the handlers -/

/-- `domain.SortDirection` is a string type; its two named values. -/
def SortAsc : String := "asc"
def SortDesc : String := "desc"

/-- `domain.ShortLinkFilter`. -/
structure ShortLinkFilter where
  UserID : Option Nat
  IsExpired : Option Bool
  StartTime : Option Time
  EndTime : Option Time
  MinClicks : Option Nat
  MaxClicks : Option Nat
  deriving DecidableEq, Repr

/-- `domain.ShortLinkSort`. -/
structure ShortLinkSort where
  Field : String
  Direction : String
  deriving DecidableEq, Repr

/-- `domain.PaginationQuery`; `Page` and `PageSize` are Go `int`s, `Sorting` is the Go
field `Sort`. -/
structure PaginationQuery where
  Page : Int
  PageSize : Int
  Filter : Option ShortLinkFilter
  Sorting : Option ShortLinkSort
  deriving DecidableEq, Repr

/-- `domain.PaginatedShortLinks`. -/
structure PaginatedShortLinks where
  Total : Int
  TotalPages : Int
  CurrentPage : Int
  PageSize : Int
  Data : List ShortLink
  deriving DecidableEq, Repr

/-- `domain.ClickLogFilter`. -/
structure ClickLogFilter where
  StartTime : Option Time
  EndTime : Option Time
  IP : Option String
  Country : Option String
  Device : Option DeviceType
  RuleID : Option Nat
  deriving DecidableEq, Repr

/-- `domain.ClickLogSort`. -/
structure ClickLogSort where
  Field : String
  Direction : String
  deriving DecidableEq, Repr

/-- `domain.ClickLogQuery`; `Sorting` is the Go field `Sort`. -/
structure ClickLogQuery where
  Page : Int
  PageSize : Int
  Filter : Option ClickLogFilter
  Sorting : Option ClickLogSort
  deriving DecidableEq, Repr

/-- `domain.PaginatedClickLogs`. -/
structure PaginatedClickLogs where
  Total : Int
  TotalPages : Int
  CurrentPage : Int
  PageSize : Int
  Data : List ClickLog
  deriving DecidableEq, Repr

/-- The value a Go `int` (64 bits, two's complement) holds after an arithmetic operation
whose exact result is `x`. -/
def wrapInt (x : Int) : Int := (x + 2 ^ 63) % 2 ^ 64 - 2 ^ 63

/-- How a call ends: with a run-time panic, or by returning the Go results. -/
inductive Outcome (α : Type) where
  | panic (msg : String)
  | returned (result : Except Err α)
  deriving Repr

/-- The statement that `db.Order(order).Offset(offset).Limit(limit).Find(..)` sends: the
text given to `Order`, which gorm copies into the ORDER BY clause, and the two numbers. -/
structure SelectStmt where
  order : String
  offset : Int
  limit : Int
  deriving DecidableEq, Repr

/-- The database behind gorm, as the listing methods use it: the answer to a statement over
the rows that satisfy its WHERE clauses, an error (as for an ORDER BY it cannot
evaluate) or the rows of the page. -/
structure Database where
  findLinks : SelectStmt → List ShortLink → Except String (List ShortLink)
  findLogs : SelectStmt → List ClickLog → Except String (List ClickLog)

/-- The result of a listing call with the store it leaves, and the statement it sent with
`Find` when it got that far. -/
structure ListOut (σ ρ : Type) where
  result : ρ
  issued : Option SelectStmt
  state : σ

/-- The WHERE clauses `ShortLinkRepository.List` adds for a filter, as a test on a row of
`short_links`; `now` is `time.Now()`. -/
def linkMatches (now : Time) (filter : Option ShortLinkFilter) (row : ShortLink) : Bool :=
  match filter with
  | none => true
  | some f =>
    (match f.UserID with
      | some uid => decide (row.UserID = uid)
      | none => true) &&
    (match f.IsExpired with
      | some true => decide (row.ExpiresAt < now)
      | some false => decide (row.ExpiresAt > now)
      | none => true) &&
    (match f.StartTime with
      | some t => decide (row.CreatedAt ≥ t)
      | none => true) &&
    (match f.EndTime with
      | some t => decide (row.CreatedAt ≤ t)
      | none => true) &&
    (match f.MinClicks with
      | some n => decide (row.Clicks ≥ n)
      | none => true) &&
    (match f.MaxClicks with
      | some n => decide (row.Clicks ≤ n)
      | none => true)

/-- `ShortLinkRepository.List`. -/
def ShortLinkRepository.List (db : Database) (now : Time) (query : PaginationQuery)
    (s : Store) : ListOut Store (Outcome PaginatedShortLinks) :=
  -- 应用过滤条件
  let rows := s.links.filter (linkMatches now query.Filter)
  -- 获取总记录数
  let s := { s with dbQueries := s.dbQueries + 1 }
  if s.dbDown then
    ⟨.returned (.error (Err.wrapped "failed to get total count" (Err.external "db: down"))),
      none, s⟩
  else
    let total : Int := rows.length
    -- 计算总页数
    if query.PageSize = 0 then ⟨.panic "runtime error: integer divide by zero", none, s⟩
    else
      let totalPages :=
        wrapInt (Int.tdiv (wrapInt (wrapInt (total + query.PageSize) - 1)) query.PageSize)
      -- 应用排序
      let order :=
        match query.Sorting with
        | some sort =>
          if sort.Field ≠ "" then
            sort.Field ++ " " ++ (if sort.Direction = SortAsc then "ASC" else "DESC")
          else "created_at DESC"   -- 默认按创建时间降序
        | none => "created_at DESC"
      -- 应用分页
      let offset := wrapInt (wrapInt (query.Page - 1) * query.PageSize)
      let stmt : SelectStmt := ⟨order, offset, query.PageSize⟩
      let s := { s with dbQueries := s.dbQueries + 1 }
      match db.findLinks stmt rows with
      | .error e =>
        ⟨.returned (.error (Err.wrapped "failed to get links" (Err.external e))), some stmt, s⟩
      | .ok links =>
        ⟨.returned (.ok
          { Total := total
            TotalPages := totalPages
            CurrentPage := query.Page
            PageSize := query.PageSize
            Data := links }), some stmt, s⟩

/-- The WHERE clauses `ShortLinkRepository.ListClickLogs` adds, as a test on a row of
`click_logs`. -/
def logMatches (shortLinkID : Nat) (filter : Option ClickLogFilter) (row : ClickLog) : Bool :=
  decide (row.ShortLinkID = shortLinkID) &&
  match filter with
  | none => true
  | some f =>
    (match f.StartTime with
      | some t => decide (row.CreatedAt ≥ t)
      | none => true) &&
    (match f.EndTime with
      | some t => decide (row.CreatedAt ≤ t)
      | none => true) &&
    (match f.IP with
      | some ip => decide (row.IP = ip)
      | none => true) &&
    (match f.Country with
      | some c => decide (row.Country = c)
      | none => true) &&
    (match f.Device with
      | some d => decide (row.Device = d)
      | none => true) &&
    (match f.RuleID with
      | some rid => decide (row.RuleID = some rid)
      | none => true)

/-- `ShortLinkRepository.ListClickLogs`. -/
def ShortLinkRepository.ListClickLogs (db : Database) (shortLinkID : Nat)
    (query : ClickLogQuery) (s : Store) : ListOut Store (Outcome PaginatedClickLogs) :=
  -- 应用过滤条件
  let rows := s.logs.filter (logMatches shortLinkID query.Filter)
  -- 获取总记录数
  let s := { s with dbQueries := s.dbQueries + 1 }
  if s.dbDown then
    ⟨.returned (.error (Err.wrapped "failed to get total count" (Err.external "db: down"))),
      none, s⟩
  else
    let total : Int := rows.length
    -- 计算总页数
    if query.PageSize = 0 then ⟨.panic "runtime error: integer divide by zero", none, s⟩
    else
      let totalPages :=
        wrapInt (Int.tdiv (wrapInt (wrapInt (total + query.PageSize) - 1)) query.PageSize)
      -- 应用排序
      let order :=
        match query.Sorting with
        | some sort =>
          if sort.Field ≠ "" then
            sort.Field ++ " " ++ (if sort.Direction = SortAsc then "ASC" else "DESC")
          else "created_at DESC"   -- 默认按创建时间降序
        | none => "created_at DESC"
      -- 应用分页
      let offset := wrapInt (wrapInt (query.Page - 1) * query.PageSize)
      let stmt : SelectStmt := ⟨order, offset, query.PageSize⟩
      let s := { s with dbQueries := s.dbQueries + 1 }
      match db.findLogs stmt rows with
      | .error e =>
        ⟨.returned (.error (Err.wrapped "failed to get logs" (Err.external e))), some stmt, s⟩
      | .ok logs =>
        ⟨.returned (.ok
          { Total := total
            TotalPages := totalPages
            CurrentPage := query.Page
            PageSize := query.PageSize
            Data := logs }), some stmt, s⟩

/-- The methods of `domain.ShortLinkRepository` that the listing use cases call. -/
structure ListingRepo (σ : Type) where
  GetByCode : String → σ → Except Err ShortLink × σ
  GetRules : Nat → σ → Except Err (List RedirectRule) × σ
  List : PaginationQuery → σ → ListOut σ (Outcome PaginatedShortLinks)
  ListClickLogs : Nat → ClickLogQuery → σ → ListOut σ (Outcome PaginatedClickLogs)

/-- The map `validFields` of `ShortLinkUseCase.List`. -/
def validFields : List String := ["created_at", "expires_at", "clicks", "short_code"]

/-- The loop of `ShortLinkUseCase.List` that loads the rules of every link of the page; a
link whose rules cannot be loaded is left as it is. -/
def loadRules {σ : Type} (repo : ListingRepo σ) : List ShortLink → σ → List ShortLink × σ
  | [], s => ([], s)
  | link :: rest, s =>
    match repo.GetRules link.ID s with
    | (.error _, s1) =>
      ((link :: (loadRules repo rest s1).1), (loadRules repo rest s1).2)
    | (.ok rules, s1) =>
      (({ link with Rules := rules } :: (loadRules repo rest s1).1), (loadRules repo rest s1).2)

/-- `ShortLinkUseCase.List`. -/
def ShortLinkUseCase.List {σ : Type} (repo : ListingRepo σ) (query : PaginationQuery)
    (s : σ) : ListOut σ (Outcome PaginatedShortLinks) :=
  -- 验证排序字段
  match (match query.Sorting with
      | some sort =>
        if sort.Field ≠ "" ∧ ¬ sort.Field ∈ validFields then
          some (Err.plain ("invalid sort field: " ++ sort.Field))
        else none
      | none => none) with
  | some err => ⟨.returned (.error err), none, s⟩
  | none =>
    -- 调用repository层获取数据
    match (repo.List query s).result with
    | .panic msg => ⟨.panic msg, (repo.List query s).issued, (repo.List query s).state⟩
    | .returned (.error err) =>
      ⟨.returned (.error (Err.wrapped "failed to list short links" err)),
        (repo.List query s).issued, (repo.List query s).state⟩
    | .returned (.ok result) =>
      -- 对于每个短链接，检查是否需要加载规则
      ⟨.returned (.ok { result with
          Data := (loadRules repo result.Data (repo.List query s).state).1 }),
        (repo.List query s).issued,
        (loadRules repo result.Data (repo.List query s).state).2⟩

/-- `ShortLinkUseCase.ListClickLogs`. -/
def ShortLinkUseCase.ListClickLogs {σ : Type} (repo : ListingRepo σ) (code : String)
    (query : ClickLogQuery) (s : σ) : ListOut σ (Outcome PaginatedClickLogs) :=
  -- 先获取短链接信息
  match repo.GetByCode code s with
  | (.error err, s1) =>
    if err = Err.ErrShortLinkNotFound then
      ⟨.returned (.error Err.ErrShortLinkNotFound), none, s1⟩
    else ⟨.returned (.error (Err.wrapped "failed to get short link" err)), none, s1⟩
  | (.ok shortLink, s1) =>
    -- 获取访问记录
    match (repo.ListClickLogs shortLink.ID query s1).result with
    | .panic msg =>
      ⟨.panic msg, (repo.ListClickLogs shortLink.ID query s1).issued,
        (repo.ListClickLogs shortLink.ID query s1).state⟩
    | .returned (.error err) =>
      ⟨.returned (.error (Err.wrapped "failed to get click logs" err)),
        (repo.ListClickLogs shortLink.ID query s1).issued,
        (repo.ListClickLogs shortLink.ID query s1).state⟩
    | .returned (.ok logs) =>
      ⟨.returned (.ok logs), (repo.ListClickLogs shortLink.ID query s1).issued,
        (repo.ListClickLogs shortLink.ID query s1).state⟩

/-- The repository as the listing use cases see it, over the database `db`, at clock
reading `now`. -/
def listingRepository (db : Database) (now : Time) : ListingRepo Store :=
  { GetByCode := GetByCode now
    GetRules := GetRules now
    List := fun query s => ShortLinkRepository.List db now query s
    ListClickLogs := fun id query s => ShortLinkRepository.ListClickLogs db id query s }

/-- Go's `strconv.Atoi`: an optional sign, then decimal digits, at least one; the value
must fit a Go `int`. `none` is a returned error. -/
def atoi (s : String) : Option Int :=
  let signed : Bool × List Char :=
    match s.data with
    | '-' :: rest => (true, rest)
    | '+' :: rest => (false, rest)
    | cs => (false, cs)
  if signed.2 = [] ∨ signed.2.all (fun c => decide ('0' ≤ c ∧ c ≤ '9')) = false then none
  else
    let n : Int := signed.2.foldl (fun acc c => acc * 10 + ((c.toNat : Int) - 48)) 0
    let v := if signed.1 then -n else n
    if v < -(2 ^ 63) ∨ v > 2 ^ 63 - 1 then none else some v

/-- What a listing handler writes: a JSON error body (its own rejection or the one of
`handleError`), `c.JSON(http.StatusOK, result)`, or nothing when the call panics. -/
inductive ListReply (α : Type) where
  | response (r : Response)
  | ok (result : α)
  | panic (msg : String)
  deriving Repr

/-- `ShortLinkHandler.List`. `pageParam` and `pageSizeParam` are the query values `page` and
`page_size` (`none` when the key is absent), `filter` is the filter the handler builds from
the query string, `sortField` and `sortDirection` are `c.Query("sort_field")` and
`c.Query("sort_direction")`. -/
def ShortLinkHandler.List {σ : Type} (repo : ListingRepo σ)
    (pageParam pageSizeParam : Option String) (filter : Option ShortLinkFilter)
    (sortField sortDirection : String) (s : σ) : ListOut σ (ListReply PaginatedShortLinks) :=
  -- 解析分页参数
  match atoi (pageParam.getD "1") with
  | none => ⟨.response (.json 400 (.coded 400004 "无效的页码" "页码必须是大于0的整数")), none, s⟩
  | some page =>
    if page < 1 then
      ⟨.response (.json 400 (.coded 400004 "无效的页码" "页码必须是大于0的整数")), none, s⟩
    else
      match atoi (pageSizeParam.getD "10") with
      | none =>
        ⟨.response (.json 400 (.coded 400005 "无效的每页数量" "每页数量必须是1-100之间的整数")),
          none, s⟩
      | some pageSize =>
        if pageSize < 1 ∨ pageSize > 100 then
          ⟨.response (.json 400 (.coded 400005 "无效的每页数量" "每页数量必须是1-100之间的整数")),
            none, s⟩
        else
          -- 构建查询对象
          let query : PaginationQuery :=
            { Page := page
              PageSize := pageSize
              Filter := filter
              -- 解析排序参数
              Sorting :=
                if sortField ≠ "" then
                  some ⟨sortField, if sortDirection = "asc" then SortAsc else SortDesc⟩
                else none }
          -- 调用usecase层获取数据
          match (ShortLinkUseCase.List repo query s).result with
          | .panic msg =>
            ⟨.panic msg, (ShortLinkUseCase.List repo query s).issued,
              (ShortLinkUseCase.List repo query s).state⟩
          | .returned (.error err) =>
            ⟨.response (handleError err), (ShortLinkUseCase.List repo query s).issued,
              (ShortLinkUseCase.List repo query s).state⟩
          | .returned (.ok result) =>
            ⟨.ok result, (ShortLinkUseCase.List repo query s).issued,
              (ShortLinkUseCase.List repo query s).state⟩

/-- `ShortLinkHandler.ListClickLogs`, with the arguments of `ShortLinkHandler.List` and
the path parameter `code`. -/
def ShortLinkHandler.ListClickLogs {σ : Type} (repo : ListingRepo σ) (code : String)
    (pageParam pageSizeParam : Option String) (filter : Option ClickLogFilter)
    (sortField sortDirection : String) (s : σ) : ListOut σ (ListReply PaginatedClickLogs) :=
  match validateCode code with
  | some err => ⟨.response (.json 400 (.coded 400004 "无效的短码" err.Error)), none, s⟩
  | none =>
    -- 解析分页参数
    match atoi (pageParam.getD "1") with
    | none => ⟨.response (.json 400 (.coded 400004 "无效的页码" "页码必须是大于0的整数")), none, s⟩
    | some page =>
      if page < 1 then
        ⟨.response (.json 400 (.coded 400004 "无效的页码" "页码必须是大于0的整数")), none, s⟩
      else
        match atoi (pageSizeParam.getD "10") with
        | none =>
          ⟨.response (.json 400 (.coded 400005 "无效的每页数量" "每页数量必须是1-100之间的整数")),
            none, s⟩
        | some pageSize =>
          if pageSize < 1 ∨ pageSize > 100 then
            ⟨.response (.json 400 (.coded 400005 "无效的每页数量" "每页数量必须是1-100之间的整数")),
              none, s⟩
          else
            -- 构建查询对象
            let query : ClickLogQuery :=
              { Page := page
                PageSize := pageSize
                Filter := filter
                -- 解析排序条件
                Sorting :=
                  if sortField ≠ "" then
                    some ⟨sortField, if sortDirection = "asc" then SortAsc else SortDesc⟩
                  else none }
            -- 获取访问记录
            match (ShortLinkUseCase.ListClickLogs repo code query s).result with
            | .panic msg =>
              ⟨.panic msg, (ShortLinkUseCase.ListClickLogs repo code query s).issued,
                (ShortLinkUseCase.ListClickLogs repo code query s).state⟩
            | .returned (.error err) =>
              ⟨.response (handleError err),
                (ShortLinkUseCase.ListClickLogs repo code query s).issued,
                (ShortLinkUseCase.ListClickLogs repo code query s).state⟩
            | .returned (.ok logs) =>
              ⟨.ok logs, (ShortLinkUseCase.ListClickLogs repo code query s).issued,
                (ShortLinkUseCase.ListClickLogs repo code query s).state⟩

/-- The page arithmetic of the specification for `total` rows, the page `page` and the page
size `size`: `totalPages` is the least `k` with `k * size >= total`, the page and the page
size are reported as given, and the statement takes the rows at offset
`(page - 1) * size` with limit `size`. -/
def IsPage (total page size : Int) (stmt : SelectStmt)
    (totalPages currentPage pageSize : Int) : Prop :=
  totalPages * size ≥ total ∧ (∀ k : Int, k * size ≥ total → totalPages ≤ k) ∧
  (total = 0 → totalPages = 0) ∧
  currentPage = page ∧ pageSize = size ∧
  stmt.offset = (page - 1) * size ∧ stmt.limit = size

/-! ## Sample data: a store, a link, three rules, a request -/

/-- A database with no row and a Redis with no key. -/
def emptyStore : Store :=
  { links := []
    rules := []
    logs := []
    nextLinkID := 1
    nextRuleID := 1
    linkCache := fun _ => none
    rulesCache := fun _ => none
    counter := fun _ => none
    lock := fun _ => none
    dbDown := false
    redisDown := false
    dbQueries := 0 }

/-- The instant at which the sample runs start. -/
def t0 : Time := 1000 * Second

/-- A link `abc123` that expires one hour after `t0`, as the use case `Create` builds it. -/
def sampleLink : ShortLink :=
  { ID := 0
    ShortCode := "abc123"
    LongURL := "https://b"
    UserID := 7
    Clicks := 0
    MaxVisits := none
    ExpiresAt := t0 + 60 * Minute
    NeverExpire := false
    DefaultRedirect := RedirectPermanent
    Rules := []
    CreatedAt := t0
    UpdatedAt := t0 }

/-- A rule of priority 10 that accepts every request and sends it to `https://a`. -/
def ruleA : RedirectRule :=
  { ID := 0
    ShortLinkID := 1
    Name := "A"
    Description := ""
    Priority := 10
    Typ := RedirectTemporary
    TargetURL := "https://a"
    Device := DeviceAll
    StartTime := none
    EndTime := none
    Countries := []
    Provinces := []
    Cities := []
    Percentage := none
    MaxVisits := none
    CreatedAt := 0
    UpdatedAt := 0 }

/-- A rule of priority 20 that accepts every request and sends it to `https://x`. -/
def ruleB : RedirectRule :=
  { ruleA with Name := "B", Priority := 20, TargetURL := "https://x",
               Typ := RedirectTemporaryKeepMethod }

/-- A rule of priority 30 for mobile devices only. -/
def ruleMobile : RedirectRule :=
  { ruleA with Name := "M", Priority := 30, TargetURL := "https://m", Device := DeviceMobile }

/-- A region resolver that knows nothing. -/
def sampleRegion : String → RegionInfo :=
  fun _ => ⟨"UNKNOWN", "UNKNOWN", "UNKNOWN", "UNKNOWN", "UNKNOWN"⟩

/-- The readings of one request: every clock reading is `now`, every draw is 49. -/
def sampleEnv (now : Time) : Env :=
  { nowGet := now
    nowRule := fun _ => now
    intn := fun _ => 49
    GetIPRegion := sampleRegion }

/-- A click from a desktop browser. -/
def sampleClick : ClickLog :=
  { ID := 0
    ShortLinkID := 0
    RuleID := none
    IP := "8.8.8.8"
    UserAgent := "Mozilla/5.0 (X11; Linux)"
    Referer := ""
    Country := "UNKNOWN"
    Device := DeviceDesktop
    CreatedAt := t0 }

/-- The value of a successful result, `d` for a failed one. -/
def okOr {α : Type} (d : α) : Except Err α → α
  | .ok a => a
  | .error _ => d

/-- `url.Parse` for the sample runs: every string parses, with scheme `https`. -/
def sampleParse : String → Except String String := fun _ => .ok "https"

/-- `AddDate(100, 0, 0)` for the sample runs: a hundred years of 365 days. -/
def sampleAddDate : Time → Time := fun t => t + 100 * 365 * 24 * 60 * Minute

/-- An update request that changes nothing. -/
def noChange : UpdateShortLinkInput :=
  { LongURL := none, MaxVisits := none, ExpiresAt := none, NeverExpire := none,
    DefaultRedirect := none }

/-- The store after `Create(sampleLink)` at `t0`: the row has `ID = 1` and is cached. -/
def stCreated : Store := (ShortLinkRepository.Create t0 sampleLink emptyStore).2.2

/-- The store after the three rules M (30), B (20), A (10) were created for the link. -/
def stThreeRules : Store :=
  (CreateRule t0 ruleMobile (CreateRule t0 ruleB (CreateRule t0 ruleA stCreated).2.2).2.2).2.2

/-- `stCreated` at a moment when Redis does not answer. -/
def stRedisDown : Store := { stCreated with redisDown := true }

/-- The store after `Update(abc123, {default_redirect: 0})` on `stCreated`. -/
def stUnsetDefault : Store :=
  (Update (repository t0) sampleParse t0 sampleAddDate "abc123"
    { noChange with DefaultRedirect := some 0 } stCreated).2

/-- The store `stUnsetDefault` after the key `link:abc123` is gone. -/
def stUnsetDefaultCold : Store := { stUnsetDefault with linkCache := fun _ => none }

/-- The store after `Update(abc123, {max_visits: 1})` on `stCreated`. -/
def stCapOne : Store :=
  (Update (repository t0) sampleParse t0 sampleAddDate "abc123"
    { noChange with MaxVisits := some 1 } stCreated).2

/-- The store after one `Redirect` on `stCapOne`: the cached payload has `clicks = 1`. -/
def stCapOneUsed : Store :=
  (Redirect (repository t0) (sampleEnv t0) "abc123" sampleClick stCapOne).state

/-- The store after a first `GetByCode(zzzzzz)` on the empty database. -/
def stMissed : Store := (GetByCode t0 "zzzzzz" emptyStore).2

/-- The created link at a moment when the database does not answer and Redis holds
nothing. -/
def stDbDown : Store := { stCreated with dbDown := true, linkCache := fun _ => none }

/-- A link `never1` that never expires: `ExpiresAt` is a hundred years after `t0`. -/
def neverLink : ShortLink :=
  { sampleLink with ShortCode := "never1", NeverExpire := true, ExpiresAt := sampleAddDate t0 }

/-- The store after `Create(neverLink)` at `t0`. -/
def stNever : Store := (ShortLinkRepository.Create t0 neverLink emptyStore).2.2

/-- The readings of one create request: `url.Parse` finds the scheme `scheme`, codes
have six characters, the draws are 0, 1, 2, ..., the configured expiration is one day. -/
def sampleCreateEnv (scheme : String) : CreateEnv :=
  { urlParse := fun _ => .ok scheme
    length := 6
    draws := fun i => .ok (Fin.ofNat i)
    expiration := .ok (24 * 60 * Minute)
    addDate100 := sampleAddDate
    nowExpire := t0
    nowCreated := t0
    nowUpdated := t0 }

/-- A create request for `https://b` with nothing else set. -/
def sampleInput : CreateShortLinkInput :=
  { LongURL := "https://b"
    CustomCode := ""
    ExpiresAt := zeroTime
    UserID := 7
    DefaultRedirect := 0
    NeverExpire := false }

/-- An IPv4 address in the sixteen-byte form `net.ParseIP` returns. -/
def v4InV6 (a b c d : Fin 256) : IP := [0, 0, 0, 0, 0, 0, 0, 0, 0, 0, 0xff, 0xff, a, b, c, d]

/-- The values of `net.ParseIP` on the addresses used as examples; every other string is
taken as not an address. -/
def sampleParseIP (s : String) : Option IP :=
  if s = "127.0.0.1" then some (v4InV6 127 0 0 1)
  else if s = "10.0.0.1" then some (v4InV6 10 0 0 1)
  else if s = "192.168.0.1" then some (v4InV6 192 168 0 1)
  else if s = "172.31.255.255" then some (v4InV6 172 31 255 255)
  else if s = "8.8.8.8" then some (v4InV6 8 8 8 8)
  else if s = "fd00::1" then some [0xfd, 0, 0, 0, 0, 0, 0, 0, 0, 0, 0, 0, 0, 0, 0, 1]
  else none

/-- A geo database that answers every lookup with one record. -/
def sampleSearcher : String → Except String String := fun _ => .ok "美国|0|0|0|谷歌"

/-- The store after `Update(never1, {expires_at: 0001-01-01T00:00:00Z})`, one second after
the never-expiring link `never1` was created. -/
def stNeverZeroed : Store :=
  (Update (repository (t0 + Second)) sampleParse (t0 + Second) sampleAddDate "never1"
    { noChange with ExpiresAt := some zeroTime } stNever).2

/-- The create request `sampleInput` as the handler passes it on, with the default
redirect type set. -/
def plainInput : CreateShortLinkInput :=
  { sampleInput with DefaultRedirect := RedirectPermanent }

/-- A create request that never expires and still supplies an expiry, one minute after
`t0`; `neverInputPassed` is what the handler passes on. -/
def neverInput : CreateShortLinkInput :=
  { sampleInput with NeverExpire := true, ExpiresAt := t0 + Minute }

def neverInputPassed : CreateShortLinkInput :=
  { neverInput with DefaultRedirect := RedirectPermanent }

/-- A create request that supplies the expiry `t0 + 1000`, one microsecond after `t0`;
`soonInputPassed` is what the handler passes on. -/
def soonInput : CreateShortLinkInput :=
  { sampleInput with ExpiresAt := t0 + 1000 }

def soonInputPassed : CreateShortLinkInput :=
  { soonInput with DefaultRedirect := RedirectPermanent }

/-- The readings of a create request handled at `t0`: the use case reads the clock one
millisecond later, three times. -/
def lateCreateEnv : CreateEnv :=
  { sampleCreateEnv "https" with
    nowExpire := t0 + 1000000
    nowCreated := t0 + 1000000
    nowUpdated := t0 + 1000000 }

/-- A database that answers every statement with the rows in table order, from `offset`
on and at most `limit` of them. -/
def tableOrderDb : Database :=
  { findLinks := fun stmt rows => .ok ((rows.drop stmt.offset.toNat).take stmt.limit.toNat)
    findLogs := fun stmt rows => .ok ((rows.drop stmt.offset.toNat).take stmt.limit.toNat) }

/-- A listing query for the first page of ten, sorted by `no_such_column`, descending. -/
def unlistedLinkQuery : PaginationQuery :=
  { Page := 1, PageSize := 10, Filter := none, Sorting := some ⟨"no_such_column", SortDesc⟩ }

/-- The same query for click logs. -/
def unlistedLogQuery : ClickLogQuery :=
  { Page := 1, PageSize := 10, Filter := none, Sorting := some ⟨"no_such_column", SortDesc⟩ }

/-- The instant 1.4 seconds before the sample link expires, and the instant 0.3 seconds
before it does. -/
def nearEnd : Time := t0 + 60 * Minute - 1400000000
def atEnd : Time := t0 + 60 * Minute - 300000000

/-- The first resolve of `abc123` with a cap of one visit, made at `nearEnd`. -/
def firstNearEnd : RedirectOut Store :=
  Redirect (repository nearEnd) (sampleEnv nearEnd) "abc123" sampleClick stCapOne

/-- The second resolve, made at `atEnd` on the store the first one left: the drain
goroutine of the first has not written yet. -/
def secondAtEnd : RedirectOut Store :=
  Redirect (repository atEnd) (sampleEnv atEnd) "abc123" sampleClick firstNearEnd.state

/-- The second resolve when the drain goroutine of the first has run to its end in
between. -/
def secondAfterDrain : RedirectOut Store :=
  Redirect (repository atEnd) (sampleEnv atEnd) "abc123" sampleClick
    (syncClicks nearEnd "abc123" firstNearEnd.state)

/-- The store after `Update(abc123, {max_visits: 2})` on `stCreated`. -/
def stCapTwo : Store :=
  (Update (repository t0) sampleParse t0 sampleAddDate "abc123"
    { noChange with MaxVisits := some 2 } stCreated).2

/-- Three resolves of `abc123` with a cap of two visits. The first is made at `nearEnd`;
its drain goroutine takes the lock and reads the counter. The second is made one
millisecond later; its drain goroutine finds the lock taken and ends. Then the first
drain writes what it read and releases the lock. The third resolve is made at `atEnd`,
when both drain goroutines have ended and the tickers have not yet ticked. -/
def capTwoFirst : RedirectOut Store :=
  Redirect (repository nearEnd) (sampleEnv nearEnd) "abc123" sampleClick stCapTwo

def capTwoFirstRead : DrainState :=
  clickStep "abc123" (.read nearEnd) ⟨capTwoFirst.state, []⟩

def capTwoSecond : RedirectOut Store :=
  Redirect (repository (nearEnd + 1000000)) (sampleEnv (nearEnd + 1000000)) "abc123"
    sampleClick capTwoFirstRead.store

def capTwoDrained : DrainState :=
  clickStep "abc123" .apply
    (clickStep "abc123" (.read (nearEnd + 1000000))
      ⟨capTwoSecond.state, capTwoFirstRead.pending⟩)

def capTwoThird : RedirectOut Store :=
  Redirect (repository atEnd) (sampleEnv atEnd) "abc123" sampleClick capTwoDrained.store

/-! ## Runs of the operations on one link -/

/-- The operations applied to a link: the repository `Create`, `GetByCode`, the use case
`Redirect`, a bare `IncrementClicks`, one run of the drain goroutine, and the use case
`Update`. Each carries the clock reading of its call. -/
inductive LinkOp where
  | Create (now : Time) (link : ShortLink)
  | GetByCode (now : Time) (code : String)
  | Redirect (now : Time) (code : String) (clickLog : ClickLog)
  | IncrementClicks (now : Time) (code : String)
  | drain (now : Time) (code : String)
  | Update (now : Time) (code : String) (input : UpdateShortLinkInput)

/-- The store after one operation. -/
def applyOp : LinkOp → Store → Store
  | .Create now link, s => (ShortLinkRepository.Create now link s).2.2
  | .GetByCode now code, s => (GetByCode now code s).2
  | .Redirect now code clickLog, s =>
    (Redirect (repository now) (sampleEnv now) code clickLog s).state
  | .IncrementClicks now code, s => (IncrementClicks now code s).2
  | .drain now code, s => syncClicks now code s
  | .Update now code input, s =>
    (Update (repository now) sampleParse now sampleAddDate code input s).2

/-- The store after a sequence of operations. -/
def runOps : List LinkOp → Store → Store
  | [], s => s
  | op :: ops, s => runOps ops (applyOp op s)

/-- Create the link, serve one redirect, update the link without changing anything, let
the drain goroutine run. -/
def opsUntilDrain : List LinkOp :=
  [ .Create t0 sampleLink,
    .Redirect (t0 + 1 * Second) "abc123" sampleClick,
    .Update (t0 + 2 * Second) "abc123" noChange,
    .drain (t0 + 3 * Second) "abc123" ]

/-- The store after `CreateRule(A)` on the created link. -/
def stRuleA : Store := (CreateRule t0 ruleA stCreated).2.2

/-- The store after a `Redirect` on `stRuleA` one second later. -/
def stRuleAServed : Store :=
  (Redirect (repository (t0 + 1 * Second)) (sampleEnv (t0 + 1 * Second)) "abc123" sampleClick
    stRuleA).state

/-- The store after the goroutine `setRulesCache` started by the `GetRules` of that
`Redirect` has run: `rules:1` holds the list that `GetRules` read. -/
def stRuleACached : Store :=
  (setRulesCache (t0 + 1 * Second) 1 (okOr [] (GetRules (t0 + 1 * Second) 1 stRuleA).1)
    stRuleAServed).2

/-- The store after `CreateRule(B)`, two seconds after the start. -/
def stRuleAB : Store := (CreateRule (t0 + 2 * Second) ruleB stRuleACached).2.2

/-! ## Theorems -/

theorem matchedIn_iff (v : String) (xs : List String) : matchedIn v xs = true ↔ v ∈ xs := by
  induction xs with
  | nil => simp [matchedIn]
  | cons x rest ih =>
    simp only [matchedIn, List.mem_cons]
    by_cases h : x = v
    · simp [h]
    · simp only [h, if_false, ih]
      constructor
      · intro hm; exact Or.inr hm
      · rintro (hm | hm)
        · exact absurd hm.symm h
        · exact hm

theorem matchedIn_false_iff (v : String) (xs : List String) :
    matchedIn v xs = false ↔ v ∉ xs := by
  rw [← matchedIn_iff]; simp

theorem ite_false_else_iff (p : Prop) [Decidable p] (b : Bool) :
    (if p then false else b) = true ↔ ¬p ∧ b = true := by
  by_cases h : p <;> simp [h]

theorem startTime_check (now : Time) (o : Option Time) :
    ¬((match o with
        | some st => decide (now < st)
        | none => false) = true) ↔ ∀ st, o = some st → st ≤ now := by
  cases o <;> simp

theorem endTime_check (now : Time) (o : Option Time) :
    ¬((match o with
        | some et => decide (now > et)
        | none => false) = true) ↔ ∀ et, o = some et → now ≤ et := by
  cases o <;> simp

theorem maxVisits_check (o : Option Int) :
    ¬((match o with
        | some mv => decide (mv ≤ 0)
        | none => false) = true) ↔ ∀ mv, o = some mv → mv > 0 := by
  cases o <;> simp

theorem percentage_check (d : Int) (o : Option Int) :
    ¬((match o with
        | some p => decide (d > p)
        | none => false) = true) ↔ ∀ p, o = some p → d ≤ p := by
  cases o <;> simp

theorem region_check (g : RegionInfo) (cs ps ys : List String) :
    ¬((if cs.length > 0 ∨ ps.length > 0 ∨ ys.length > 0 then
        let region := g
        if cs.length > 0 ∧ matchedIn region.Country cs = false then true
        else if ps.length > 0 ∧ matchedIn region.Province ps = false then true
        else if ys.length > 0 ∧ matchedIn region.City ys = false then true
        else false
      else false) = true) ↔
      ((cs = [] ∨ g.Country ∈ cs) ∧ (ps = [] ∨ g.Province ∈ ps) ∧ (ys = [] ∨ g.City ∈ ys)) := by
  rcases cs with _ | ⟨c0, cs⟩ <;> rcases ps with _ | ⟨p0, ps⟩ <;> rcases ys with _ | ⟨y0, ys⟩ <;>
    simp [matchedIn_false_iff, or_iff_not_imp_left]

/-- C1. `matchRule` returns true exactly when the device, the start and end of the time
window (both inclusive), the three region lists, the visit budget and the percentage gate
all accept the click, for the clock reading `now`, the region `GetIPRegion c.IP` and the
random draw `d` in `1..100` (`d = rand.Intn(100) + 1`). -/
theorem matchRule_iff (GetIPRegion : String → RegionInfo) (now : Time) (d : Nat)
    (r : RedirectRule) (c : ClickLog) (hd : 1 ≤ d ∧ d ≤ 100) :
    matchRule GetIPRegion now (d - 1) r c = true ↔
      ((r.Device = DeviceAll ∨ r.Device = c.Device) ∧
       (∀ st, r.StartTime = some st → st ≤ now) ∧
       (∀ et, r.EndTime = some et → now ≤ et) ∧
       (r.Countries = [] ∨ (GetIPRegion c.IP).Country ∈ r.Countries) ∧
       (r.Provinces = [] ∨ (GetIPRegion c.IP).Province ∈ r.Provinces) ∧
       (r.Cities = [] ∨ (GetIPRegion c.IP).City ∈ r.Cities) ∧
       (∀ mv, r.MaxVisits = some mv → mv > 0) ∧
       (∀ p, r.Percentage = some p → (d : Int) ≤ p)) := by
  obtain ⟨hd1, _⟩ := hd
  have hcast : (((d - 1 : Nat) : Int) + 1) = (d : Int) := by omega
  unfold matchRule
  rw [hcast]
  simp only [ite_false_else_iff]
  rw [startTime_check, endTime_check, region_check, maxVisits_check, percentage_check]
  constructor
  · rintro ⟨h1, h2, h3, ⟨h4, h5, h6⟩, h7, h8, -⟩
    refine ⟨?_, h2, h3, h4, h5, h6, h7, h8⟩
    by_cases hA : r.Device = DeviceAll
    · exact Or.inl hA
    · by_cases hB : r.Device = c.Device
      · exact Or.inr hB
      · exact absurd ⟨hA, hB⟩ h1
  · rintro ⟨h1, h2, h3, h4, h5, h6, h7, h8⟩
    refine ⟨?_, h2, h3, ⟨h4, h5, h6⟩, h7, h8, trivial⟩
    rintro ⟨hA, hB⟩
    rcases h1 with h | h
    · exact hA h
    · exact hB h

/-- C1 at a concrete input: rule B accepts the sample desktop click with the draw 50. -/
theorem matchRule_iff_witness :
    (1 ≤ 50 ∧ 50 ≤ 100) ∧ matchRule sampleRegion t0 (50 - 1) ruleB sampleClick = true :=
  ⟨by decide, (matchRule_iff sampleRegion t0 50 ruleB sampleClick (by decide)).mpr (by
    refine ⟨Or.inl rfl, ?_, ?_, Or.inl rfl, Or.inl rfl, Or.inl rfl, ?_, ?_⟩ <;>
      intro x hx <;> simp [ruleB, ruleA] at hx)⟩

/-! ### The rule loop -/

theorem matchLoop_spec (env : Env) (c : ClickLog) (L : List RedirectRule) (i : Nat) :
    (∃ k, ∃ hk : k < L.length,
        matchLoop env c L i = (some L[k], i + k + 1) ∧
        matchRule env.GetIPRegion (env.nowRule (i + k)) (env.intn (i + k)) L[k] c = true ∧
        ∀ j, ∀ hj : j < k,
          matchRule env.GetIPRegion (env.nowRule (i + j)) (env.intn (i + j))
            (L[j]) c = false) ∨
    (matchLoop env c L i = (none, i + L.length) ∧
      ∀ j, ∀ hj : j < L.length,
        matchRule env.GetIPRegion (env.nowRule (i + j)) (env.intn (i + j)) L[j] c = false) := by
  induction L generalizing i with
  | nil =>
    right
    refine ⟨by simp [matchLoop], ?_⟩
    intro j hj
    simp at hj
  | cons r rest ih =>
    by_cases hm : matchRule env.GetIPRegion (env.nowRule i) (env.intn i) r c = true
    · left
      refine ⟨0, by simp, ?_, ?_, ?_⟩
      · simp [matchLoop, hm]
      · simpa using hm
      · intro j hj
        omega
    · have hm' : matchRule env.GetIPRegion (env.nowRule i) (env.intn i) r c = false := by
        simpa using hm
      rcases ih (i + 1) with ⟨k, hk, h1, h2, h3⟩ | ⟨h1, h2⟩
      · left
        refine ⟨k + 1, by simp; omega, ?_, ?_, ?_⟩
        · simp only [matchLoop, hm', List.getElem_cons_succ]
          rw [h1]
          simp
          omega
        · have e : i + (k + 1) = i + 1 + k := by omega
          simp only [List.getElem_cons_succ, e]
          exact h2
        · intro j hj
          cases j with
          | zero => simpa using hm'
          | succ j =>
            have e : i + (j + 1) = i + 1 + j := by omega
            simp only [List.getElem_cons_succ, e]
            exact h3 j (by omega)
      · right
        refine ⟨?_, ?_⟩
        · simp only [matchLoop, hm', List.length_cons]
          rw [h1]
          simp
          omega
        · intro j hj
          cases j with
          | zero => simpa using hm'
          | succ j =>
            have e : i + (j + 1) = i + 1 + j := by omega
            simp only [List.getElem_cons_succ, e]
            exact h2 j (by simp at hj; omega)

/-- What `Redirect` computes once the link is resolved and the rules are loaded. -/
theorem Redirect_resolved {σ : Type} (repo : Repo σ) (env : Env) (code : String)
    (clickLog : ClickLog) (s s1 s2 : σ) (link : ShortLink) (L : List RedirectRule)
    (hget : Get repo env.nowGet code s = (.ok link, s1))
    (hcap : visitCapReached link = false)
    (hrules : repo.GetRules link.ID s1 = (.ok L, s2)) :
    Redirect repo env code clickLog s =
      match repo.IncrementClicks code s2 with
      | (some err, s3) =>
        ⟨.error (Err.wrapped "failed to increment clicks" err),
          withRuleID clickLog (matchLoop env clickLog L 0).1, (matchLoop env clickLog L 0).1,
          (matchLoop env clickLog L 0).2, true, false, s3⟩
      | (none, s3) =>
        match repo.LogClick
            { withRuleID clickLog (matchLoop env clickLog L 0).1 with ShortLinkID := link.ID }
            s3 with
        | (some err, s4) =>
          ⟨.error (Err.wrapped "failed to log click" err),
            { withRuleID clickLog (matchLoop env clickLog L 0).1 with ShortLinkID := link.ID },
            (matchLoop env clickLog L 0).1, (matchLoop env clickLog L 0).2, true, true, s4⟩
        | (none, s4) =>
          ⟨.ok (targetOf link (matchLoop env clickLog L 0).1,
                typeOf link (matchLoop env clickLog L 0).1),
            { withRuleID clickLog (matchLoop env clickLog L 0).1 with ShortLinkID := link.ID },
            (matchLoop env clickLog L 0).1, (matchLoop env clickLog L 0).2, true, true, s4⟩ := by
  unfold Redirect
  rw [hget]
  simp only [hcap, hrules, Bool.false_eq_true, if_false]

theorem Redirect_resolved_loop {σ : Type} (repo : Repo σ) (env : Env) (code : String)
    (clickLog : ClickLog) (s s1 s2 : σ) (link : ShortLink) (L : List RedirectRule)
    (hget : Get repo env.nowGet code s = (.ok link, s1))
    (hcap : visitCapReached link = false)
    (hrules : repo.GetRules link.ID s1 = (.ok L, s2)) :
    (Redirect repo env code clickLog s).matchedRule = (matchLoop env clickLog L 0).1 ∧
    (Redirect repo env code clickLog s).evaluated = (matchLoop env clickLog L 0).2 := by
  rw [Redirect_resolved repo env code clickLog s s1 s2 link L hget hcap hrules]
  rcases hi : repo.IncrementClicks code s2 with ⟨_ | e, s3⟩
  · simp only []
    rcases hlg : repo.LogClick _ s3 with ⟨_ | e, s4⟩ <;> simp
  · simp

theorem matchLoop_take (env : Env) (c : ClickLog) (L : List RedirectRule) (i k : Nat)
    (hk : k < L.length)
    (hm : matchRule env.GetIPRegion (env.nowRule (i + k)) (env.intn (i + k)) L[k] c = true)
    (hb : ∀ j, ∀ hj : j < k,
      matchRule env.GetIPRegion (env.nowRule (i + j)) (env.intn (i + j)) (L[j]) c = false)
    (T : List RedirectRule) :
    matchLoop env c (L.take (k + 1) ++ T) i = (some L[k], i + k + 1) := by
  induction L generalizing i k with
  | nil => simp at hk
  | cons r rest ih =>
    cases k with
    | zero =>
      have hm' : matchRule env.GetIPRegion (env.nowRule i) (env.intn i) r c = true := by
        simpa using hm
      simp [matchLoop, hm']
    | succ k =>
      have h0 : matchRule env.GetIPRegion (env.nowRule i) (env.intn i) r c = false := by
        simpa using hb 0 (by omega)
      have hk' : k < rest.length := by simpa using hk
      have e : i + (k + 1) = i + 1 + k := by omega
      have hm' : matchRule env.GetIPRegion (env.nowRule (i + 1 + k)) (env.intn (i + 1 + k))
          rest[k] c = true := by
        rw [← e]; simpa using hm
      have hb' : ∀ j, ∀ hj : j < k,
          matchRule env.GetIPRegion (env.nowRule (i + 1 + j)) (env.intn (i + 1 + j))
            (rest[j]) c = false := by
        intro j hj
        have e' : i + 1 + j = i + (j + 1) := by omega
        rw [e']
        simpa using hb (j + 1) (by omega)
      have := ih (i + 1) k hk' hm' hb'
      have e2 : i + (k + 1) + 1 = i + 1 + k + 1 := by omega
      rw [List.take_succ_cons, List.cons_append]
      simp only [matchLoop, h0, Bool.false_eq_true, if_false, List.getElem_cons_succ]
      rw [this, e2]

/-- C2. Once the link is resolved (`Get` succeeds, the visit cap is not reached) and
`GetRules` has returned the list `L`, `Redirect` walks `L` in order: either it selects the
rule at the least index `k` at which `matchRule` is true, after exactly `k + 1` calls of
`matchRule` (so no rule behind it is evaluated, and replacing the rules behind it by any
others gives the same selection), or no rule of `L` matches, all `L.length` rules have been
tried and no rule is selected. -/
theorem Redirect_selects_first_match {σ : Type} (repo : Repo σ) (env : Env) (code : String)
    (clickLog : ClickLog) (s s1 s2 : σ) (link : ShortLink) (L : List RedirectRule)
    (hget : Get repo env.nowGet code s = (.ok link, s1))
    (hcap : visitCapReached link = false)
    (hrules : repo.GetRules link.ID s1 = (.ok L, s2)) :
    (∃ k, ∃ hk : k < L.length,
        (Redirect repo env code clickLog s).matchedRule = some L[k] ∧
        (Redirect repo env code clickLog s).evaluated = k + 1 ∧
        matchRule env.GetIPRegion (env.nowRule k) (env.intn k) L[k] clickLog = true ∧
        (∀ j, ∀ hj : j < k,
          matchRule env.GetIPRegion (env.nowRule j) (env.intn j) (L[j]) clickLog = false) ∧
        (∀ T : List RedirectRule,
          matchLoop env clickLog (L.take (k + 1) ++ T) 0 = matchLoop env clickLog L 0)) ∨
    ((Redirect repo env code clickLog s).matchedRule = none ∧
      (Redirect repo env code clickLog s).evaluated = L.length ∧
      ∀ j, ∀ hj : j < L.length,
        matchRule env.GetIPRegion (env.nowRule j) (env.intn j) L[j] clickLog = false) := by
  obtain ⟨hm, he⟩ := Redirect_resolved_loop repo env code clickLog s s1 s2 link L hget hcap hrules
  rcases matchLoop_spec env clickLog L 0 with ⟨k, hk, h1, h2, h3⟩ | ⟨h1, h2⟩
  · left
    refine ⟨k, hk, ?_, ?_, ?_, ?_, ?_⟩
    · rw [hm, h1]
    · rw [he, h1]; simp
    · simpa using h2
    · intro j hj
      simpa using h3 j hj
    · intro T
      rw [matchLoop_take env clickLog L 0 k hk h2 h3 T, h1]
  · right
    refine ⟨?_, ?_, ?_⟩
    · rw [hm, h1]
    · rw [he, h1]; simp
    · intro j hj
      simpa using h2 j hj

/-- C2 at a concrete run: of the rules M (mobile only), B, A in that order, a desktop
request selects B, the rule at index 1, after two calls of `matchRule`. -/
theorem Redirect_selects_first_match_witness :
    (Redirect (repository t0) (sampleEnv t0) "abc123" sampleClick stThreeRules).evaluated = 2 ∧
    ((∃ k, ∃ hk : k < (okOr [] (GetRules t0 1 stThreeRules).1).length,
        (Redirect (repository t0) (sampleEnv t0) "abc123" sampleClick stThreeRules).matchedRule
          = some (okOr [] (GetRules t0 1 stThreeRules).1)[k] ∧
        (Redirect (repository t0) (sampleEnv t0) "abc123" sampleClick stThreeRules).evaluated
          = k + 1 ∧
        matchRule (sampleEnv t0).GetIPRegion ((sampleEnv t0).nowRule k) ((sampleEnv t0).intn k)
          (okOr [] (GetRules t0 1 stThreeRules).1)[k] sampleClick = true ∧
        (∀ j, ∀ hj : j < k,
          matchRule (sampleEnv t0).GetIPRegion ((sampleEnv t0).nowRule j)
            ((sampleEnv t0).intn j) ((okOr [] (GetRules t0 1 stThreeRules).1)[j])
            sampleClick = false) ∧
        (∀ T : List RedirectRule,
          matchLoop (sampleEnv t0) sampleClick
            ((okOr [] (GetRules t0 1 stThreeRules).1).take (k + 1) ++ T) 0 =
          matchLoop (sampleEnv t0) sampleClick (okOr [] (GetRules t0 1 stThreeRules).1) 0)) ∨
     ((Redirect (repository t0) (sampleEnv t0) "abc123" sampleClick stThreeRules).matchedRule
        = none ∧
      (Redirect (repository t0) (sampleEnv t0) "abc123" sampleClick stThreeRules).evaluated
        = (okOr [] (GetRules t0 1 stThreeRules).1).length ∧
      ∀ j, ∀ hj : j < (okOr [] (GetRules t0 1 stThreeRules).1).length,
        matchRule (sampleEnv t0).GetIPRegion ((sampleEnv t0).nowRule j) ((sampleEnv t0).intn j)
          (okOr [] (GetRules t0 1 stThreeRules).1)[j] sampleClick = false)) :=
  ⟨rfl, Redirect_selects_first_match (repository t0) (sampleEnv t0) "abc123" sampleClick
    stThreeRules (Get (repository t0) t0 "abc123" stThreeRules).2
    ((repository t0).GetRules 1 (Get (repository t0) t0 "abc123" stThreeRules).2).2
    (okOr sampleLink (Get (repository t0) t0 "abc123" stThreeRules).1)
    (okOr [] (GetRules t0 1 stThreeRules).1) rfl rfl rfl⟩

/-! ### The error exits of `Get` and `Redirect` -/

theorem Get_found {σ : Type} (repo : Repo σ) (now : Time) (code : String) (s s1 : σ)
    (link : ShortLink) (hfound : repo.GetByCode code s = (.ok link, s1)) :
    (now > link.ExpiresAt → Get repo now code s = (.error Err.ErrShortLinkExpired, s1)) ∧
    (¬ now > link.ExpiresAt →
      ∃ rules s2, Get repo now code s = (.ok { link with Rules := rules }, s2)) := by
  constructor
  · intro h
    unfold Get
    rw [hfound]
    simp only [h, if_true]
  · intro h
    unfold Get
    rw [hfound]
    simp only [h, if_false]
    rcases hr : repo.GetRules link.ID s1 with ⟨_ | rules, s2⟩
    · exact ⟨link.Rules, s2, rfl⟩
    · exact ⟨rules, s2, rfl⟩

theorem Redirect_of_get_error {σ : Type} (repo : Repo σ) (env : Env) (code : String)
    (clickLog : ClickLog) (s s1 : σ) (e : Err)
    (hget : Get repo env.nowGet code s = (.error e, s1)) :
    Redirect repo env code clickLog s = ⟨.error e, clickLog, none, 0, false, false, s1⟩ := by
  unfold Redirect
  rw [hget]

theorem Redirect_of_cap {σ : Type} (repo : Repo σ) (env : Env) (code : String)
    (clickLog : ClickLog) (s s1 : σ) (link : ShortLink)
    (hget : Get repo env.nowGet code s = (.ok link, s1))
    (hcap : visitCapReached link = true) :
    Redirect repo env code clickLog s =
      ⟨.error Err.ErrMaxVisitsReached, clickLog, none, 0, false, false, s1⟩ := by
  unfold Redirect
  rw [hget]
  simp only [hcap, if_true]

theorem Redirect_of_rules_error {σ : Type} (repo : Repo σ) (env : Env) (code : String)
    (clickLog : ClickLog) (s s1 s2 : σ) (link : ShortLink) (e : Err)
    (hget : Get repo env.nowGet code s = (.ok link, s1))
    (hcap : visitCapReached link = false)
    (hrules : repo.GetRules link.ID s1 = (.error e, s2)) :
    Redirect repo env code clickLog s =
      ⟨.error (Err.wrapped "failed to get rules" e), clickLog, none, 0, false, false, s2⟩ := by
  unfold Redirect
  rw [hget]
  simp only [hcap, hrules, Bool.false_eq_true, if_false]

/-- The error of a failed `Redirect` is the error of `Get`, or the visit-cap error of a
link that `Get` returned with its cap reached, or an error wrapped by `fmt.Errorf`. -/
theorem Redirect_error_cases {σ : Type} (repo : Repo σ) (env : Env) (code : String)
    (clickLog : ClickLog) (s : σ) (e : Err)
    (h : (Redirect repo env code clickLog s).result = .error e) :
    (Get repo env.nowGet code s).1 = .error e ∨
    (e = Err.ErrMaxVisitsReached ∧
      ∃ link s1, Get repo env.nowGet code s = (.ok link, s1) ∧ visitCapReached link = true) ∨
    (∃ m inner, e = Err.wrapped m inner) := by
  rcases hG : Get repo env.nowGet code s with ⟨e0 | link, s1⟩
  · rw [Redirect_of_get_error repo env code clickLog s s1 e0 hG] at h
    left
    simpa using h
  · right
    cases hcap : visitCapReached link
    · right
      rcases hr : repo.GetRules link.ID s1 with ⟨e1 | L, s2⟩
      · rw [Redirect_of_rules_error repo env code clickLog s s1 s2 link e1 hG hcap hr] at h
        simp only [Except.error.injEq] at h
        exact ⟨_, _, h.symm⟩
      · rw [Redirect_resolved repo env code clickLog s s1 s2 link L hG hcap hr] at h
        rcases hi : repo.IncrementClicks code s2 with ⟨_ | e2, s3⟩
        · rw [hi] at h
          simp only [] at h
          rcases hlg : repo.LogClick _ s3 with ⟨_ | e3, s4⟩
          · rw [hlg] at h
            simp at h
          · rw [hlg] at h
            simp only [Except.error.injEq] at h
            exact ⟨_, _, h.symm⟩
        · rw [hi] at h
          simp only [Except.error.injEq] at h
          exact ⟨_, _, h.symm⟩
    · left
      rw [Redirect_of_cap repo env code clickLog s s1 link hG hcap] at h
      simp only [Except.error.injEq] at h
      exact ⟨h.symm, link, s1, rfl, hcap⟩

theorem visitCapReached_iff (link : ShortLink) :
    visitCapReached link = true ↔ ∃ mv, link.MaxVisits = some mv ∧ link.Clicks ≥ mv := by
  unfold visitCapReached
  cases link.MaxVisits <;> simp

/-- C5. For a link found by `GetByCode` with `ExpiresAt = T`, `Get` fails with
`ErrShortLinkExpired` exactly when its clock reading is after `T`, and so does `Redirect`;
at `now = T` and before, neither fails with that error. -/
theorem expired_iff_now_after_expiresAt {σ : Type} (repo : Repo σ) (env : Env)
    (code : String) (clickLog : ClickLog) (s s1 : σ) (link : ShortLink)
    (hfound : repo.GetByCode code s = (.ok link, s1)) :
    ((Get repo env.nowGet code s).1 = .error Err.ErrShortLinkExpired ↔
      env.nowGet > link.ExpiresAt) ∧
    ((Redirect repo env code clickLog s).result = .error Err.ErrShortLinkExpired ↔
      env.nowGet > link.ExpiresAt) ∧
    (env.nowGet ≤ link.ExpiresAt →
      (Get repo env.nowGet code s).1 ≠ .error Err.ErrShortLinkExpired ∧
      (Redirect repo env code clickLog s).result ≠ .error Err.ErrShortLinkExpired) := by
  obtain ⟨hexp, hlive⟩ := Get_found repo env.nowGet code s s1 link hfound
  have hGet : (Get repo env.nowGet code s).1 = .error Err.ErrShortLinkExpired ↔
      env.nowGet > link.ExpiresAt := by
    constructor
    · intro h
      by_contra hn
      obtain ⟨rules, s2, hok⟩ := hlive hn
      rw [hok] at h
      simp at h
    · intro h
      rw [hexp h]
  have hRed : (Redirect repo env code clickLog s).result = .error Err.ErrShortLinkExpired ↔
      env.nowGet > link.ExpiresAt := by
    constructor
    · intro h
      rcases Redirect_error_cases repo env code clickLog s _ h with h1 | ⟨h1, -⟩ | ⟨m, inner, h1⟩
      · exact hGet.mp h1
      · simp at h1
      · simp at h1
    · intro h
      rw [Redirect_of_get_error repo env code clickLog s s1 _ (hexp h)]
  refine ⟨hGet, hRed, ?_⟩
  intro hle
  have hn : ¬ env.nowGet > link.ExpiresAt := not_lt.mpr hle
  exact ⟨fun h => hn (hGet.mp h), fun h => hn (hRed.mp h)⟩

/-- C5 at a concrete run: the sample link expires at `t0 + 60 min`; one second later
`Redirect` fails with `ErrShortLinkExpired`, at the expiry instant itself it does not. -/
theorem expired_iff_now_after_expiresAt_witness :
    (Redirect (repository (t0 + 60 * Minute + Second)) (sampleEnv (t0 + 60 * Minute + Second))
        "abc123" sampleClick stCreated).result =
      .error Err.ErrShortLinkExpired ∧
    (Redirect (repository (t0 + 60 * Minute)) (sampleEnv (t0 + 60 * Minute))
        "abc123" sampleClick stCreated).result ≠
      .error Err.ErrShortLinkExpired :=
  ⟨(expired_iff_now_after_expiresAt (repository (t0 + 60 * Minute + Second))
      (sampleEnv (t0 + 60 * Minute + Second)) "abc123" sampleClick
      stCreated
      (GetByCode (t0 + 60 * Minute + Second) "abc123" stCreated).2
      (okOr sampleLink
        (GetByCode (t0 + 60 * Minute + Second) "abc123" stCreated).1)
      (by rfl)).2.1.mpr (by decide),
   ((expired_iff_now_after_expiresAt (repository (t0 + 60 * Minute))
      (sampleEnv (t0 + 60 * Minute)) "abc123" sampleClick
      stCreated
      (GetByCode (t0 + 60 * Minute) "abc123" stCreated).2
      (okOr sampleLink
        (GetByCode (t0 + 60 * Minute) "abc123" stCreated).1)
      (by rfl)).2.2 (by decide)).2⟩

/-- C6. For a link that `GetByCode` finds and that is not expired, `Redirect` fails with
`ErrMaxVisitsReached` exactly when `MaxVisits` is set and `Clicks >= MaxVisits`; with
`MaxVisits` absent it never fails with that error, whatever `Clicks` is. -/
theorem maxVisitsReached_iff {σ : Type} (repo : Repo σ) (env : Env)
    (code : String) (clickLog : ClickLog) (s s1 : σ) (link : ShortLink)
    (hfound : repo.GetByCode code s = (.ok link, s1))
    (hlive : ¬ env.nowGet > link.ExpiresAt) :
    ((Redirect repo env code clickLog s).result = .error Err.ErrMaxVisitsReached ↔
      ∃ mv, link.MaxVisits = some mv ∧ link.Clicks ≥ mv) ∧
    (link.MaxVisits = none →
      (Redirect repo env code clickLog s).result ≠ .error Err.ErrMaxVisitsReached) := by
  obtain ⟨rules, s2, hok⟩ := (Get_found repo env.nowGet code s s1 link hfound).2 hlive
  have hcapEq : visitCapReached { link with Rules := rules } = visitCapReached link := rfl
  have key : (Redirect repo env code clickLog s).result = .error Err.ErrMaxVisitsReached ↔
      ∃ mv, link.MaxVisits = some mv ∧ link.Clicks ≥ mv := by
    rw [← visitCapReached_iff]
    constructor
    · intro h
      rcases Redirect_error_cases repo env code clickLog s _ h with
        h1 | ⟨-, l, s1', hG, hc⟩ | ⟨m, inner, h1⟩
      · rw [hok] at h1
        simp at h1
      · rw [hok] at hG
        simp only [Prod.mk.injEq, Except.ok.injEq] at hG
        rw [← hG.1] at hc
        exact hc
      · simp at h1
    · intro h
      rw [Redirect_of_cap repo env code clickLog s s2 _ hok (hcapEq.trans h)]
  refine ⟨key, ?_⟩
  intro hnone h
  obtain ⟨mv, hmv, -⟩ := key.mp h
  rw [hnone] at hmv
  simp at hmv

/-- C6 at a concrete run: with `max_visits = 1` and one redirect served, the next
`Redirect` fails with `ErrMaxVisitsReached`. -/
theorem maxVisitsReached_iff_witness :
    (Redirect (repository t0) (sampleEnv t0) "abc123" sampleClick stCapOneUsed).result =
      .error Err.ErrMaxVisitsReached :=
  (maxVisitsReached_iff (repository t0) (sampleEnv t0) "abc123" sampleClick stCapOneUsed
    (GetByCode t0 "abc123" stCapOneUsed).2
    (okOr sampleLink (GetByCode t0 "abc123" stCapOneUsed).1) (by rfl) (by decide)).1.mpr
    ⟨1, by rfl, by decide⟩

/-! ### A failed counter bump, a failed click log -/

theorem IncrementClicks_error_iff (now : Time) (code : String) (st : Store) :
    (∃ e, (IncrementClicks now code st).1 = some e) ↔ st.redisDown = true := by
  unfold IncrementClicks
  by_cases h : st.redisDown = true
  · simp [h]
  · simp only [h, Bool.false_eq_true, if_false, iff_false, not_exists]
    intro e
    split <;> simp

/-- C7, as the code has it. For a resolved link (`Get` succeeds, the cap is not reached,
the rules are loaded): when `IncrementClicks` returns an error `Redirect` returns
`failed to increment clicks` wrapping it and no target; when `IncrementClicks` succeeds
and `LogClick` returns an error `Redirect` returns `failed to log click` wrapping it; only
when both return `nil` does it return the selected target and type. In the repository
`LogClick` always returns `nil` (the insert runs in a goroutine), and `IncrementClicks`
returns an error exactly when the Redis `INCR` fails. -/
theorem Redirect_after_bump_and_log {σ : Type} (repo : Repo σ) (env : Env) (code : String)
    (clickLog : ClickLog) (s s1 s2 : σ) (link : ShortLink) (L : List RedirectRule)
    (hget : Get repo env.nowGet code s = (.ok link, s1))
    (hcap : visitCapReached link = false)
    (hrules : repo.GetRules link.ID s1 = (.ok L, s2)) :
    (∀ e s3, repo.IncrementClicks code s2 = (some e, s3) →
      (Redirect repo env code clickLog s).result =
        .error (Err.wrapped "failed to increment clicks" e)) ∧
    (∀ s3 e s4, repo.IncrementClicks code s2 = (none, s3) →
      repo.LogClick
        { withRuleID clickLog (matchLoop env clickLog L 0).1 with ShortLinkID := link.ID } s3
        = (some e, s4) →
      (Redirect repo env code clickLog s).result =
        .error (Err.wrapped "failed to log click" e)) ∧
    (∀ s3 s4, repo.IncrementClicks code s2 = (none, s3) →
      repo.LogClick
        { withRuleID clickLog (matchLoop env clickLog L 0).1 with ShortLinkID := link.ID } s3
        = (none, s4) →
      (Redirect repo env code clickLog s).result =
        .ok (targetOf link (matchLoop env clickLog L 0).1,
             typeOf link (matchLoop env clickLog L 0).1)) ∧
    (∀ log st, LogClick log st = (none, st)) ∧
    (∀ now c st, (∃ e, (IncrementClicks now c st).1 = some e) ↔ st.redisDown = true) := by
  refine ⟨?_, ?_, ?_, fun _ _ => rfl, IncrementClicks_error_iff⟩
  · intro e s3 hi
    rw [Redirect_resolved repo env code clickLog s s1 s2 link L hget hcap hrules, hi]
  · intro s3 e s4 hi hl
    rw [Redirect_resolved repo env code clickLog s s1 s2 link L hget hcap hrules, hi]
    simp only []
    rw [hl]
  · intro s3 s4 hi hl
    rw [Redirect_resolved repo env code clickLog s s1 s2 link L hget hcap hrules, hi]
    simp only []
    rw [hl]

/-- C7, counterexample. The link `abc123` is in the database, not expired, without a visit
cap, and its rules load; Redis does not answer, so `IncrementClicks` returns an error; and
`Redirect` returns that error wrapped instead of the target and type. -/
theorem Redirect_cancelled_by_failed_bump :
    (Get (repository t0) t0 "abc123" stRedisDown).1.toOption.map (fun l => l.LongURL)
      = some "https://b" ∧
    (IncrementClicks t0 "abc123" stRedisDown).1 = some (Err.external "redis: incr failed") ∧
    (Redirect (repository t0) (sampleEnv t0) "abc123" sampleClick stRedisDown).result =
      .error (Err.wrapped "failed to increment clicks" (Err.external "redis: incr failed")) := by
  refine ⟨by rfl, by rfl, by rfl⟩

/-- C7, the theorem at a concrete run: Redis down gives the wrapped error. -/
theorem Redirect_after_bump_and_log_witness :
    (Redirect (repository t0) (sampleEnv t0) "abc123" sampleClick stRedisDown).result =
      .error (Err.wrapped "failed to increment clicks" (Err.external "redis: incr failed")) :=
  (Redirect_after_bump_and_log (repository t0) (sampleEnv t0) "abc123" sampleClick stRedisDown
    (Get (repository t0) t0 "abc123" stRedisDown).2
    ((repository t0).GetRules 1 (Get (repository t0) t0 "abc123" stRedisDown).2).2
    (okOr sampleLink (Get (repository t0) t0 "abc123" stRedisDown).1) []
    (by rfl) (by rfl) (by rfl)).1 (Err.external "redis: incr failed")
    ((repository t0).GetRules 1 (Get (repository t0) t0 "abc123" stRedisDown).2).2 (by rfl)

/-! ### Target, redirect type and rule id -/

theorem readDurable_defaultRedirect (now : Time) (code : String) (st st1 : Store)
    (link : ShortLink) (h : readDurable now code st = (.ok link, st1)) :
    ∃ row, st.links.find? (fun r => r.ShortCode = code) = some row ∧
      link.DefaultRedirect =
        (if row.DefaultRedirect = 0 then RedirectPermanent else row.DefaultRedirect) ∧
      link.DefaultRedirect ≠ 0 := by
  unfold readDurable at h
  by_cases hd : st.dbDown = true
  · simp [hd] at h
  · simp only [hd, Bool.false_eq_true, if_false] at h
    rcases hf : st.links.find? (fun r => r.ShortCode = code) with _ | row
    · rw [hf] at h
      simp at h
    · rw [hf] at h
      simp only [Prod.mk.injEq, Except.ok.injEq] at h
      refine ⟨row, hf, ?_, ?_⟩
      · rw [← h.1]
        by_cases h0 : row.DefaultRedirect = 0 <;> simp [h0]
      · rw [← h.1]
        by_cases h0 : row.DefaultRedirect = 0 <;> simp [h0, RedirectPermanent]

theorem GetByCode_defaultRedirect (now : Time) (code : String) (st st1 : Store)
    (link : ShortLink) (h : GetByCode now code st = (.ok link, st1)) :
    (∃ d, cachedPayload now code st = some d ∧
        link.DefaultRedirect = intOfUint d.DefaultRedirect) ∨
    (cachedPayload now code st = none ∧
      ∃ row, st.links.find? (fun r => r.ShortCode = code) = some row ∧
        link.DefaultRedirect =
          (if row.DefaultRedirect = 0 then RedirectPermanent else row.DefaultRedirect) ∧
        link.DefaultRedirect ≠ 0) := by
  unfold GetByCode at h
  rcases hc : cachedPayload now code st with _ | d
  · right
    rw [hc] at h
    exact ⟨rfl, readDurable_defaultRedirect now code st st1 link h⟩
  · left
    rw [hc] at h
    simp only [Prod.mk.injEq, Except.ok.injEq] at h
    refine ⟨d, rfl, ?_⟩
    rw [← h.1]
    rfl

/-- What a successful `Redirect` returns, on the record `link` that `Get` returned: with a
selected rule `r` the target is `r.TargetURL` when it is not empty and `link.LongURL`
otherwise, the type is `r.Type` and `clickLog.RuleID` is `r.ID`; with no selected rule the
target is `link.LongURL`, the type is `link.DefaultRedirect` as it stands in that record,
and `clickLog.RuleID` is what the caller passed. The fallback for an unset default
redirect is not in `Redirect` but in `GetByCode`, and there only on the database branch:
a record read from the row never has the type 0, a record decoded from the cache carries
the cached value unchanged. -/
theorem Redirect_target_type_ruleID {σ : Type} (repo : Repo σ) (env : Env) (code : String)
    (clickLog : ClickLog) (s s1 : σ) (link : ShortLink) (t : String) (k : RedirectType)
    (hget : Get repo env.nowGet code s = (.ok link, s1))
    (hok : (Redirect repo env code clickLog s).result = .ok (t, k)) :
    (∀ r, (Redirect repo env code clickLog s).matchedRule = some r →
      t = (if r.TargetURL ≠ "" then r.TargetURL else link.LongURL) ∧ k = r.Typ ∧
      (Redirect repo env code clickLog s).clickLog.RuleID = some r.ID) ∧
    ((Redirect repo env code clickLog s).matchedRule = none →
      t = link.LongURL ∧ k = link.DefaultRedirect ∧
      (Redirect repo env code clickLog s).clickLog.RuleID = clickLog.RuleID) ∧
    (∀ now c st st1 l, GetByCode now c st = (.ok l, st1) →
      (∃ d, cachedPayload now c st = some d ∧ l.DefaultRedirect = intOfUint d.DefaultRedirect) ∨
      (cachedPayload now c st = none ∧
        ∃ row, st.links.find? (fun r => r.ShortCode = c) = some row ∧
          l.DefaultRedirect =
            (if row.DefaultRedirect = 0 then RedirectPermanent else row.DefaultRedirect) ∧
          l.DefaultRedirect ≠ 0)) := by
  refine ⟨?_, ?_, fun now c st st1 l h => GetByCode_defaultRedirect now c st st1 l h⟩
  all_goals
    cases hcap : visitCapReached link
    · rcases hr : repo.GetRules link.ID s1 with ⟨e1 | L, s2⟩
      · rw [Redirect_of_rules_error repo env code clickLog s s1 s2 link e1 hget hcap hr] at hok
        simp at hok
      · rw [Redirect_resolved repo env code clickLog s s1 s2 link L hget hcap hr] at hok ⊢
        rcases hi : repo.IncrementClicks code s2 with ⟨_ | e2, s3⟩
        · rw [hi] at hok
          simp only [] at hok ⊢
          rcases hlg : repo.LogClick _ s3 with ⟨_ | e3, s4⟩
          · rw [hlg] at hok
            simp only [Except.ok.injEq, Prod.mk.injEq] at hok
            obtain ⟨ht, hk⟩ := hok
            first
              | (intro r hm
                 simp only [] at hm
                 rw [hm] at ht hk
                 rw [hm]
                 exact ⟨ht.symm, hk.symm, rfl⟩)
              | (intro hm
                 simp only [] at hm
                 rw [hm] at ht hk
                 rw [hm]
                 exact ⟨ht.symm, hk.symm, rfl⟩)
          · rw [hlg] at hok
            simp at hok
        · rw [hi] at hok
          simp at hok
    · rw [Redirect_of_cap repo env code clickLog s s1 link hget hcap] at hok
      simp at hok

/-- C4, the code at the failing input. After `Create` of the link `abc123` and `Update` of
it with `default_redirect = 0`, the row and the cached payload both carry the type 0. The
next `Redirect` succeeds with no rule selected, on a link whose default redirect is
unset, and returns the type 0, which is not `RedirectPermanent`: the record comes from
the cache, and the fallback of `GetByCode` sits on the database branch only. The same
call on the same row with the key `link:abc123` gone reads the row and returns
`RedirectPermanent`. -/
theorem Redirect_returns_unset_type :
    stUnsetDefault.links.map (fun r => (r.ShortCode, r.DefaultRedirect)) = [("abc123", 0)] ∧
    (Redirect (repository (t0 + Second)) (sampleEnv (t0 + Second)) "abc123" sampleClick
        stUnsetDefault).result = .ok ("https://b", 0) ∧
    (Redirect (repository (t0 + Second)) (sampleEnv (t0 + Second)) "abc123" sampleClick
        stUnsetDefault).matchedRule = none ∧
    (okOr sampleLink (GetByCode (t0 + Second) "abc123" stUnsetDefault).1).DefaultRedirect = 0 ∧
    (0 : RedirectType) ≠ RedirectPermanent ∧
    cachedPayload (t0 + Second) "abc123" stUnsetDefaultCold = none ∧
    stUnsetDefaultCold.links = stUnsetDefault.links ∧
    (Redirect (repository (t0 + Second)) (sampleEnv (t0 + Second)) "abc123" sampleClick
        stUnsetDefaultCold).matchedRule = none ∧
    (Redirect (repository (t0 + Second)) (sampleEnv (t0 + Second)) "abc123" sampleClick
        stUnsetDefaultCold).result = .ok ("https://b", RedirectPermanent) := by
  refine ⟨by rfl, by rfl, by rfl, by rfl, by decide, by rfl, by rfl, by rfl, by rfl⟩

/-- The theorem `Redirect_target_type_ruleID` at a concrete run: the link `abc123` with the
rules M (mobile only), B and A, a desktop request; rule B is selected. -/
theorem Redirect_target_type_ruleID_witness :
    (∀ r, (Redirect (repository t0) (sampleEnv t0) "abc123" sampleClick
          stThreeRules).matchedRule = some r →
      "https://x" = (if r.TargetURL ≠ "" then r.TargetURL else
        (okOr sampleLink (Get (repository t0) t0 "abc123" stThreeRules).1).LongURL) ∧
      RedirectTemporaryKeepMethod = r.Typ ∧
      (Redirect (repository t0) (sampleEnv t0) "abc123" sampleClick
          stThreeRules).clickLog.RuleID = some r.ID) ∧
    (Redirect (repository t0) (sampleEnv t0) "abc123" sampleClick stThreeRules).result =
      .ok ("https://x", RedirectTemporaryKeepMethod) :=
  ⟨(Redirect_target_type_ruleID (repository t0) (sampleEnv t0) "abc123" sampleClick
      stThreeRules (Get (repository t0) t0 "abc123" stThreeRules).2
      (okOr sampleLink (Get (repository t0) t0 "abc123" stThreeRules).1)
      "https://x" RedirectTemporaryKeepMethod rfl rfl).1, rfl⟩

/-! ### The negative cache -/

theorem setCache_dbQueries (now : Time) (link : ShortLink) (st : Store) :
    (setCache now link st).2.dbQueries = st.dbQueries := by
  unfold setCache
  simp only []
  split_ifs <;> rfl

theorem readDurable_dbQueries (now : Time) (code : String) (st : Store) :
    (readDurable now code st).2.dbQueries = st.dbQueries + 1 := by
  unfold readDurable
  simp only []
  by_cases hd : st.dbDown = true
  · simp [hd]
  · simp only [hd, Bool.false_eq_true, if_false]
    split
    · split_ifs <;> rfl
    · rw [setCache_dbQueries]

/-- The empty value under `link:<code>` does not stop `GetByCode` from going to the
database: the test `err == nil && data != ""` sends the empty value to the same branch as
a missing key. -/
theorem GetByCode_queries_despite_empty_value (now : Time) (code : String) (st : Store)
    (e : Time) (hup : st.redisDown = false)
    (hlive : live now (st.linkCache code) = some ⟨LinkVal.empty, some e⟩) :
    (GetByCode now code st).2.dbQueries = st.dbQueries + 1 := by
  have hc : cachedPayload now code st = none := by
    unfold cachedPayload
    simp [hup, hlive]
  unfold GetByCode
  rw [hc]
  exact readDurable_dbQueries now code st

/-- C8, the code at the failing input. On a database with no row for `zzzzzz`, a first
`GetByCode` misses, sends one query and writes the empty value for five minutes; a second
`GetByCode` one second later, with the empty value still present, also returns
`ErrShortLinkNotFound` but sends a second query to the database. -/
theorem GetByCode_negative_cache_not_honoured :
    (GetByCode t0 "zzzzzz" emptyStore).1 = .error Err.ErrShortLinkNotFound ∧
    stMissed.dbQueries = 1 ∧
    live (t0 + Second) (stMissed.linkCache "zzzzzz") =
      some ⟨LinkVal.empty, some (t0 + 5 * Minute)⟩ ∧
    (GetByCode (t0 + Second) "zzzzzz" stMissed).1 = .error Err.ErrShortLinkNotFound ∧
    (GetByCode (t0 + Second) "zzzzzz" stMissed).2.dbQueries = 2 := by
  refine ⟨by rfl, by rfl, by rfl, by rfl, by rfl⟩

/-! ### The counter protocol: increments and drains -/

theorem find_map_code (links : List ShortLink) (code : String) (f : ShortLink → ShortLink)
    (hf : ∀ r, (f r).ShortCode = r.ShortCode) :
    (links.map f).find? (fun r => r.ShortCode = code) =
      (links.find? (fun r => r.ShortCode = code)).map f := by
  induction links with
  | nil => rfl
  | cons r rest ih =>
    simp only [List.map_cons, List.find?_cons, hf]
    by_cases h : r.ShortCode = code
    · simp [h]
    · simp [h, ih]

theorem IncrementClicks_up (now : Time) (code : String) (s : Store)
    (hup : s.redisDown = false) :
    (IncrementClicks now code s).1 = none ∧
    (IncrementClicks now code s).2.links = s.links ∧
    (IncrementClicks now code s).2.counter =
      Function.update s.counter code (some ((s.counter code).getD 0 + 1)) ∧
    (IncrementClicks now code s).2.redisDown = s.redisDown ∧
    (IncrementClicks now code s).2.dbDown = s.dbDown := by
  unfold IncrementClicks
  rw [if_neg (by simp [hup])]
  simp only []
  split <;> exact ⟨rfl, rfl, rfl, rfl, rfl⟩

theorem drainRead_frame (now : Time) (code : String) (s : Store) :
    (drainRead now code s).2.links = s.links ∧
    (drainRead now code s).2.counter = s.counter ∧
    (drainRead now code s).2.redisDown = s.redisDown ∧
    (drainRead now code s).2.dbDown = s.dbDown ∧
    (∀ n, (drainRead now code s).1 = some n → n > 0 ∧ s.counter code = some n) := by
  unfold drainRead
  by_cases hr : s.redisDown = true
  · rw [if_pos hr]
    exact ⟨rfl, rfl, rfl, rfl, fun n hn => by simp at hn⟩
  · rw [if_neg hr]
    split
    · exact ⟨rfl, rfl, rfl, rfl, fun n hn => by simp at hn⟩
    · split
      · exact ⟨rfl, rfl, rfl, rfl, fun n hn => by simp at hn⟩
      · rename_i count hc
        by_cases hpos : count > 0
        · rw [if_pos hpos]
          refine ⟨rfl, rfl, rfl, rfl, ?_⟩
          intro n hn
          simp only [Option.some.injEq] at hn
          subst hn
          exact ⟨hpos, hc⟩
        · rw [if_neg hpos]
          exact ⟨rfl, rfl, rfl, rfl, fun n hn => by simp at hn⟩

theorem drainApply_frame (code : String) (n : Int) (s : Store) :
    (drainApply code n s).redisDown = s.redisDown ∧
    (drainApply code n s).dbDown = s.dbDown := by
  unfold drainApply
  simp only []
  split_ifs <;> exact ⟨rfl, rfl⟩

theorem find_code_eq (links : List ShortLink) (code : String) (row : ShortLink)
    (h : links.find? (fun r => r.ShortCode = code) = some row) : row.ShortCode = code := by
  have := List.find?_some h
  simpa using this

theorem drainApply_up (code : String) (n : Int) (s : Store) (hn : n > 0)
    (hup : s.redisDown = false) (hdb : s.dbDown = false) :
    durableClicks (drainApply code n s) code =
      (durableClicks s code).map (fun c => c + n.toNat) ∧
    bufferedClicks (drainApply code n s) code = bufferedClicks s code - n := by
  unfold drainApply durableClicks bufferedClicks
  simp only []
  rw [if_neg (by simp [hdb]), if_neg (by simp [hup])]
  simp only [Function.update_same, Option.getD_some]
  refine ⟨?_, trivial⟩
  rw [find_map_code]
  · generalize hf : List.find? _ s.links = o
    rcases o with _ | row
    · rfl
    · have hc : row.ShortCode = code := by
        have := List.find?_some hf
        simpa using this
      simp only [Option.map_some', hc, if_true, Option.some.injEq]
      omega
  · intro r
    split_ifs <;> rfl

theorem drainApply_down (code : String) (n : Int) (s : Store)
    (h : s.redisDown = true ∨ s.dbDown = true) :
    (drainApply code n s).links = s.links ∧ (drainApply code n s).counter = s.counter := by
  unfold drainApply
  simp only []
  split_ifs with h1 h2
  · exact ⟨rfl, rfl⟩
  · exact ⟨rfl, rfl⟩
  · rcases h with h | h
    · exact absurd h h2
    · exact absurd h h1

theorem clicksTotal_congr (s s1 : Store) (code : String) (hl : s1.links = s.links)
    (hc : s1.counter = s.counter) : clicksTotal s1 code = clicksTotal s code := by
  unfold clicksTotal durableClicks bufferedClicks
  rw [hl, hc]

theorem durableClicks_congr (s s1 : Store) (code : String) (hl : s1.links = s.links) :
    durableClicks s1 code = durableClicks s code := by
  unfold durableClicks
  rw [hl]

theorem clicksTotal_increment (now : Time) (code : String) (s : Store)
    (hup : s.redisDown = false) :
    clicksTotal (IncrementClicks now code s).2 code = clicksTotal s code + 1 := by
  obtain ⟨-, hl, hc, -, -⟩ := IncrementClicks_up now code s hup
  unfold clicksTotal durableClicks bufferedClicks
  rw [hl, hc]
  simp only [Function.update_same, Option.getD_some]
  omega

theorem clicksTotal_drainRead (now : Time) (code : String) (s : Store) :
    clicksTotal (drainRead now code s).2 code = clicksTotal s code := by
  obtain ⟨hl, hc, -, -, -⟩ := drainRead_frame now code s
  exact clicksTotal_congr s _ code hl hc

theorem clicksTotal_drainApply (code : String) (n : Int) (s : Store) (hn : n > 0)
    (hrow : (durableClicks s code).isSome = true) :
    clicksTotal (drainApply code n s) code = clicksTotal s code := by
  by_cases hdown : s.redisDown = true ∨ s.dbDown = true
  · obtain ⟨hl, hc⟩ := drainApply_down code n s hdown
    exact clicksTotal_congr s _ code hl hc
  · have hup : s.redisDown = false := by
      cases h : s.redisDown
      · rfl
      · exact absurd (Or.inl h) hdown
    have hdb : s.dbDown = false := by
      cases h : s.dbDown
      · rfl
      · exact absurd (Or.inr h) hdown
    obtain ⟨hd, hb⟩ := drainApply_up code n s hn hup hdb
    unfold clicksTotal
    rw [hd, hb]
    rcases hdc : durableClicks s code with _ | c
    · rw [hdc] at hrow
      simp at hrow
    · simp only [Option.map_some', Option.getD_some]
      push_cast
      have : ((n.toNat : Nat) : Int) = n := Int.toNat_of_nonneg (le_of_lt hn)
      omega

theorem durableClicks_isSome_drainApply (code : String) (n : Int) (s : Store) (hn : n > 0)
    (hrow : (durableClicks s code).isSome = true) :
    (durableClicks (drainApply code n s) code).isSome = true := by
  by_cases hdown : s.redisDown = true ∨ s.dbDown = true
  · rw [durableClicks_congr s _ code (drainApply_down code n s hdown).1]
    exact hrow
  · have hup : s.redisDown = false := by
      cases h : s.redisDown
      · rfl
      · exact absurd (Or.inl h) hdown
    have hdb : s.dbDown = false := by
      cases h : s.dbDown
      · rfl
      · exact absurd (Or.inr h) hdown
    rw [(drainApply_up code n s hn hup hdb).1]
    simpa using hrow

/-- Along a run of the counter protocol that starts with Redis up, a row for the code and
only positive pending counts, the sum of the durable clicks and the counter grows by the
number of `IncrementClicks` steps. -/
theorem clickRun_total (code : String) (ops : List ClickOp) (st : DrainState)
    (hup : st.store.redisDown = false)
    (hrow : (durableClicks st.store code).isSome = true)
    (hpos : ∀ n ∈ st.pending, n > 0) :
    clicksTotal (clickRun code ops st).store code =
      clicksTotal st.store code + (increments ops : Int) := by
  induction ops generalizing st with
  | nil => simp [clickRun, increments]
  | cons op ops ih =>
    cases op with
    | increment now =>
      obtain ⟨-, hl, -, hr, -⟩ := IncrementClicks_up now code st.store hup
      have h1 := ih { st with store := (IncrementClicks now code st.store).2 }
        (by rw [hr]; exact hup)
        (by rw [durableClicks_congr st.store _ code hl]; exact hrow) hpos
      simp only [clickRun, clickStep, increments]
      rw [h1, clicksTotal_increment now code st.store hup]
      push_cast
      omega
    | read now =>
      obtain ⟨hl, hc, hr, -, hn⟩ := drainRead_frame now code st.store
      simp only [clickRun, clickStep, increments]
      rcases hd : drainRead now code st.store with ⟨_ | count, s1⟩
      · rw [hd] at hl hc hr
        simp only [] at hl hc hr ⊢
        rw [ih ⟨s1, st.pending⟩ (by rw [hr]; exact hup)
          (by rw [durableClicks_congr st.store _ code hl]; exact hrow) hpos,
          clicksTotal_congr st.store s1 code hl hc]
      · rw [hd] at hl hc hr hn
        simp only [] at hl hc hr ⊢
        have hcount : count > 0 := (hn count rfl).1
        rw [ih ⟨s1, st.pending ++ [count]⟩ (by rw [hr]; exact hup)
          (by rw [durableClicks_congr st.store _ code hl]; exact hrow)
          (by
            intro n hmem
            rcases List.mem_append.mp hmem with h | h
            · exact hpos n h
            · simp only [List.mem_singleton] at h
              rw [h]; exact hcount),
          clicksTotal_congr st.store s1 code hl hc]
    | apply =>
      simp only [clickRun, clickStep, increments]
      rcases hp : st.pending with _ | ⟨count, rest⟩
      · simp only []
        exact ih st hup hrow hpos
      · simp only []
        have hcount : count > 0 := hpos count (by rw [hp]; simp)
        rw [ih ⟨drainApply code count st.store, rest⟩
          (by rw [(drainApply_frame code count st.store).1]; exact hup)
          (durableClicks_isSome_drainApply code count st.store hcount hrow)
          (by
            intro n hmem
            exact hpos n (by rw [hp]; exact List.mem_cons_of_mem _ hmem)),
          clicksTotal_drainApply code count st.store hcount hrow]

/-- C9. For a code with a row in `short_links` and Redis up: an `IncrementClicks` succeeds
and raises the durable clicks plus the counter by exactly 1; the read of a drain changes
neither and observes the counter itself, a positive number; the update-and-subtract of a
drain with any positive count `n` leaves the sum unchanged, and when the database is up it
adds `n` to the durable clicks and takes exactly `n` off the counter, whatever was added
to the counter since the read; hence along any interleaving of increments, reads and
writes the sum grows by exactly the number of increments. -/
theorem counter_protocol_preserves_total (s : Store) (code : String)
    (hup : s.redisDown = false) (hrow : (durableClicks s code).isSome = true) :
    (∀ now, (IncrementClicks now code s).1 = none ∧
      clicksTotal (IncrementClicks now code s).2 code = clicksTotal s code + 1) ∧
    (∀ now, clicksTotal (drainRead now code s).2 code = clicksTotal s code ∧
      ∀ n, (drainRead now code s).1 = some n → n > 0 ∧ n = bufferedClicks s code) ∧
    (∀ n, n > 0 → clicksTotal (drainApply code n s) code = clicksTotal s code) ∧
    (∀ n, n > 0 → s.dbDown = false →
      durableClicks (drainApply code n s) code =
        (durableClicks s code).map (fun c => c + n.toNat) ∧
      bufferedClicks (drainApply code n s) code = bufferedClicks s code - n) ∧
    (∀ ops, clicksTotal (clickRun code ops ⟨s, []⟩).store code =
      clicksTotal s code + (increments ops : Int)) := by
  refine ⟨?_, ?_, ?_, ?_, ?_⟩
  · intro now
    exact ⟨(IncrementClicks_up now code s hup).1, clicksTotal_increment now code s hup⟩
  · intro now
    refine ⟨clicksTotal_drainRead now code s, ?_⟩
    intro n hn
    obtain ⟨h1, h2⟩ := (drainRead_frame now code s).2.2.2.2 n hn
    refine ⟨h1, ?_⟩
    unfold bufferedClicks
    rw [h2]
    rfl
  · intro n hn
    exact clicksTotal_drainApply code n s hn hrow
  · intro n hn hdb
    exact drainApply_up code n s hn hup hdb
  · intro ops
    exact clickRun_total code ops ⟨s, []⟩ hup hrow (by simp)

/-- C9 at a concrete run on the created link: increment, read (observes 1), increment,
write; the durable clicks are 1, the counter keeps the increment that arrived between the
read and the write, and the sum has grown by the two increments. -/
theorem counter_protocol_preserves_total_witness :
    durableClicks (clickRun "abc123"
      [.increment t0, .read t0, .increment t0, .apply] ⟨stCreated, []⟩).store "abc123" = some 1 ∧
    bufferedClicks (clickRun "abc123"
      [.increment t0, .read t0, .increment t0, .apply] ⟨stCreated, []⟩).store "abc123" = 1 ∧
    clicksTotal (clickRun "abc123"
      [.increment t0, .read t0, .increment t0, .apply] ⟨stCreated, []⟩).store "abc123" =
      clicksTotal stCreated "abc123" +
        (increments [.increment t0, .read t0, .increment t0, .apply] : Int) :=
  ⟨by rfl, by rfl,
    (counter_protocol_preserves_total stCreated "abc123" (by rfl) (by rfl)).2.2.2.2
      [.increment t0, .read t0, .increment t0, .apply]⟩

/-! ### The durable clicks across `Update` -/

/-- C10, the code at the failing input. Create the link, serve one redirect (counter 1,
cached clicks 1), `Update` it with an empty request (gorm `Save` writes the cached clicks:
durable 1), let the drain run (durable 2, counter 0; the cached payload still says 1),
`Update` it again with an empty request: `Save` writes the cached clicks once more and the
durable clicks go from 2 down to 1. -/
theorem Update_decreases_durable_clicks :
    durableClicks (runOps opsUntilDrain emptyStore) "abc123" = some 2 ∧
    ((Update (repository (t0 + 4 * Second)) sampleParse (t0 + 4 * Second) sampleAddDate
        "abc123" noChange (runOps opsUntilDrain emptyStore)).1.toOption.map
          (fun l => l.Clicks)) = some 1 ∧
    durableClicks (applyOp (.Update (t0 + 4 * Second) "abc123" noChange)
      (runOps opsUntilDrain emptyStore)) "abc123" = some 1 := by
  refine ⟨by rfl, by rfl, by rfl⟩

/-! ### Priorities and the rules cache -/

/-- When `rules:<id>` gives nothing and the database answers, `GetRules` returns the rules
of the link in the order of `ORDER BY priority DESC`. -/
theorem GetRules_durable (now : Time) (id : Nat) (s : Store)
    (hmiss : s.redisDown = true ∨ live now (s.rulesCache id) = none)
    (hdb : s.dbDown = false) :
    (GetRules now id s).1 =
      .ok (orderByPriorityDesc (s.rules.filter (fun r => r.ShortLinkID = id))) := by
  unfold GetRules
  have hc : (if s.redisDown then none
      else match live now (s.rulesCache id) with
        | some ⟨some rules, _⟩ => some rules
        | _ => none) = (none : Option (List RedirectRule)) := by
    rcases hmiss with h | h
    · simp [h]
    · simp [h]
  simp only [hc]
  rw [if_neg (by simp [hdb])]

theorem orderByPriorityDesc_pairwise (rs : List RedirectRule) :
    (orderByPriorityDesc rs).Pairwise (fun a b => a.Priority ≥ b.Priority) := by
  haveI : IsTotal RedirectRule (fun a b => a.Priority ≥ b.Priority) :=
    ⟨fun a b => le_total b.Priority a.Priority⟩
  haveI : IsTrans RedirectRule (fun a b => a.Priority ≥ b.Priority) :=
    ⟨fun a b c hab hbc => le_trans hbc hab⟩
  exact List.sorted_insertionSort (fun a b => a.Priority ≥ b.Priority) rs

/-- On a list read from the database the rule loop selects a rule of greatest priority
among the rules that match: every rule of the list that matches at its position has a
priority at most that of the selected rule. -/
theorem first_match_has_greatest_priority (env : Env) (clickLog : ClickLog)
    (rs : List RedirectRule) (k : Nat) (hk : k < (orderByPriorityDesc rs).length)
    (hsel : matchLoop env clickLog (orderByPriorityDesc rs) 0 =
      (some (orderByPriorityDesc rs)[k], k + 1)) :
    ∀ j, ∀ hj : j < (orderByPriorityDesc rs).length,
      matchRule env.GetIPRegion (env.nowRule j) (env.intn j) (orderByPriorityDesc rs)[j]
        clickLog = true →
      (orderByPriorityDesc rs)[j].Priority ≤ (orderByPriorityDesc rs)[k].Priority := by
  intro j hj hm
  rcases matchLoop_spec env clickLog (orderByPriorityDesc rs) 0 with
    ⟨k1, hk1, h1, -, h3⟩ | ⟨h1, -⟩
  · rw [hsel] at h1
    simp only [Prod.mk.injEq, zero_add] at h1
    have hkk : k = k1 := by omega
    subst hkk
    by_cases hjk : j < k
    · have := h3 j hjk
      simp only [zero_add] at this
      rw [this] at hm
      simp at hm
    · rcases Nat.lt_or_ge k j with hlt | hge
      · exact (List.pairwise_iff_getElem.mp (orderByPriorityDesc_pairwise rs)) k j hk hj hlt
      · have : j = k := by omega
        subst this
        exact le_refl _
  · rw [hsel] at h1
    simp at h1

/-- C3, the code at the failing input. Rule A (priority 10) is created, a redirect is
served and its `GetRules` caches the list `[A]` under `rules:1`; rule B (priority 20) is
created, which leaves `rules:1` in place. One second later both rules of the link match
the request and their priorities differ, but `Redirect` reads the cached list and selects
A. -/
theorem Redirect_selects_lower_priority_from_stale_cache :
    stRuleAB.rules.map (fun r => (r.ShortLinkID, r.Name, r.Priority)) =
      [(1, "A", 10), (1, "B", 20)] ∧
    stRuleAB.rules.all (fun r =>
      matchRule sampleRegion (t0 + 3 * Second) 49 r sampleClick) = true ∧
    (Redirect (repository (t0 + 3 * Second)) (sampleEnv (t0 + 3 * Second)) "abc123"
      sampleClick stRuleAB).matchedRule.map (fun r => (r.Name, r.Priority)) = some ("A", 10) ∧
    (Redirect (repository (t0 + 3 * Second)) (sampleEnv (t0 + 3 * Second)) "abc123"
      sampleClick stRuleAB).result = .ok ("https://a", RedirectTemporary) := by
  refine ⟨by rfl, by rfl, by rfl, by rfl⟩

/-! ### The resolve endpoint: statuses and error bodies -/

/-- What the handler sends when the use case returns a target and a redirect type. -/
theorem handler_Redirect_ok {σ : Type} (repo : Repo σ) (env : Env)
    (detectDevice : String → DeviceType) (now : Time)
    (code clientIP userAgent referer : String) (s : σ) (url : String) (k : RedirectType)
    (hcode : validateCode code = none)
    (hok : (Redirect repo env code
      (requestClickLog env detectDevice now clientIP userAgent referer) s).result = .ok (url, k)) :
    (ShortLinkHandler.Redirect repo env detectDevice now code clientIP userAgent referer s).1 =
      .redirect (statusCode k) url := by
  unfold ShortLinkHandler.Redirect
  rw [hcode]
  simp only []
  rw [hok]

/-- What the handler sends when the use case returns an error. -/
theorem handler_Redirect_error {σ : Type} (repo : Repo σ) (env : Env)
    (detectDevice : String → DeviceType) (now : Time)
    (code clientIP userAgent referer : String) (s : σ) (e : Err)
    (hcode : validateCode code = none)
    (herr : (Redirect repo env code
      (requestClickLog env detectDevice now clientIP userAgent referer) s).result = .error e) :
    (ShortLinkHandler.Redirect repo env detectDevice now code clientIP userAgent referer s).1 =
      redirectError e := by
  unfold ShortLinkHandler.Redirect
  rw [hcode]
  simp only []
  rw [herr]

theorem statusCode_values (k : RedirectType) :
    statusCode k = 301 ∨ statusCode k = 302 ∨ statusCode k = 307 ∨ statusCode k = 308 := by
  unfold statusCode
  split_ifs <;> simp

theorem statusCode_other (k : RedirectType)
    (h : k ≠ RedirectPermanent ∧ k ≠ RedirectTemporary ∧ k ≠ RedirectTemporaryKeepMethod ∧
      k ≠ RedirectPermanentKeepMethod) : statusCode k = 301 := by
  unfold statusCode
  simp [h.1, h.2.1, h.2.2.1, h.2.2.2]

/-- C17. When the use case `Redirect` returns the redirect type `k`, whatever integer it
is, the handler answers with a redirect to the returned target whose status is 301 for 1
(Permanent), 302 for 2 (Temporary), 307 for 3 (TemporaryKeepMethod), 308 for 4
(PermanentKeepMethod) and 301 for every other `k`; so the status is always one of 301,
302, 307, 308. -/
theorem redirect_status_of_type {σ : Type} (repo : Repo σ) (env : Env)
    (detectDevice : String → DeviceType) (now : Time)
    (code clientIP userAgent referer : String) (s : σ) (url : String) (k : RedirectType)
    (hcode : validateCode code = none)
    (hok : (Redirect repo env code
      (requestClickLog env detectDevice now clientIP userAgent referer) s).result = .ok (url, k)) :
    (ShortLinkHandler.Redirect repo env detectDevice now code clientIP userAgent referer s).1 =
      .redirect (statusCode k) url ∧
    statusCode 1 = 301 ∧ statusCode 2 = 302 ∧ statusCode 3 = 307 ∧ statusCode 4 = 308 ∧
    (k ≠ 1 ∧ k ≠ 2 ∧ k ≠ 3 ∧ k ≠ 4 → statusCode k = 301) ∧
    (statusCode k = 301 ∨ statusCode k = 302 ∨ statusCode k = 307 ∨ statusCode k = 308) :=
  ⟨handler_Redirect_ok repo env detectDevice now code clientIP userAgent referer s url k
      hcode hok,
    by decide, by decide, by decide, by decide, statusCode_other k, statusCode_values k⟩

/-- C17 at a concrete run: after `Update` with `default_redirect = 0` the use case returns
the type 0 and the handler answers 301 with the long URL. -/
theorem redirect_status_of_type_witness :
    (ShortLinkHandler.Redirect (repository (t0 + Second)) (sampleEnv (t0 + Second))
      (fun _ => DeviceDesktop) (t0 + Second) "abc123" "8.8.8.8" "Mozilla/5.0 (X11; Linux)" ""
      stUnsetDefault).1 = .redirect 301 "https://b" :=
  (redirect_status_of_type (repository (t0 + Second)) (sampleEnv (t0 + Second))
    (fun _ => DeviceDesktop) (t0 + Second) "abc123" "8.8.8.8" "Mozilla/5.0 (X11; Linux)" ""
    stUnsetDefault "https://b" 0 (by rfl) (by rfl)).1

theorem redirectError_shape (e : Err) :
    ∃ status c m d, redirectError e = .json status (.coded c m d) ∧ c / 1000 = status ∧
      (status = 404 ∨ status = 410 ∨ status = 403 ∨ status = 500) := by
  unfold redirectError
  split_ifs
  · exact ⟨404, 404001, _, _, rfl, by decide, by decide⟩
  · exact ⟨410, 410001, _, _, rfl, by decide, by decide⟩
  · exact ⟨403, 403001, _, _, rfl, by decide, by decide⟩
  · exact ⟨500, 500001, _, _, rfl, by decide, by decide⟩

/-- C16, as the code has it. A request `GET /{code}` that does not end in a redirect is
answered in one of two shapes. A code rejected by `validateCode` gets status 400 with the
body `{error, details}`, which has no integer code. An error `e` of the use case gets the
body `{code, message, details}` with `code div 1000` equal to the status and the status
one of 404, 410, 403, 500: 404/404001 when `e` is or wraps `ErrShortLinkNotFound`,
otherwise 410/410001 when it is or wraps `ErrShortLinkExpired`, otherwise 403/403001 when
it is or wraps `ErrMaxVisitsReached`, and 500/500001 for every other error. -/
theorem resolve_error_responses {σ : Type} (repo : Repo σ) (env : Env)
    (detectDevice : String → DeviceType) (now : Time)
    (code clientIP userAgent referer : String) (s : σ) :
    (∀ e, validateCode code = some e →
      (ShortLinkHandler.Redirect repo env detectDevice now code clientIP userAgent referer s).1
        = .json 400 (.failure "无效的短码" (some e.Error))) ∧
    (validateCode code = none →
      ∀ e, (Redirect repo env code
          (requestClickLog env detectDevice now clientIP userAgent referer) s).result = .error e →
        (∃ status c m d,
          (ShortLinkHandler.Redirect repo env detectDevice now code clientIP userAgent
            referer s).1 = .json status (.coded c m d) ∧
          c / 1000 = status ∧ (status = 404 ∨ status = 410 ∨ status = 403 ∨ status = 500)) ∧
        (e.Is Err.ErrShortLinkNotFound = true →
          (ShortLinkHandler.Redirect repo env detectDevice now code clientIP userAgent
            referer s).1 = .json 404 (.coded 404001 "短链接不存在" "请检查短链接是否正确")) ∧
        (e.Is Err.ErrShortLinkNotFound = false → e.Is Err.ErrShortLinkExpired = true →
          (ShortLinkHandler.Redirect repo env detectDevice now code clientIP userAgent
            referer s).1 =
            .json 410 (.coded 410001 "短链接已过期" "该链接已超过设定的有效期，无法访问")) ∧
        (e.Is Err.ErrShortLinkNotFound = false → e.Is Err.ErrShortLinkExpired = false →
          e.Is Err.ErrMaxVisitsReached = true →
          (ShortLinkHandler.Redirect repo env detectDevice now code clientIP userAgent
            referer s).1 =
            .json 403 (.coded 403001 "访问次数已达上限"
              "该短链接的访问次数已达到限制,无法继续访问")) ∧
        (e.Is Err.ErrShortLinkNotFound = false → e.Is Err.ErrShortLinkExpired = false →
          e.Is Err.ErrMaxVisitsReached = false →
          (ShortLinkHandler.Redirect repo env detectDevice now code clientIP userAgent
            referer s).1 =
            .json 500 (.coded 500001 "服务器内部错误"
              "请稍后重试，如果问题持续存在请联系管理员"))) := by
  constructor
  · intro e he
    unfold ShortLinkHandler.Redirect
    rw [he]
  · intro hcode e herr
    rw [handler_Redirect_error repo env detectDevice now code clientIP userAgent referer s e
      hcode herr]
    refine ⟨redirectError_shape e, ?_, ?_, ?_, ?_⟩
    · intro h1
      unfold redirectError
      rw [if_pos h1]
    · intro h1 h2
      unfold redirectError
      rw [if_neg (by simp [h1]), if_pos h2]
    · intro h1 h2 h3
      unfold redirectError
      rw [if_neg (by simp [h1]), if_neg (by simp [h2]), if_pos h3]
    · intro h1 h2 h3
      unfold redirectError
      rw [if_neg (by simp [h1]), if_neg (by simp [h2]), if_neg (by simp [h3])]

/-- C16, counterexample. A code of 17 characters is rejected by `validateCode`; the
response has status 400 and the body `{error, details}`, not `{code, message, details}`. -/
theorem validateCode_rejection_has_no_code :
    (ShortLinkHandler.Redirect (repository t0) (sampleEnv t0) (fun _ => DeviceDesktop) t0
      "aaaaaaaaaaaaaaaaa" "8.8.8.8" "Mozilla/5.0 (X11; Linux)" "" stCreated).1 =
      .json 400 (.failure "无效的短码" (some "short code too long")) := by
  rfl

/-- C16, the theorem at a concrete run: the expired sample link gives 410/410001. -/
theorem resolve_error_responses_witness :
    (ShortLinkHandler.Redirect (repository (t0 + 61 * Minute))
      (sampleEnv (t0 + 61 * Minute)) (fun _ => DeviceDesktop) (t0 + 61 * Minute)
      "abc123" "8.8.8.8" "Mozilla/5.0 (X11; Linux)" "" stCreated).1 =
      .json 410 (.coded 410001 "短链接已过期" "该链接已超过设定的有效期，无法访问") :=
  ((resolve_error_responses (repository (t0 + 61 * Minute)) (sampleEnv (t0 + 61 * Minute))
    (fun _ => DeviceDesktop) (t0 + 61 * Minute) "abc123" "8.8.8.8" "Mozilla/5.0 (X11; Linux)" ""
    stCreated).2 (by rfl) Err.ErrShortLinkExpired (by rfl)).2.2.1 (by rfl) (by rfl)

/-- C15, the code at the failing input. The row of `abc123` exists, there is no cache
entry, and the database does not answer: `GetByCode` returns `ErrShortLinkNotFound`, so
does `Redirect`, and the handler answers 404/404001 instead of 500/500001. -/
theorem durable_error_surfaces_as_not_found :
    (GetByCode t0 "abc123" stDbDown).1 = .error Err.ErrShortLinkNotFound ∧
    (Redirect (repository t0) (sampleEnv t0) "abc123" sampleClick stDbDown).result =
      .error Err.ErrShortLinkNotFound ∧
    (ShortLinkHandler.Redirect (repository t0) (sampleEnv t0) (fun _ => DeviceDesktop) t0
      "abc123" "8.8.8.8" "Mozilla/5.0 (X11; Linux)" "" stDbDown).1 =
      .json 404 (.coded 404001 "短链接不存在" "请检查短链接是否正确") := by
  refine ⟨by rfl, by rfl, by rfl⟩

/-! ### The cached payload: `Create`, `GetByCode`, `IncrementClicks` -/

theorem intOfUint_uint (x : Int) (hx : -(2 ^ 63) ≤ x ∧ x < 2 ^ 63) :
    intOfUint (x % 2 ^ 64).toNat = x := by
  unfold intOfUint
  have h0 : (0 : Int) ≤ x % 2 ^ 64 := Int.emod_nonneg _ (by norm_num)
  have h1 : x % 2 ^ 64 < 2 ^ 64 := Int.emod_lt_of_pos _ (by norm_num)
  have hc : (((x % 2 ^ 64).toNat : Nat) : Int) = x % 2 ^ 64 := Int.toNat_of_nonneg h0
  have hm : (x % 2 ^ 64).toNat % 2 ^ 64 = (x % 2 ^ 64).toNat := by
    apply Nat.mod_eq_of_lt
    omega
  rw [hm]
  split_ifs with h
  · omega
  · omega

/-- The payload after a successful `IncrementClicks` on a cached link: `clicks` is one
more (as a `uint64`), `never_expire` is gone (it decodes as `false`), every other field is
as before; the key is written back with the time to live that `TTL` reports. -/
theorem IncrementClicks_payload (now : Time) (code : String) (s : Store) (d : CacheData)
    (e : Option Time) (hup : s.redisDown = false)
    (hlive : live now (s.linkCache code) = some ⟨LinkVal.json d, e⟩) :
    (IncrementClicks now code s).1 = none ∧
    (IncrementClicks now code s).2.linkCache code =
      some ⟨LinkVal.json { d with Clicks := (d.Clicks + 1) % 2 ^ 64, NeverExpire := false },
        expiryAfterSet now e (redisTTL now e)⟩ := by
  unfold IncrementClicks
  rw [if_neg (by simp [hup])]
  simp only [hlive, Function.update_same]
  exact ⟨trivial, trivial⟩

/-- C12, the code at the failing input. A link that never expires is created and cached
by `setCache`; `GetByCode` returns it with `NeverExpire = true`. After one
`IncrementClicks` the cached payload has `clicks = 1`, and `GetByCode` returns the record
with `NeverExpire = false`: the bump changed a second field. -/
theorem IncrementClicks_drops_never_expire :
    (okOr sampleLink (GetByCode (t0 + Second) "never1" stNever).1).NeverExpire = true ∧
    (IncrementClicks (t0 + Second) "never1" stNever).1 = none ∧
    (okOr sampleLink (GetByCode (t0 + Second) "never1"
      (IncrementClicks (t0 + Second) "never1" stNever).2).1).Clicks = 1 ∧
    (okOr sampleLink (GetByCode (t0 + Second) "never1"
      (IncrementClicks (t0 + Second) "never1" stNever).2).1).NeverExpire = false := by
  refine ⟨by rfl, by rfl, by rfl, by rfl⟩

theorem setCache_up (now : Time) (link : ShortLink) (s : Store)
    (hup : s.redisDown = false) (hfuture : now < link.ExpiresAt) :
    (setCache now link s).2 =
      { s with linkCache := (Function.update s.linkCache link.ShortCode
          (some ⟨LinkVal.json (cacheDataOf link), some link.ExpiresAt⟩)) } := by
  have ht : now + (link.ExpiresAt - now) = link.ExpiresAt := add_sub_cancel now link.ExpiresAt
  unfold setCache
  simp only []
  rw [if_neg (not_le.mpr (sub_pos.mpr hfuture)), if_neg (by simp [hup])]
  simp only [ht]

/-- What gorm's completion changes of a record: a `DefaultRedirect` of 0 and zero
timestamps; the other fields stay. -/
theorem gormCompleted_fields (now : Time) (L : ShortLink) :
    (gormCompleted now L).ID = L.ID ∧
    (gormCompleted now L).ShortCode = L.ShortCode ∧
    (gormCompleted now L).LongURL = L.LongURL ∧
    (gormCompleted now L).UserID = L.UserID ∧
    (gormCompleted now L).Clicks = L.Clicks ∧
    (gormCompleted now L).MaxVisits = L.MaxVisits ∧
    (gormCompleted now L).ExpiresAt = L.ExpiresAt ∧
    (gormCompleted now L).NeverExpire = L.NeverExpire ∧
    (gormCompleted now L).Rules = L.Rules ∧
    (gormCompleted now L).DefaultRedirect =
      (if L.DefaultRedirect = 0 then 1 else L.DefaultRedirect) ∧
    (gormCompleted now L).CreatedAt = (if L.CreatedAt = zeroTime then now else L.CreatedAt) ∧
    (gormCompleted now L).UpdatedAt = (if L.UpdatedAt = zeroTime then now else L.UpdatedAt) := by
  unfold gormCompleted
  simp only []
  split_ifs <;> simp_all

/-- C13, as the code has it. With both stores answering, no row for the code yet and the
primary key free, `Create` of a record `L` whose `ExpiresAt` is in the future succeeds:
gorm completes the record (a `DefaultRedirect` of 0 becomes 1, zero timestamps become the
clock), the insert gives it its primary key (the next of the sequence when `L.ID` is 0,
`L.ID` otherwise), and the completed record is cached. A `GetByCode` before `ExpiresAt`
then returns the record decoded from that payload: it equals `L` in `ShortCode`,
`LongURL`, `Clicks`, `MaxVisits`, `ExpiresAt` and `NeverExpire`, has the primary key of the
insert, the completed `DefaultRedirect` and timestamps, and `UserID` 0, because the
payload has no `user_id`. -/
theorem Create_then_GetByCode (now now1 : Time) (L : ShortLink) (s : Store)
    (hup : s.redisDown = false) (hdb : s.dbDown = false)
    (hnew : s.links.any (fun row => row.ShortCode = L.ShortCode) = false)
    (hid : s.links.any (fun row => row.ID = insertID L s) = false)
    (hfuture : now < L.ExpiresAt) (hread : now1 < L.ExpiresAt)
    (hint : -(2 ^ 63) ≤ L.DefaultRedirect ∧ L.DefaultRedirect < 2 ^ 63) :
    (ShortLinkRepository.Create now L s).1 = none ∧
    (ShortLinkRepository.Create now L s).2.1 = { gormCompleted now L with ID := insertID L s } ∧
    (GetByCode now1 L.ShortCode (ShortLinkRepository.Create now L s).2.2).1 =
      .ok { ID := insertID L s
            ShortCode := L.ShortCode
            LongURL := L.LongURL
            UserID := 0
            Clicks := L.Clicks
            MaxVisits := L.MaxVisits
            ExpiresAt := L.ExpiresAt
            NeverExpire := L.NeverExpire
            DefaultRedirect := if L.DefaultRedirect = 0 then 1 else L.DefaultRedirect
            Rules := []
            CreatedAt := if L.CreatedAt = zeroTime then now else L.CreatedAt
            UpdatedAt := if L.UpdatedAt = zeroTime then now else L.UpdatedAt } := by
  obtain ⟨g1, g2, g3, g4, g5, g6, g7, g8, g9, g10, g11, g12⟩ := gormCompleted_fields now L
  obtain ⟨G, hG⟩ : ∃ G : ShortLink, G = gormCompleted now L := ⟨_, rfl⟩
  rw [← hG] at g1 g2 g3 g4 g5 g6 g7 g8 g9 g10 g11 g12
  have hfut : now < ({ G with ID := insertID L s } : ShortLink).ExpiresAt := by
    simp only []
    rw [g7]
    exact hfuture
  have hC : ShortLinkRepository.Create now L s =
      (none, { G with ID := insertID L s },
        (setCache now { G with ID := insertID L s }
          (if decide (L.ID = 0) = true then
            { s with dbQueries := s.dbQueries + 1,
                     links := s.links ++ [{ G with ID := insertID L s, Rules := [] }],
                     nextLinkID := s.nextLinkID + 1 }
          else
            { s with dbQueries := s.dbQueries + 1,
                     links := s.links ++ [{ G with ID := insertID L s, Rules := [] }] })).2) := by
    unfold ShortLinkRepository.Create
    simp only []
    have e : insertID L { s with dbQueries := s.dbQueries + 1 } = insertID L s := rfl
    rw [if_neg (by simp [hdb]), ← hG, g2, e, if_neg (by
      have h1 : (s.links.any fun row => decide (row.ShortCode = L.ShortCode)) = false := hnew
      have h2 : (s.links.any fun row => decide (row.ID = insertID L s)) = false := hid
      rw [h1, h2]
      simp)]
  have hint2 : -(2 ^ 63) ≤ G.DefaultRedirect ∧ G.DefaultRedirect < 2 ^ 63 := by
    rw [g10]
    split_ifs
    · constructor <;> norm_num
    · exact hint
  rw [hC, ← hG]
  refine ⟨rfl, rfl, ?_⟩
  simp only []
  have hup2 : ∀ st : Store, st.redisDown = s.redisDown →
      (GetByCode now1 L.ShortCode (setCache now { G with ID := insertID L s } st).2).1 =
        .ok (linkOfPayload L.ShortCode (cacheDataOf { G with ID := insertID L s })) := by
    intro st hst
    rw [setCache_up now { G with ID := insertID L s } st (by rw [hst]; exact hup) hfut]
    have hlv : ∀ v : LinkVal, live now1 (some (⟨v, some G.ExpiresAt⟩ : Entry LinkVal)) =
        some ⟨v, some G.ExpiresAt⟩ := by
      intro v
      simp only [live]
      rw [if_pos (by rw [g7]; exact hread)]
    rw [← g2]
    unfold GetByCode cachedPayload
    simp only [hst, hup, Bool.false_eq_true, if_false, Function.update_same, hlv]
  have hrec : linkOfPayload L.ShortCode (cacheDataOf { G with ID := insertID L s }) =
      { ID := insertID L s
        ShortCode := L.ShortCode
        LongURL := L.LongURL
        UserID := 0
        Clicks := L.Clicks
        MaxVisits := L.MaxVisits
        ExpiresAt := L.ExpiresAt
        NeverExpire := L.NeverExpire
        DefaultRedirect := if L.DefaultRedirect = 0 then 1 else L.DefaultRedirect
        Rules := []
        CreatedAt := if L.CreatedAt = zeroTime then now else L.CreatedAt
        UpdatedAt := if L.UpdatedAt = zeroTime then now else L.UpdatedAt } := by
    simp only [linkOfPayload, cacheDataOf]
    rw [intOfUint_uint G.DefaultRedirect hint2, g3, g5, g6, g7, g8, g10, g11, g12]
  rw [← hrec]
  split_ifs
  · exact hup2 _ rfl
  · exact hup2 _ rfl

/-- C13, counterexample. The sample link has `UserID = 7`; after `Create`, `GetByCode`
returns a record with `UserID = 0`. -/
theorem Create_then_GetByCode_loses_UserID :
    sampleLink.UserID = 7 ∧
    (ShortLinkRepository.Create t0 sampleLink emptyStore).1 = none ∧
    (okOr sampleLink (GetByCode t0 "abc123" stCreated).1).UserID = 0 := by
  refine ⟨by rfl, by rfl, by rfl⟩

/-- C13, the theorem at a concrete run: the sample link. -/
theorem Create_then_GetByCode_witness :
    (GetByCode (t0 + Second) sampleLink.ShortCode
      (ShortLinkRepository.Create t0 sampleLink emptyStore).2.2).1 =
      .ok { ID := insertID sampleLink emptyStore
            ShortCode := sampleLink.ShortCode
            LongURL := sampleLink.LongURL
            UserID := 0
            Clicks := sampleLink.Clicks
            MaxVisits := sampleLink.MaxVisits
            ExpiresAt := sampleLink.ExpiresAt
            NeverExpire := sampleLink.NeverExpire
            DefaultRedirect :=
              if sampleLink.DefaultRedirect = 0 then 1 else sampleLink.DefaultRedirect
            Rules := []
            CreatedAt := if sampleLink.CreatedAt = zeroTime then t0 else sampleLink.CreatedAt
            UpdatedAt := if sampleLink.UpdatedAt = zeroTime then t0 else sampleLink.UpdatedAt } :=
  (Create_then_GetByCode t0 (t0 + Second) sampleLink emptyStore (by rfl) (by rfl) (by rfl)
    (by rfl) (by decide) (by decide) (by decide)).2.2

/-! ### Rule mutations and the key `rules:<id>` -/

theorem CreateRule_keeps_rulesCache (now : Time) (rule : RedirectRule) (s : Store) :
    (CreateRule now rule s).2.2.rulesCache = s.rulesCache := by
  unfold CreateRule
  simp only []
  split_ifs <;> rfl

theorem UpdateRule_keeps_rulesCache (now : Time) (rule : RedirectRule) (s : Store) :
    (UpdateRule now rule s).2.rulesCache = s.rulesCache := by
  unfold UpdateRule
  simp only []
  split_ifs <;> rfl

theorem DeleteRule_keeps_rulesCache (ruleID : Nat) (s : Store) :
    (DeleteRule ruleID s).2.rulesCache = s.rulesCache := by
  unfold DeleteRule
  simp only []
  split_ifs <;> rfl

theorem UpdateRules_evicts (shortLinkID : Nat) (rules : List RedirectRule) (s : Store)
    (hup : s.redisDown = false) (hdb : s.dbDown = false) :
    (UpdateRules shortLinkID rules s).1 = none ∧
    (UpdateRules shortLinkID rules s).2.rulesCache shortLinkID = none := by
  unfold UpdateRules
  simp only []
  rw [if_neg (by simp [hdb]), if_neg (by simp [hup])]
  simp

/-- C14, the code at the failing input. With the list `[A]` cached under `rules:1`:
after `CreateRule(B)` succeeds the key is still there and `GetRules(1)` returns `[A]`
although the table holds A and B; after `UpdateRule` of A to priority 99 `GetRules(1)`
still returns A with priority 10; after `DeleteRule` of A `GetRules(1)` still returns
`[A]` although the table is empty. Only `UpdateRules` deletes the key: after it
`GetRules(1)` reads the table. -/
theorem rule_mutations_leave_rules_cache :
    (okOr [] (GetRules (t0 + 2 * Second) 1 stRuleACached).1).map (fun r => r.Name) = ["A"] ∧
    (CreateRule (t0 + 2 * Second) ruleB stRuleACached).1 = none ∧
    stRuleAB.rules.map (fun r => r.Name) = ["A", "B"] ∧
    (okOr [] (GetRules (t0 + 3 * Second) 1 stRuleAB).1).map (fun r => r.Name) = ["A"] ∧
    (UpdateRule (t0 + 2 * Second) { ruleA with ID := 1, Priority := 99 } stRuleACached).1
      = none ∧
    (UpdateRule (t0 + 2 * Second) { ruleA with ID := 1, Priority := 99 }
      stRuleACached).2.rules.map (fun r => r.Priority) = [99] ∧
    (okOr [] (GetRules (t0 + 3 * Second) 1
      (UpdateRule (t0 + 2 * Second) { ruleA with ID := 1, Priority := 99 }
        stRuleACached).2).1).map (fun r => r.Priority) = [10] ∧
    (DeleteRule 1 stRuleACached).1 = none ∧
    (DeleteRule 1 stRuleACached).2.rules = [] ∧
    (okOr [] (GetRules (t0 + 3 * Second) 1 (DeleteRule 1 stRuleACached).2).1).map
      (fun r => r.Name) = ["A"] ∧
    (okOr [] (GetRules (t0 + 3 * Second) 1 (UpdateRules 1 [ruleB] stRuleACached).2).1).map
      (fun r => r.Name) = ["B"] := by
  refine ⟨by rfl, by rfl, by rfl, by rfl, by rfl, by rfl, by rfl, by rfl, by rfl, by rfl,
    by rfl⟩

/-! ### The custom-code pattern -/

theorem compile_customCodePattern :
    compile customCodePattern =
      some [⟨.beginText, 1, 1⟩,
            ⟨.charClass [('a', 'z'), ('A', 'Z'), ('0', '9'), ('-', '-'), ('_', '_')], 4, 16⟩,
            ⟨.endText, 1, 1⟩] := by
  decide

theorem inClass_cons (r : Char × Char) (rs : List (Char × Char)) (c : Char) :
    inClass (r :: rs) c = true ↔ (r.1 ≤ c ∧ c ≤ r.2) ∨ inClass rs c = true := by
  simp [inClass]

theorem inClass_nil (c : Char) : inClass [] c = true ↔ False := by
  simp [inClass]

theorem inClass_custom (c : Char) :
    inClass [('a', 'z'), ('A', 'Z'), ('0', '9'), ('-', '-'), ('_', '_')] c = true ↔
      (('a' ≤ c ∧ c ≤ 'z') ∨ ('A' ≤ c ∧ c ≤ 'Z') ∨ ('0' ≤ c ∧ c ≤ '9') ∨ c = '_' ∨ c = '-') := by
  have h1 : ('-' ≤ c ∧ c ≤ '-') ↔ c = '-' :=
    ⟨fun h => Char.le_antisymm h.2 h.1,
      fun h => by subst h; exact ⟨Nat.le_refl _, Nat.le_refl _⟩⟩
  have h2 : ('_' ≤ c ∧ c ≤ '_') ↔ c = '_' :=
    ⟨fun h => Char.le_antisymm h.2 h.1,
      fun h => by subst h; exact ⟨Nat.le_refl _, Nat.le_refl _⟩⟩
  rw [inClass_cons, inClass_cons, inClass_cons, inClass_cons, inClass_cons, inClass_nil]
  simp only [h1, h2, or_false]
  constructor
  · rintro (h | h | h | h | h)
    · exact Or.inl h
    · exact Or.inr (Or.inl h)
    · exact Or.inr (Or.inr (Or.inl h))
    · exact Or.inr (Or.inr (Or.inr (Or.inr h)))
    · exact Or.inr (Or.inr (Or.inr (Or.inl h)))
  · rintro (h | h | h | h | h)
    · exact Or.inl h
    · exact Or.inr (Or.inl h)
    · exact Or.inr (Or.inr (Or.inl h))
    · exact Or.inr (Or.inr (Or.inr (Or.inr h)))
    · exact Or.inr (Or.inr (Or.inr (Or.inl h)))

theorem repeatAtom_class (R : List (Char × Char)) (k : Nat × List Char → Bool) :
    ∀ (max min pos : Nat) (cs : List Char),
      repeatAtom (.charClass R) k max min (pos, cs) = true ↔
        ∃ j, min ≤ j ∧ j ≤ max ∧ j ≤ cs.length ∧ (∀ c ∈ cs.take j, inClass R c = true) ∧
          k (pos + j, cs.drop j) = true := by
  intro max
  induction max with
  | zero =>
    intro min pos cs
    simp only [repeatAtom, Bool.and_eq_true, decide_eq_true_eq]
    constructor
    · rintro ⟨hm, hk⟩
      exact ⟨0, by omega, le_refl _, Nat.zero_le _, by simp, by simpa using hk⟩
    · rintro ⟨j, h1, h2, -, -, h5⟩
      have hj : j = 0 := by omega
      subst hj
      exact ⟨by omega, by simpa using h5⟩
  | succ max ih =>
    intro min pos cs
    simp only [repeatAtom, Bool.or_eq_true, Bool.and_eq_true, decide_eq_true_eq]
    constructor
    · rintro (⟨hm, hk⟩ | h)
      · exact ⟨0, by omega, Nat.zero_le _, Nat.zero_le _, by simp, by simpa using hk⟩
      · cases cs with
        | nil => simp [matchAtom] at h
        | cons c cs1 =>
          by_cases hc : inClass R c = true
          · simp only [matchAtom, hc, if_true] at h
            obtain ⟨j, h1, h2, h3, h4, h5⟩ := (ih (min - 1) (pos + 1) cs1).mp h
            refine ⟨j + 1, by omega, by omega, by simp; omega, ?_, ?_⟩
            · intro x hx
              simp only [List.take_succ_cons, List.mem_cons] at hx
              rcases hx with hx | hx
              · rw [hx]; exact hc
              · exact h4 x hx
            · have e : pos + (j + 1) = pos + 1 + j := by omega
              simpa [e] using h5
          · simp [matchAtom, hc] at h
    · rintro ⟨j, h1, h2, h3, h4, h5⟩
      cases j with
      | zero =>
        left
        exact ⟨by omega, by simpa using h5⟩
      | succ j =>
        right
        cases cs with
        | nil => simp at h3
        | cons c cs1 =>
          have hc : inClass R c = true := h4 c (by simp)
          simp only [matchAtom, hc, if_true]
          apply (ih (min - 1) (pos + 1) cs1).mpr
          refine ⟨j, by omega, by omega, by simpa using h3, ?_, ?_⟩
          · intro x hx
            exact h4 x (by simp [hx])
          · have e : pos + (j + 1) = pos + 1 + j := by omega
            simpa [e] using h5

theorem repeatAtom_beginText (k : Nat × List Char → Bool) (pos : Nat) (cs : List Char) :
    repeatAtom .beginText k 1 1 (pos, cs) = (decide (pos = 0) && k (pos, cs)) := by
  by_cases h : pos = 0 <;> simp [repeatAtom, matchAtom, h]

theorem repeatAtom_endText (k : Nat × List Char → Bool) (pos : Nat) (cs : List Char) :
    repeatAtom .endText k 1 1 (pos, cs) = (decide (cs = []) && k (pos, cs)) := by
  by_cases h : cs = [] <;> simp [repeatAtom, matchAtom, h]

/-- The compiled custom-code pattern matches a text exactly when the whole text is
between 4 and 16 characters of the class. -/
theorem matchString_custom (s : String) :
    matchString [⟨.beginText, 1, 1⟩,
        ⟨.charClass [('a', 'z'), ('A', 'Z'), ('0', '9'), ('-', '-'), ('_', '_')], 4, 16⟩,
        ⟨.endText, 1, 1⟩] s = true ↔
      (4 ≤ s.data.length ∧ s.data.length ≤ 16 ∧
        ∀ c ∈ s.data,
          inClass [('a', 'z'), ('A', 'Z'), ('0', '9'), ('-', '-'), ('_', '_')] c = true) := by
  obtain ⟨cs⟩ := s
  unfold matchString
  simp only [List.any_eq_true, List.mem_range, matchPieces, repeatAtom_beginText,
    Bool.and_eq_true, decide_eq_true_eq]
  constructor
  · rintro ⟨i, -, hi0, h⟩
    subst hi0
    obtain ⟨j, h1, h2, h3, h4, h5⟩ := (repeatAtom_class _ _ 16 4 0 _).mp h
    rw [repeatAtom_endText] at h5
    simp only [List.drop_zero, Bool.and_true, decide_eq_true_eq, List.drop_eq_nil_iff] at h3 h4 h5
    have hj : j = cs.length := by omega
    subst hj
    refine ⟨h1, h2, ?_⟩
    intro c hc
    rw [List.take_length] at h4
    exact h4 c hc
  · rintro ⟨h1, h2, h3⟩
    refine ⟨0, by omega, rfl, ?_⟩
    apply (repeatAtom_class _ _ 16 4 0 _).mpr
    refine ⟨cs.length, h1, h2, by simp, ?_, ?_⟩
    · intro c hc
      simp only [List.drop_zero, List.take_length] at hc
      exact h3 c hc
    · rw [repeatAtom_endText]
      simp

/-- C19. `ValidateCustomCode(code)` is true exactly when `code` has between 4 and 16
characters and each of them is an ASCII letter, an ASCII digit, `_` or `-`. It accepts at
the lengths 4 and 16, rejects at 3 and 17, and rejects a trailing newline and the
characters `:` and `@`, which lie between `9` and `_`. -/
theorem ValidateCustomCode_iff (code : String) :
    (ValidateCustomCode code = true ↔
      (4 ≤ code.length ∧ code.length ≤ 16 ∧
        ∀ c ∈ code.data,
          (('a' ≤ c ∧ c ≤ 'z') ∨ ('A' ≤ c ∧ c ≤ 'Z') ∨ ('0' ≤ c ∧ c ≤ '9') ∨
            c = '_' ∨ c = '-'))) ∧
    ValidateCustomCode "a-_9" = true ∧
    ValidateCustomCode "abcdefghABCDEFGH" = true ∧
    ValidateCustomCode "abc" = false ∧
    ValidateCustomCode "abcdefghABCDEFGH0" = false ∧
    ValidateCustomCode "abcd\n" = false ∧
    ValidateCustomCode "abc:" = false ∧
    ValidateCustomCode "abc@" = false := by
  refine ⟨?_, by decide, by decide, by decide, by decide, by decide, by decide, by decide⟩
  unfold ValidateCustomCode
  rw [compile_customCodePattern]
  simp only []
  rw [matchString_custom]
  have hl : code.length = code.data.length := rfl
  rw [hl]
  constructor
  · rintro ⟨h1, h2, h3⟩
    exact ⟨h1, h2, fun c hc => (inClass_custom c).mp (h3 c hc)⟩
  · rintro ⟨h1, h2, h3⟩
    exact ⟨h1, h2, fun c hc => (inClass_custom c).mpr (h3 c hc)⟩

/-! ### The code mint -/

theorem generateLoop_ok (draws : Nat → Except Err (Fin 62)) (ds : Nat → Fin 62) :
    ∀ (k i : Nat) (b : List Char), (∀ j, j < k → draws (i + j) = .ok (ds (i + j))) →
      generateLoop draws k i b =
        (String.mk (b ++ (List.range k).map (fun j => charsetAt (ds (i + j)))), none) := by
  intro k
  induction k with
  | zero =>
    intro i b _
    simp [generateLoop]
  | succ k ih =>
    intro i b h
    have h0 : draws i = .ok (ds i) := by simpa using h 0 (by omega)
    have hrest : ∀ j, j < k → draws (i + 1 + j) = .ok (ds (i + 1 + j)) := by
      intro j hj
      have e : i + 1 + j = i + (j + 1) := by omega
      rw [e]
      exact h (j + 1) (by omega)
    simp only [generateLoop, h0]
    rw [ih (i + 1) (b ++ [charsetAt (ds i)]) hrest, List.range_succ_eq_map]
    simp only [List.map_cons, List.map_map, List.append_assoc, List.singleton_append,
      Nat.add_zero]
    congr 4
    apply List.map_congr_left
    intro j _
    simp only [Function.comp]
    have e : i + 1 + j = i + (j + 1) := by omega
    rw [e]

theorem generateLoop_error (draws : Nat → Except Err (Fin 62)) :
    ∀ (k i : Nat) (b : List Char),
      ((∃ e, (generateLoop draws k i b).2 = some e) ↔
        ∃ j, j < k ∧ ∃ e, draws (i + j) = .error e) ∧
      (∀ e, (generateLoop draws k i b).2 = some e → (generateLoop draws k i b).1 = "") := by
  intro k
  induction k with
  | zero =>
    intro i b
    simp [generateLoop]
  | succ k ih =>
    intro i b
    rcases hd : draws i with e0 | n
    · simp only [generateLoop, hd]
      refine ⟨⟨fun _ => ⟨0, by omega, e0, by simpa using hd⟩, fun _ => ⟨e0, rfl⟩⟩, ?_⟩
      intro e _
      trivial
    · simp only [generateLoop, hd]
      obtain ⟨h1, h2⟩ := ih (i + 1) (b ++ [charsetAt n])
      refine ⟨?_, h2⟩
      rw [h1]
      constructor
      · rintro ⟨j, hj, e, he⟩
        refine ⟨j + 1, by omega, e, ?_⟩
        have e1 : i + (j + 1) = i + 1 + j := by omega
        rw [e1]
        exact he
      · rintro ⟨j, hj, e, he⟩
        cases j with
        | zero =>
          rw [Nat.add_zero, hd] at he
          simp at he
        | succ j =>
          refine ⟨j, by omega, e, ?_⟩
          have e1 : i + 1 + j = i + (j + 1) := by omega
          rw [e1]
          exact he

theorem charsetAt_mem (n : Fin 62) : charsetAt n ∈ charset.data :=
  List.get_mem _ _ _

/-- C20. For a length `n` and the outcomes `draws` of the calls of `rand.Int`: when the
draws `0..n-1` succeed with the values `ds i`, `GenerateShortCode(n)` returns, with no
error, the string whose `i`-th character is `charset[ds i]`; it has exactly `n`
characters and each lies in `charset`. It returns an error exactly when one of the draws
`0..n-1` fails, and then the string is empty. `charset` has 62 characters, pairwise
distinct, each a letter `a-z`, `A-Z` or a digit. -/
theorem GenerateShortCode_spec (n : Nat) (draws : Nat → Except Err (Fin 62)) :
    (∀ ds : Nat → Fin 62, (∀ i, i < n → draws i = .ok (ds i)) →
      GenerateShortCode n draws =
        (String.mk ((List.range n).map (fun i => charsetAt (ds i))), none) ∧
      (GenerateShortCode n draws).1.length = n ∧
      ∀ c ∈ (GenerateShortCode n draws).1.data, c ∈ charset.data) ∧
    ((∃ e, (GenerateShortCode n draws).2 = some e) ↔ ∃ i, i < n ∧ ∃ e, draws i = .error e) ∧
    (∀ e, (GenerateShortCode n draws).2 = some e → (GenerateShortCode n draws).1 = "") ∧
    charset.length = 62 ∧ charset.data.Nodup ∧
    (∀ c ∈ charset.data,
      ('a' ≤ c ∧ c ≤ 'z') ∨ ('A' ≤ c ∧ c ≤ 'Z') ∨ ('0' ≤ c ∧ c ≤ '9')) := by
  refine ⟨?_, ?_, ?_, by decide, by decide, by decide⟩
  · intro ds h
    have hloop := generateLoop_ok draws ds n 0 [] (by
      intro j hj
      rw [Nat.zero_add]
      exact h j hj)
    simp only [Nat.zero_add, List.nil_append] at hloop
    unfold GenerateShortCode
    rw [hloop]
    refine ⟨rfl, ?_, ?_⟩
    · simp [String.length]
    · intro c hc
      simp only [List.mem_map, List.mem_range] at hc
      obtain ⟨i, -, rfl⟩ := hc
      exact charsetAt_mem _
  · have := (generateLoop_error draws n 0 []).1
    simpa [GenerateShortCode] using this
  · exact (generateLoop_error draws n 0 []).2

/-- C20 at a concrete run: the draws 0, 1, 2, 3, 4, 5 give the code `abcdef`. -/
theorem GenerateShortCode_spec_witness :
    GenerateShortCode 6 (fun i => .ok (Fin.ofNat i)) = ("abcdef", none) :=
  ((GenerateShortCode_spec 6 (fun i => .ok (Fin.ofNat i))).1 (fun i => Fin.ofNat i)
    (fun _ _ => rfl)).1

/-! ### The create endpoint: rejected URLs and custom codes -/

/-- An error built by `fmt.Errorf("%w: ...", sentinel)` is none of the values that
`handleError` switches on; unless its text contains `failed to check custom code`, the
response is 500/500001. -/
theorem handleError_suffixed (inner : Err) (msg : String)
    (htext : stringsContains (Err.suffixed inner msg).Error "failed to check custom code"
      = false) :
    handleError (Err.suffixed inner msg) =
      .json 500 (.coded 500001 "服务器内部错误" "请稍后重试，如果问题持续存在请联系管理员") := by
  unfold handleError
  rw [if_neg (by simp), if_neg (by simp), if_neg (by simp), if_neg (by simp),
    if_neg (by simp), if_neg (by simp), if_neg (by simp [htext])]

theorem validateURL_too_long (urlParse : String → Except String String) (longURL : String)
    (scheme : String) (hparse : urlParse longURL = .ok scheme)
    (hscheme : scheme = "http" ∨ scheme = "https") (hlong : longURL.utf8ByteSize > 2048) :
    validateURL urlParse longURL = some (Err.suffixed Err.ErrInvalidURL "url too long") := by
  unfold validateURL
  rw [hparse]
  simp only []
  rw [if_neg (by
    rintro ⟨h1, h2⟩
    rcases hscheme with h | h
    · exact h1 h
    · exact h2 h), if_pos hlong]

/-- Whenever `validateURL` rejects the long URL of a create request that has passed the
check of `ExpiresAt`, the handler answers with `handleError` of that error; for the
scheme and for the length that is 500/500001. -/
theorem handler_Create_invalid_url {σ : Type} (repo : Repo σ) (cenv : CreateEnv)
    (now : Time) (input : CreateShortLinkInput) (s : σ) (e : Err)
    (hexp : ¬ (input.ExpiresAt ≠ zeroTime ∧ input.ExpiresAt < now))
    (hurl : validateURL cenv.urlParse input.LongURL = some e) :
    (ShortLinkHandler.Create repo cenv now input s).1 = handleError e ∧
    handleError (Err.suffixed Err.ErrInvalidURL "invalid scheme") =
      .json 500 (.coded 500001 "服务器内部错误" "请稍后重试，如果问题持续存在请联系管理员") ∧
    handleError (Err.suffixed Err.ErrInvalidURL "url too long") =
      .json 500 (.coded 500001 "服务器内部错误" "请稍后重试，如果问题持续存在请联系管理员") := by
  refine ⟨?_, by rfl, by rfl⟩
  unfold ShortLinkHandler.Create
  rw [if_neg hexp]
  simp only []
  have hurl2 : validateURL cenv.urlParse
      (if input.DefaultRedirect = 0 then
        { input with DefaultRedirect := RedirectPermanent } else input).LongURL = some e := by
    split_ifs <;> exact hurl
  unfold ShortLinkUseCase.Create
  rw [hurl2]

/-- C18, the code at the failing inputs. A create request with the long URL
`ftp://example.com/file` and one with the custom code `ab`: `validateURL` and
`ValidateCustomCode` reject them, the use case returns `ErrInvalidURL` and
`ErrInvalidCustomCode` wrapped by `fmt.Errorf`, and the handler answers each with
500/500001; the same request with nothing to reject is answered with 201. -/
theorem create_rejections_surface_as_500 :
    validateURL (fun _ => .ok "ftp") "ftp://example.com/file" =
      some (Err.suffixed Err.ErrInvalidURL "invalid scheme") ∧
    (ShortLinkHandler.Create (repository t0) (sampleCreateEnv "ftp") t0
      { sampleInput with LongURL := "ftp://example.com/file" } emptyStore).1 =
      .json 500 (.coded 500001 "服务器内部错误" "请稍后重试，如果问题持续存在请联系管理员") ∧
    ValidateCustomCode "ab" = false ∧
    (ShortLinkUseCase.Create (repository t0) (sampleCreateEnv "https")
      { sampleInput with CustomCode := "ab" } emptyStore).1 =
      .error (Err.suffixed Err.ErrInvalidCustomCode "invalid format") ∧
    (ShortLinkHandler.Create (repository t0) (sampleCreateEnv "https") t0
      { sampleInput with CustomCode := "ab" } emptyStore).1 =
      .json 500 (.coded 500001 "服务器内部错误" "请稍后重试，如果问题持续存在请联系管理员") ∧
    ((ShortLinkHandler.Create (repository t0) (sampleCreateEnv "https") t0
      sampleInput emptyStore).1).status = 201 := by
  refine ⟨by rfl, by rfl, by decide, by rfl, by rfl, by rfl⟩

/-! ### Device detection -/

/-- `strings.Contains s substr` holds exactly when `substr` occurs in `s` as a block of
consecutive characters. -/
theorem stringsContains_iff (s substr : String) :
    stringsContains s substr = true ↔ substr.data <:+: s.data := by
  unfold stringsContains
  rw [List.any_eq_true, List.infix_iff_prefix_suffix]
  constructor
  · rintro ⟨t, ht, hp⟩
    exact ⟨t, List.isPrefixOf_iff_prefix.mp hp, (List.mem_tails _ _).mp ht⟩
  · rintro ⟨t, hp, ht⟩
    exact ⟨t, (List.mem_tails _ _).mpr ht, List.isPrefixOf_iff_prefix.mpr hp⟩

theorem stringsToLower_append (table : Char → Char) (a b : String) :
    stringsToLower table (a ++ b) = stringsToLower table a ++ stringsToLower table b := by
  unfold stringsToLower
  apply String.ext
  simp [String.data_append]

/-- A word that lower-cases to `w`, anywhere in the string, makes the lower-cased string
contain `w`. -/
theorem stringsContains_lower_of_word (table : Char → Char) (pre word post w : String)
    (hw : stringsToLower table word = w) :
    stringsContains (stringsToLower table (pre ++ word ++ post)) w = true := by
  rw [stringsContains_iff, stringsToLower_append, stringsToLower_append, hw]
  exact ⟨(stringsToLower table pre).data, (stringsToLower table post).data, by
    simp [String.data_append]⟩

theorem char_le_iff (a b : Char) : a ≤ b ↔ a.toNat ≤ b.toNat := by
  rfl

theorem unicodeToLower_ascii (table : Char → Char) (c : Char) (h : c.toNat ≤ 127) :
    unicodeToLower table c = c.toLower := by
  unfold unicodeToLower Char.toLower
  rw [if_pos h]
  simp only [char_le_iff]
  have hA : 'A'.toNat = 65 := by decide
  have hZ : 'Z'.toNat = 90 := by decide
  simp only [hA, hZ, ge_iff_le]

theorem toLower_nonascii (c : Char) (h : 127 < c.toNat) : c.toLower = c := by
  unfold Char.toLower
  simp only []
  rw [if_neg (by omega)]

/-- A character that the library folds to the lower-case ASCII letter `m` is lower-cased to
`m` by `unicode.ToLower`, whatever the case tables are. -/
theorem unicodeToLower_of_equalFold (table : Char → Char) (m c : Char)
    (hm : m.toNat ≤ 127 ∧ m.toLower = m) (h : equalFold m c = true) :
    unicodeToLower table c = m := by
  unfold equalFold at h
  have h2 : m = c.toLower := by
    have := of_decide_eq_true h
    rw [hm.2] at this
    exact this
  by_cases hc : c.toNat ≤ 127
  · rw [unicodeToLower_ascii table c hc, h2]
  · rw [toLower_nonascii c (by omega)] at h2
    rw [h2] at hm
    exact absurd hm.1 hc

/-- For a character that is ASCII, or that the case tables send outside ASCII, being
lower-cased by `unicode.ToLower` to the lower-case ASCII letter `m` is being `m` up to
case. -/
theorem equalFold_eq_beq (table : Char → Char) (m c : Char)
    (hm : m.toNat ≤ 127 ∧ m.toLower = m) (hc : 127 < c.toNat → 127 < (table c).toNat) :
    equalFold m c = (m == unicodeToLower table c) := by
  by_cases h : equalFold m c = true
  · rw [h, unicodeToLower_of_equalFold table m c hm h]
    simp
  · have h0 : equalFold m c = false := by simpa using h
    rw [h0]
    symm
    rw [beq_eq_false_iff_ne]
    intro he
    apply h
    unfold equalFold
    rw [decide_eq_true_iff, hm.2]
    by_cases hca : c.toNat ≤ 127
    · rw [← unicodeToLower_ascii table c hca]
      exact he
    · exfalso
      have h3 : unicodeToLower table c = table c := by
        unfold unicodeToLower
        rw [if_neg hca]
      rw [h3] at he
      have := hc (by omega)
      rw [← he] at this
      omega

theorem startsWithFold_lower (table : Char → Char) :
    ∀ (w cs : List Char), (∀ m ∈ w, m.toNat ≤ 127 ∧ m.toLower = m) →
      startsWithFold w cs = true → w.isPrefixOf (cs.map (unicodeToLower table)) = true := by
  intro w
  induction w with
  | nil =>
    intro cs _ _
    simp
  | cons m ms ih =>
    intro cs hw h
    cases cs with
    | nil => simp [startsWithFold] at h
    | cons c cs =>
      simp only [startsWithFold, Bool.and_eq_true] at h
      simp only [List.map_cons, List.isPrefixOf, Bool.and_eq_true, beq_iff_eq]
      exact ⟨(unicodeToLower_of_equalFold table m c (hw m (by simp)) h.1).symm,
        ih cs (fun x hx => hw x (by simp [hx])) h.2⟩

theorem startsWithFold_eq (table : Char → Char) :
    ∀ (w cs : List Char), (∀ m ∈ w, m.toNat ≤ 127 ∧ m.toLower = m) →
      (∀ c ∈ cs, 127 < c.toNat → 127 < (table c).toNat) →
      startsWithFold w cs = w.isPrefixOf (cs.map (unicodeToLower table)) := by
  intro w
  induction w with
  | nil =>
    intro cs _ _
    simp [startsWithFold]
  | cons m ms ih =>
    intro cs hw hcs
    cases cs with
    | nil => simp [startsWithFold]
    | cons c cs =>
      simp only [startsWithFold, List.map_cons, List.isPrefixOf]
      rw [equalFold_eq_beq table m c (hw m (by simp)) (hcs c (by simp)),
        ih cs (fun x hx => hw x (by simp [hx])) (fun x hx => hcs x (by simp [hx]))]

theorem containsFold_lower (table : Char → Char) (s word : String) (hw : lowerWord word)
    (h : containsFold s word = true) :
    stringsContains (stringsToLower table s) word = true := by
  unfold containsFold at h
  unfold stringsContains stringsToLower
  simp only []
  generalize s.data = l at h
  induction l with
  | nil =>
    simp only [List.tails, List.any_cons, List.any_nil, Bool.or_false] at h
    simp only [List.map_nil, List.tails, List.any_cons, List.any_nil, Bool.or_false]
    exact startsWithFold_lower table _ _ hw h
  | cons c cs ih =>
    simp only [List.tails, List.any_cons, Bool.or_eq_true] at h
    simp only [List.map_cons, List.tails, List.any_cons, Bool.or_eq_true]
    rcases h with h | h
    · left
      exact startsWithFold_lower table _ _ hw h
    · right
      exact ih h

theorem containsFold_eq (table : Char → Char) (s word : String) (hw : lowerWord word)
    (hs : ∀ c ∈ s.data, 127 < c.toNat → 127 < (table c).toNat) :
    containsFold s word = stringsContains (stringsToLower table s) word := by
  unfold containsFold stringsContains stringsToLower
  simp only []
  generalize s.data = l at hs
  induction l with
  | nil =>
    simp only [List.map_nil, List.tails, List.any_cons, List.any_nil, Bool.or_false]
    exact startsWithFold_eq table _ _ hw (by simp)
  | cons c cs ih =>
    simp only [List.map_cons, List.tails, List.any_cons]
    rw [ih (fun x hx => hs x (by simp [hx]))]
    congr 1
    exact startsWithFold_eq table _ _ hw hs

theorem lowerWord_mobile : lowerWord "mobile" := by
  unfold lowerWord
  decide

theorem lowerWord_tablet : lowerWord "tablet" := by
  unfold lowerWord
  decide

/-- C21. `detectDevice` answers Mobile when the lower-cased user agent contains `mobile`,
otherwise Tablet when it contains `tablet`, otherwise Desktop. The matching does not tell
upper from lower case, whatever the case tables outside ASCII are: a user agent in which
`mobile` occurs in any mix of case (`containsFold`, which does not lower-case anything
with the code's function) is Mobile, also when `tablet` occurs too, and one in which
`tablet` occurs in any mix of case is Tablet unless the lower-cased user agent contains
`mobile`. For a user agent whose characters outside ASCII are lower-cased to characters
outside ASCII, so for every ASCII user agent, the answer is the device of the
specification, `deviceOfSpec`. The answer is never `DeviceAll`. -/
theorem detectDevice_spec (table : Char → Char) (ua : String) :
    (stringsContains (stringsToLower table ua) "mobile" = true →
      detectDevice table ua = DeviceMobile) ∧
    (stringsContains (stringsToLower table ua) "mobile" = false →
      stringsContains (stringsToLower table ua) "tablet" = true →
      detectDevice table ua = DeviceTablet) ∧
    (stringsContains (stringsToLower table ua) "mobile" = false →
      stringsContains (stringsToLower table ua) "tablet" = false →
      detectDevice table ua = DeviceDesktop) ∧
    (containsFold ua "mobile" = true → detectDevice table ua = DeviceMobile) ∧
    (containsFold ua "tablet" = true →
      stringsContains (stringsToLower table ua) "mobile" = false →
      detectDevice table ua = DeviceTablet) ∧
    ((∀ c ∈ ua.data, 127 < c.toNat → 127 < (table c).toNat) →
      detectDevice table ua = deviceOfSpec ua) ∧
    detectDevice table ua ≠ DeviceAll := by
  have h1 : stringsContains (stringsToLower table ua) "mobile" = true →
      detectDevice table ua = DeviceMobile := by
    intro h
    unfold detectDevice
    simp only [h, if_true]
  have h2 : stringsContains (stringsToLower table ua) "mobile" = false →
      stringsContains (stringsToLower table ua) "tablet" = true →
      detectDevice table ua = DeviceTablet := by
    intro hm ht
    unfold detectDevice
    simp [hm, ht]
  refine ⟨h1, h2, ?_, ?_, ?_, ?_, ?_⟩
  · intro hm ht
    unfold detectDevice
    simp [hm, ht]
  · intro h
    exact h1 (containsFold_lower table ua "mobile" lowerWord_mobile h)
  · intro h hm
    exact h2 hm (containsFold_lower table ua "tablet" lowerWord_tablet h)
  · intro hs
    unfold detectDevice deviceOfSpec
    rw [containsFold_eq table ua "mobile" lowerWord_mobile hs,
      containsFold_eq table ua "tablet" lowerWord_tablet hs]
  · unfold detectDevice
    simp only []
    split_ifs <;> decide

/-- C21, the theorem at the user agents of the specification: an iPhone browser is
Mobile, a user agent with `Tablet` and without `mobile` is Tablet, a Linux desktop browser
is Desktop and is so by the specification's scan, and `MOBILE` next to `tablet` is
Mobile. -/
theorem detectDevice_spec_witness :
    detectDevice id "Mozilla/5.0 (iPhone; CPU iPhone OS 16_0) Mobile/15E148" = DeviceMobile ∧
    detectDevice id "Mozilla/5.0 (Linux; Android 13; Tablet)" = DeviceTablet ∧
    detectDevice id "Mozilla/5.0 (X11; Linux)" = DeviceDesktop ∧
    detectDevice id "a MOBILE tablet" = DeviceMobile ∧
    detectDevice id "Mozilla/5.0 (X11; Linux)" = deviceOfSpec "Mozilla/5.0 (X11; Linux)" :=
  ⟨(detectDevice_spec id "Mozilla/5.0 (iPhone; CPU iPhone OS 16_0) Mobile/15E148").2.2.2.1
      (by decide),
    (detectDevice_spec id "Mozilla/5.0 (Linux; Android 13; Tablet)").2.2.2.2.1
      (by decide) (by decide),
    (detectDevice_spec id "Mozilla/5.0 (X11; Linux)").2.2.1 (by decide) (by decide),
    (detectDevice_spec id "a MOBILE tablet").2.2.2.1 (by decide),
    (detectDevice_spec id "Mozilla/5.0 (X11; Linux)").2.2.2.2.2.1 (fun _ _ h => h)⟩

/-! ### Regions: `parseRegion` and `GetIPRegion` -/

theorem splitChars_ne_nil (sep : Char) (cs : List Char) : splitChars sep cs ≠ [] := by
  cases cs with
  | nil => simp [splitChars]
  | cons c cs =>
    unfold splitChars
    split_ifs
    · simp
    · split <;> simp

theorem splitChars_length (sep : Char) (cs : List Char) :
    (splitChars sep cs).length = cs.count sep + 1 := by
  induction cs with
  | nil => simp [splitChars]
  | cons c cs ih =>
    unfold splitChars
    by_cases hc : c = sep
    · rw [if_pos hc, hc]
      simp [ih]
    · rw [if_neg hc]
      have hcount : (c :: cs).count sep = cs.count sep := by
        rw [List.count_cons_of_ne]
        exact fun h => hc h.symm
      rw [hcount, ← ih]
      rcases h : splitChars sep cs with _ | ⟨p, ps⟩
      · exact absurd h (splitChars_ne_nil sep cs)
      · simp

theorem splitChars_intercalate (sep : Char) (cs : List Char) :
    List.intercalate [sep] (splitChars sep cs) = cs := by
  induction cs with
  | nil => simp [splitChars, List.intercalate]
  | cons c cs ih =>
    unfold splitChars
    by_cases hc : c = sep
    · rw [if_pos hc, hc]
      rcases h : splitChars sep cs with _ | ⟨p, ps⟩
      · exact absurd h (splitChars_ne_nil sep cs)
      · rw [h] at ih
        rw [← ih]
        simp [List.intercalate, List.intersperse]
    · rw [if_neg hc]
      rcases h : splitChars sep cs with _ | ⟨p, ps⟩
      · exact absurd h (splitChars_ne_nil sep cs)
      · rw [h] at ih
        rw [← ih]
        cases ps <;> simp [List.intercalate, List.intersperse]

theorem splitChars_no_sep (sep : Char) (cs : List Char) :
    ∀ p ∈ splitChars sep cs, sep ∉ p := by
  induction cs with
  | nil => simp [splitChars]
  | cons c cs ih =>
    unfold splitChars
    by_cases hc : c = sep
    · rw [if_pos hc]
      intro p hp
      rcases List.mem_cons.mp hp with h | h
      · rw [h]
        simp
      · exact ih p h
    · rw [if_neg hc]
      rcases h : splitChars sep cs with _ | ⟨p, ps⟩
      · exact absurd h (splitChars_ne_nil sep cs)
      · rw [h] at ih
        intro q hq
        rcases List.mem_cons.mp hq with h1 | h1
        · rw [h1]
          intro hmem
          rcases List.mem_cons.mp hmem with h2 | h2
          · exact hc h2.symm
          · exact ih p (by simp) h2
        · exact ih q (by simp [h1])

/-- The record `parseRegion` builds from five segments. -/
theorem parseRegion_of_five (s : String) (a b c d e : List Char)
    (h : splitChars '|' s.data = [a, b, c, d, e]) :
    parseRegion s =
      { Country := if String.mk a = "0" then "" else String.mk a
        Region := if String.mk b = "0" then "" else String.mk b
        Province := if String.mk c = "0" then "" else String.mk c
        City := if String.mk d = "0" then "" else String.mk d
        ISP := if String.mk e = "0" then "" else String.mk e } := by
  unfold parseRegion stringsSplit
  simp only [h]
  rfl

/-- C23. A record with exactly four separators `|` is cut into its five segments, each
free of `|`, and `parseRegion` returns them as country, region, province, city and ISP with
a segment `0` replaced by the empty string; a record with another number of separators
gives the region whose fields are all `UNKNOWN`. No field returned is the string `0`. -/
theorem parseRegion_spec (s : String) :
    (s.data.count '|' = 4 →
      ∃ p0 p1 p2 p3 p4 : String,
        s = p0 ++ "|" ++ p1 ++ "|" ++ p2 ++ "|" ++ p3 ++ "|" ++ p4 ∧
        (∀ p ∈ [p0, p1, p2, p3, p4], '|' ∉ p.data) ∧
        parseRegion s =
          { Country := if p0 = "0" then "" else p0
            Region := if p1 = "0" then "" else p1
            Province := if p2 = "0" then "" else p2
            City := if p3 = "0" then "" else p3
            ISP := if p4 = "0" then "" else p4 }) ∧
    (s.data.count '|' ≠ 4 → parseRegion s = unknownRegion) ∧
    (parseRegion s).Country ≠ "0" ∧ (parseRegion s).Region ≠ "0" ∧
    (parseRegion s).Province ≠ "0" ∧ (parseRegion s).City ≠ "0" ∧
    (parseRegion s).ISP ≠ "0" := by
  have hlen := splitChars_length '|' s.data
  have hfour : s.data.count '|' = 4 →
      ∃ a b c d e, splitChars '|' s.data = [a, b, c, d, e] := by
    intro h4
    rw [h4] at hlen
    match hs : splitChars '|' s.data, hlen with
    | [a, b, c, d, e], _ => exact ⟨a, b, c, d, e, rfl⟩
  have hother : s.data.count '|' ≠ 4 → parseRegion s = unknownRegion := by
    intro h4
    unfold parseRegion stringsSplit
    simp only [List.length_map, hlen]
    rw [if_pos (by omega)]
  refine ⟨?_, hother, ?_⟩
  · intro h4
    obtain ⟨a, b, c, d, e, hs⟩ := hfour h4
    refine ⟨⟨a⟩, ⟨b⟩, ⟨c⟩, ⟨d⟩, ⟨e⟩, ?_, ?_, parseRegion_of_five s a b c d e hs⟩
    · have hj := splitChars_intercalate '|' s.data
      rw [hs] at hj
      apply String.ext
      rw [← hj]
      simp [String.data_append, List.intercalate, List.intersperse]
    · have hn := splitChars_no_sep '|' s.data
      rw [hs] at hn
      intro p hp
      simp only [List.mem_cons, List.mem_singleton, List.not_mem_nil, or_false] at hp
      rcases hp with h | h | h | h | h <;> rw [h] <;> exact hn _ (by simp)
  · by_cases h4 : s.data.count '|' = 4
    · obtain ⟨a, b, c, d, e, hs⟩ := hfour h4
      rw [parseRegion_of_five s a b c d e hs]
      refine ⟨?_, ?_, ?_, ?_, ?_⟩ <;> simp only [] <;> split_ifs with h <;>
        first | decide | exact h
    · rw [hother h4]
      decide

/-- C23, the theorem at two records: one of five segments with a segment `0`, and one of
two segments. -/
theorem parseRegion_spec_witness :
    (∃ p0 p1 p2 p3 p4 : String,
      "中国|0|浙江省|杭州市|电信" = p0 ++ "|" ++ p1 ++ "|" ++ p2 ++ "|" ++ p3 ++ "|" ++ p4 ∧
      (∀ p ∈ [p0, p1, p2, p3, p4], '|' ∉ p.data) ∧
      parseRegion "中国|0|浙江省|杭州市|电信" =
        { Country := if p0 = "0" then "" else p0
          Region := if p1 = "0" then "" else p1
          Province := if p2 = "0" then "" else p2
          City := if p3 = "0" then "" else p3
          ISP := if p4 = "0" then "" else p4 }) ∧
    parseRegion "中国|0" = unknownRegion :=
  ⟨(parseRegion_spec "中国|0|浙江省|杭州市|电信").1 (by decide),
    (parseRegion_spec "中国|0").2.1 (by decide)⟩

set_option maxRecDepth 100000 in
theorem byte_mask_f0 (b : Fin 256) :
    decide (b.val &&& 0xf0 = 16) = (decide (16 ≤ b.val) && decide (b.val ≤ 31)) := by
  revert b
  decide

set_option maxRecDepth 100000 in
theorem byte_mask_fe (b : Fin 256) :
    decide (b.val &&& 0xfe = 0xfc) = (decide (b.val = 0xfc) || decide (b.val = 0xfd)) := by
  revert b
  decide

/-- `IsPrivate` or `IsLoopback` holds of an address exactly when it lies in one of the
ranges the specification names or is an IPv6 unique local address. -/
theorem IsPrivate_or_IsLoopback (ip : IP) :
    (IP.IsPrivate ip || IP.IsLoopback ip) = (namedLocalRanges ip || uniqueLocal ip) := by
  unfold IP.IsPrivate IP.IsLoopback namedLocalRanges uniqueLocal
  rcases h : IP.To4 ip with _ | ip4
  · simp only []
    rw [byte_mask_fe]
    exact Bool.or_comm _ _
  · simp only []
    rw [byte_mask_f0]
    have key : ∀ p10 p172 p192 p127 q1 q2 q168 : Bool,
        ((p10 || (p172 && (q1 && q2)) || (p192 && q168)) || p127) =
          ((p127 || p10 || (p172 && q1 && q2) || (p192 && q168)) || false) := by decide
    exact key _ _ _ _ _ _ _

/-- C22, as the code has it. `GetIPRegion` returns the all-`LOCAL` region when the input is
`127.0.0.1`, `::1` or `localhost`, or parses to an address of 127.0.0.0/8, 10.0.0.0/8,
172.16.0.0/12, 192.168.0.0/16, to `::1`, or to an IPv6 unique local address (`fc00::/7`),
whatever the geo database is; for every other input it returns the all-`UNKNOWN` region
when the searcher is not initialised or the lookup fails, and `parseRegion` of the record
otherwise. The function is total: it has no error result. -/
theorem GetIPRegion_spec (parseIP : String → Option IP)
    (searcher : Option (String → Except String String)) (ip : String) :
    ((ip = "127.0.0.1" ∨ ip = "::1" ∨ ip = "localhost" ∨
        ∃ a, parseIP ip = some a ∧ (namedLocalRanges a = true ∨ uniqueLocal a = true)) →
      GetIPRegion parseIP searcher ip = localRegion) ∧
    (¬ (ip = "127.0.0.1" ∨ ip = "::1" ∨ ip = "localhost" ∨
        ∃ a, parseIP ip = some a ∧ (namedLocalRanges a = true ∨ uniqueLocal a = true)) →
      GetIPRegion parseIP searcher ip =
        match searcher with
        | none => unknownRegion
        | some searchByStr =>
          match searchByStr ip with
          | .error _ => unknownRegion
          | .ok region => parseRegion region) := by
  have hb : ∀ a : IP, (IP.IsPrivate a || IP.IsLoopback a) = true ↔
      (namedLocalRanges a = true ∨ uniqueLocal a = true) := by
    intro a
    rw [IsPrivate_or_IsLoopback, Bool.or_eq_true]
  constructor
  · intro h
    unfold GetIPRegion
    by_cases hl : ip = "127.0.0.1" ∨ ip = "::1" ∨ ip = "localhost"
    · rw [if_pos hl]
    · rw [if_neg hl]
      have h2 : ∃ a, parseIP ip = some a ∧ (namedLocalRanges a = true ∨ uniqueLocal a = true) := by
        rcases h with h | h | h | h
        · exact absurd (Or.inl h) hl
        · exact absurd (Or.inr (Or.inl h)) hl
        · exact absurd (Or.inr (Or.inr h)) hl
        · exact h
      obtain ⟨a, ha, hr⟩ := h2
      rw [ha]
      simp only []
      rw [(hb a).mpr hr]
  · intro h
    have hl : ¬ (ip = "127.0.0.1" ∨ ip = "::1" ∨ ip = "localhost") := by
      intro hl
      apply h
      rcases hl with hl | hl | hl
      · exact Or.inl hl
      · exact Or.inr (Or.inl hl)
      · exact Or.inr (Or.inr (Or.inl hl))
    unfold GetIPRegion
    rw [if_neg hl]
    rcases hp : parseIP ip with _ | a
    · rfl
    · simp only []
      have hf : (IP.IsPrivate a || IP.IsLoopback a) = false := by
        rw [Bool.eq_false_iff]
        intro ht
        exact h (Or.inr (Or.inr (Or.inr ⟨a, hp, (hb a).mp ht⟩)))
      rw [hf]

/-- C22, the theorem at the addresses of the specification: `10.0.0.1`, `192.168.0.1` and
`127.0.0.1` give `LOCAL`, and `8.8.8.8` goes to the geo database. -/
theorem GetIPRegion_spec_witness :
    GetIPRegion sampleParseIP (some sampleSearcher) "10.0.0.1" = localRegion ∧
    GetIPRegion sampleParseIP none "192.168.0.1" = localRegion ∧
    GetIPRegion sampleParseIP none "127.0.0.1" = localRegion ∧
    GetIPRegion sampleParseIP (some sampleSearcher) "8.8.8.8" = parseRegion "美国|0|0|0|谷歌" :=
  ⟨(GetIPRegion_spec sampleParseIP (some sampleSearcher) "10.0.0.1").1
      (Or.inr (Or.inr (Or.inr ⟨v4InV6 10 0 0 1, by decide, Or.inl (by decide)⟩))),
    (GetIPRegion_spec sampleParseIP none "192.168.0.1").1
      (Or.inr (Or.inr (Or.inr ⟨v4InV6 192 168 0 1, by decide, Or.inl (by decide)⟩))),
    (GetIPRegion_spec sampleParseIP none "127.0.0.1").1 (Or.inl rfl),
    (GetIPRegion_spec sampleParseIP (some sampleSearcher) "8.8.8.8").2 (by
      rintro (h | h | h | ⟨a, ha, hr⟩)
      · exact absurd h (by decide)
      · exact absurd h (by decide)
      · exact absurd h (by decide)
      · have ha2 : a = v4InV6 8 8 8 8 := by
          have h8 : sampleParseIP "8.8.8.8" = some (v4InV6 8 8 8 8) := by decide
          rw [h8] at ha
          exact (Option.some.inj ha).symm
        subst ha2
        rcases hr with hr | hr
        · exact absurd hr (by decide)
        · exact absurd hr (by decide))⟩

/-- C22, counterexample. `fd00::1` is none of the three literals and no address of
127.0.0.0/8, 10.0.0.0/8, 172.16.0.0/12, 192.168.0.0/16 or `::1`, and the geo database
has a record for it; `IsPrivate` holds of it (RFC 4193), and `GetIPRegion` returns the
all-`LOCAL` region, not `parseRegion` of the record. -/
theorem GetIPRegion_unique_local_is_local :
    sampleParseIP "fd00::1" = some [0xfd, 0, 0, 0, 0, 0, 0, 0, 0, 0, 0, 0, 0, 0, 0, 1] ∧
    namedLocalRanges [0xfd, 0, 0, 0, 0, 0, 0, 0, 0, 0, 0, 0, 0, 0, 0, 1] = false ∧
    IP.IsPrivate [0xfd, 0, 0, 0, 0, 0, 0, 0, 0, 0, 0, 0, 0, 0, 0, 1] = true ∧
    sampleSearcher "fd00::1" = .ok "美国|0|0|0|谷歌" ∧
    GetIPRegion sampleParseIP (some sampleSearcher) "fd00::1" = localRegion ∧
    parseRegion "美国|0|0|0|谷歌" ≠ localRegion := by
  refine ⟨by decide, by decide, by decide, by rfl, by decide, by decide⟩

/-! ### `validateURL` -/

/-- C24. `validateURL` accepts a string exactly when `url.Parse` accepts it, the parsed
scheme is `http` or `https`, and its length in bytes is at most 2048: with such a scheme
2048 bytes are accepted and 2049 are rejected. Every rejection is an error built by
`fmt.Errorf` with `%w` around `ErrInvalidURL`, so `errors.Is(err, ErrInvalidURL)` holds
of it. -/
theorem validateURL_iff (urlParse : String → Except String String) (u : String) :
    (validateURL urlParse u = none ↔
      ∃ scheme, urlParse u = .ok scheme ∧ (scheme = "http" ∨ scheme = "https") ∧
        u.utf8ByteSize ≤ 2048) ∧
    (∀ scheme, urlParse u = .ok scheme → (scheme = "http" ∨ scheme = "https") →
      (u.utf8ByteSize = 2048 → validateURL urlParse u = none) ∧
      (u.utf8ByteSize = 2049 → validateURL urlParse u ≠ none)) ∧
    (∀ e, validateURL urlParse u = some e →
      (∃ msg, e = Err.suffixed Err.ErrInvalidURL msg) ∧ e.Is Err.ErrInvalidURL = true) := by
  have hiff : validateURL urlParse u = none ↔
      ∃ scheme, urlParse u = .ok scheme ∧ (scheme = "http" ∨ scheme = "https") ∧
        u.utf8ByteSize ≤ 2048 := by
    unfold validateURL
    rcases hp : urlParse u with e | scheme
    · simp
    · simp only []
      by_cases hs : scheme ≠ "http" ∧ scheme ≠ "https"
      · rw [if_pos hs]
        constructor
        · intro h
          exact absurd h (by simp)
        · rintro ⟨sc, hsc, hor, -⟩
          have : sc = scheme := (Except.ok.inj hsc).symm
          subst this
          rcases hor with h | h
          · exact absurd h hs.1
          · exact absurd h hs.2
      · rw [if_neg hs]
        have hor : scheme = "http" ∨ scheme = "https" := by
          by_contra hc
          exact hs ⟨fun h => hc (Or.inl h), fun h => hc (Or.inr h)⟩
        by_cases hlen : u.utf8ByteSize > 2048
        · rw [if_pos hlen]
          constructor
          · intro h
            exact absurd h (by simp)
          · rintro ⟨_, -, -, hle⟩
            omega
        · rw [if_neg hlen]
          constructor
          · intro _
            exact ⟨scheme, rfl, hor, by omega⟩
          · intro _
            rfl
  refine ⟨hiff, ?_, ?_⟩
  · intro scheme hp hor
    constructor
    · intro h
      exact hiff.mpr ⟨scheme, hp, hor, by omega⟩
    · intro h hnone
      obtain ⟨_, -, -, hle⟩ := hiff.mp hnone
      omega
  · intro e he
    have hex : ∃ msg, e = Err.suffixed Err.ErrInvalidURL msg := by
      unfold validateURL at he
      rcases hp : urlParse u with e1 | scheme
      · rw [hp] at he
        exact ⟨e1, (Option.some.inj he).symm⟩
      · rw [hp] at he
        simp only [] at he
        split_ifs at he
        · exact ⟨_, (Option.some.inj he).symm⟩
        · exact ⟨_, (Option.some.inj he).symm⟩
    refine ⟨hex, ?_⟩
    obtain ⟨msg, rfl⟩ := hex
    simp [Err.Is]

/-- C24, the theorem at two URLs: `https://example.com` is accepted, and the rejection of
`ftp://example.com/file` wraps `ErrInvalidURL`. -/
theorem validateURL_iff_witness :
    validateURL (fun _ => .ok "https") "https://example.com" = none ∧
    (Err.suffixed Err.ErrInvalidURL "invalid scheme").Is Err.ErrInvalidURL = true :=
  ⟨(validateURL_iff (fun _ => .ok "https") "https://example.com").1.mpr
      ⟨"https", rfl, Or.inr rfl, by decide⟩,
    ((validateURL_iff (fun _ => .ok "ftp") "ftp://example.com/file").2.2
      (Err.suffixed Err.ErrInvalidURL "invalid scheme") (by rfl)).2⟩

/-! ### Minted codes and the custom-code format -/

theorem ValidateCustomCode_true_iff (code : String) :
    ValidateCustomCode code = true ↔
      (4 ≤ code.data.length ∧ code.data.length ≤ 16 ∧
        ∀ c ∈ code.data,
          inClass [('a', 'z'), ('A', 'Z'), ('0', '9'), ('-', '-'), ('_', '_')] c = true) := by
  unfold ValidateCustomCode
  rw [compile_customCodePattern]
  simp only []
  exact matchString_custom code

/-- The mint alphabet lies inside the class of the custom-code pattern. -/
theorem charset_inClass :
    ∀ c ∈ charset.data,
      inClass [('a', 'z'), ('A', 'Z'), ('0', '9'), ('-', '-'), ('_', '_')] c = true := by
  decide

theorem generateLoop_shape (draws : Nat → Except Err (Fin 62)) (c : String) :
    ∀ (k i : Nat) (b : List Char), generateLoop draws k i b = (c, none) →
      c.data.length = b.length + k ∧ ∀ ch ∈ c.data, ch ∈ b ∨ ch ∈ charset.data := by
  intro k
  induction k with
  | zero =>
    intro i b h
    simp only [generateLoop, Prod.mk.injEq, and_true] at h
    subst h
    exact ⟨rfl, fun ch hch => Or.inl hch⟩
  | succ k ih =>
    intro i b h
    rcases hd : draws i with e | n
    · simp [generateLoop, hd] at h
    · simp only [generateLoop, hd] at h
      obtain ⟨h1, h2⟩ := ih (i + 1) (b ++ [charsetAt n]) h
      refine ⟨by rw [h1]; simp; omega, ?_⟩
      intro ch hch
      rcases h2 ch hch with h3 | h3
      · rcases List.mem_append.mp h3 with h4 | h4
        · exact Or.inl h4
        · rw [List.mem_singleton.mp h4]
          exact Or.inr (charsetAt_mem n)
      · exact Or.inr h3

/-- C30. A code minted by a successful `GenerateShortCode(n)` passes `ValidateCustomCode`
when `4 <= n <= 16`, and is rejected by it when `n < 4` or `n > 16`: the code has `n`
characters of `charset`, and every character of `charset` is in the class of the
custom-code pattern. -/
theorem minted_code_format (n : Nat) (draws : Nat → Except Err (Fin 62)) (c : String)
    (h : GenerateShortCode n draws = (c, none)) :
    (4 ≤ n → n ≤ 16 → ValidateCustomCode c = true) ∧
    (n < 4 ∨ 16 < n → ValidateCustomCode c = false) ∧
    (∀ ch ∈ charset.data,
      inClass [('a', 'z'), ('A', 'Z'), ('0', '9'), ('-', '-'), ('_', '_')] ch = true) := by
  obtain ⟨hlen, hmem⟩ := generateLoop_shape draws c n 0 [] h
  have hlen2 : c.data.length = n := by simpa using hlen
  refine ⟨?_, ?_, charset_inClass⟩
  · intro h4 h16
    rw [ValidateCustomCode_true_iff, hlen2]
    refine ⟨h4, h16, ?_⟩
    intro ch hch
    rcases hmem ch hch with h1 | h1
    · exact absurd h1 (List.not_mem_nil ch)
    · exact charset_inClass ch h1
  · intro hn
    rw [Bool.eq_false_iff]
    intro ht
    rw [ValidateCustomCode_true_iff, hlen2] at ht
    omega

/-- C30, the theorem at the code minted from the draws 0, 1, 2, 3, 4, 5 and at the code of
length 3 minted from the draws 0, 1, 2. -/
theorem minted_code_format_witness :
    ValidateCustomCode "abcdef" = true ∧ ValidateCustomCode "abc" = false :=
  ⟨(minted_code_format 6 (fun i => .ok (Fin.ofNat i)) "abcdef" (by rfl)).1
      (by decide) (by decide),
    (minted_code_format 3 (fun i => .ok (Fin.ofNat i)) "abc" (by rfl)).2.1
      (Or.inl (by decide))⟩

/-! ### The frame of a failed resolve -/

theorem ClicksUntouched_of_eq (now : Time) (code : String) (s s1 : Store)
    (h1 : s1.counter = s.counter) (h2 : s1.logs = s.logs) (h3 : s1.links = s.links)
    (h4 : s1.linkCache = s.linkCache) (h5 : s1.redisDown = s.redisDown) :
    ClicksUntouched now code s s1 := by
  have hc : cachedClicks now code s1 = cachedClicks now code s := by
    unfold cachedClicks cachedPayload
    rw [h4, h5]
  exact ⟨h1, h2, h3, fun k hk => by rw [hc]; exact hk, fun hn => Or.inl (by rw [hc]; exact hn)⟩

theorem ClicksUntouched_trans (now : Time) (code : String) (s s1 s2 : Store)
    (h1 : ClicksUntouched now code s s1) (h2 : ClicksUntouched now code s1 s2) :
    ClicksUntouched now code s s2 := by
  obtain ⟨a1, a2, a3, a4, a5⟩ := h1
  obtain ⟨b1, b2, b3, b4, b5⟩ := h2
  have hd : durableClicks s1 code = durableClicks s code := by
    unfold durableClicks
    rw [a3]
  refine ⟨b1.trans a1, b2.trans a2, b3.trans a3, fun k hk => b4 k (a4 k hk), ?_⟩
  intro hn
  rcases a5 hn with h | h
  · rcases b5 h with h' | h'
    · exact Or.inl h'
    · exact Or.inr (h'.trans hd)
  · rcases hk : cachedClicks now code s1 with _ | k
    · rcases b5 hk with h' | h'
      · exact Or.inl h'
      · exact Or.inr (h'.trans hd)
    · exact Or.inr ((b4 k hk).trans (hk.symm.trans h))

theorem GetRules_untouched (now : Time) (code : String) (id : Nat) (s : Store) :
    ClicksUntouched now code s (GetRules now id s).2 := by
  apply ClicksUntouched_of_eq <;>
  · unfold GetRules
    simp only []
    split
    · rfl
    · split_ifs <;> rfl

theorem setCache_untouched (now : Time) (code : String) (link row : ShortLink) (s : Store)
    (hrow : s.links.find? (fun r => r.ShortCode = code) = some row)
    (hcode : link.ShortCode = code) (hclicks : link.Clicks = row.Clicks)
    (hnone : cachedClicks now code s = none) :
    ClicksUntouched now code s (setCache now link s).2 := by
  unfold setCache
  simp only []
  split_ifs with h1 h2
  · exact ClicksUntouched_of_eq now code s s rfl rfl rfl rfl rfl
  · exact ClicksUntouched_of_eq now code s s rfl rfl rfl rfl rfl
  · refine ⟨rfl, rfl, rfl, ?_, ?_⟩
    · intro k hk
      rw [hnone] at hk
      exact absurd hk (by simp)
    · intro _
      right
      have hlt : now < now + (link.ExpiresAt - now) := by
        have := not_le.mp h1
        linarith
      unfold cachedClicks cachedPayload durableClicks
      simp only []
      rw [if_neg h2, hcode, Function.update_same, hrow]
      simp only [live]
      rw [if_pos hlt]
      simp only [Option.map_some', cacheDataOf]
      rw [hclicks]

theorem GetByCode_untouched (now : Time) (code : String) (s : Store) :
    ClicksUntouched now code s (GetByCode now code s).2 := by
  unfold GetByCode
  rcases hp : cachedPayload now code s with _ | d
  · simp only []
    have hnone : cachedClicks now code s = none := by
      unfold cachedClicks
      rw [hp]
      rfl
    have hq : ClicksUntouched now code s { s with dbQueries := s.dbQueries + 1 } :=
      ClicksUntouched_of_eq now code s _ rfl rfl rfl rfl rfl
    have hnone2 : cachedClicks now code { s with dbQueries := s.dbQueries + 1 } = none := hnone
    unfold readDurable
    simp only []
    by_cases hdb : s.dbDown = true
    · rw [if_pos hdb]
      exact hq
    · rw [if_neg hdb]
      generalize hf : List.find? _ s.links = o
      rcases o with _ | row
      · simp only []
        by_cases hr : s.redisDown = true
        · rw [if_pos hr]
          exact hq
        · rw [if_neg hr]
          refine ⟨rfl, rfl, rfl, ?_, ?_⟩
          · intro k hk
            rw [hnone] at hk
            exact absurd hk (by simp)
          · intro _
            left
            unfold cachedClicks cachedPayload
            simp only []
            rw [if_neg hr, Function.update_same]
            simp only [live]
            split_ifs <;> rfl
      · simp only []
        have hcode : row.ShortCode = code := find_code_eq s.links code row hf
        refine ClicksUntouched_trans now code s _ _ hq
          (setCache_untouched now code _ row { s with dbQueries := s.dbQueries + 1 } hf ?_ ?_
            hnone2)
        · split_ifs <;> exact hcode
        · split_ifs <;> rfl
  · simp only []
    exact ClicksUntouched_of_eq now code s s rfl rfl rfl rfl rfl

theorem Get_untouched (now : Time) (code : String) (s : Store) :
    ClicksUntouched now code s (Get (repository now) now code s).2 := by
  have hG := GetByCode_untouched now code s
  unfold Get
  simp only [repository]
  rcases hg : GetByCode now code s with ⟨e | link, s1⟩
  · rw [hg] at hG
    simp only []
    split_ifs <;> exact hG
  · rw [hg] at hG
    simp only []
    split_ifs
    · exact hG
    · have hR := GetRules_untouched now code link.ID s1
      rcases hr : GetRules now link.ID s1 with ⟨e | rules, s2⟩
      · rw [hr] at hR
        exact ClicksUntouched_trans now code s s1 s2 hG hR
      · rw [hr] at hR
        exact ClicksUntouched_trans now code s s1 s2 hG hR

/-- A `Redirect` that fails with the error of a missing or expired link, of the visit cap,
or of the rule load has called neither `IncrementClicks` nor `LogClick`, and its final
state is the one `Get` left, or the one the second `GetRules` left. -/
theorem Redirect_early_error {σ : Type} (repo : Repo σ) (env : Env) (code : String)
    (clickLog : ClickLog) (s : σ) (e : Err)
    (h : (Redirect repo env code clickLog s).result = .error e)
    (hkind : e = Err.ErrShortLinkNotFound ∨ e = Err.ErrShortLinkExpired ∨
      e = Err.ErrMaxVisitsReached ∨ ∃ inner, e = Err.wrapped "failed to get rules" inner) :
    (Redirect repo env code clickLog s).incremented = false ∧
    (Redirect repo env code clickLog s).logged = false ∧
    ((Redirect repo env code clickLog s).state = (Get repo env.nowGet code s).2 ∨
      ∃ link s1, Get repo env.nowGet code s = (.ok link, s1) ∧
        (Redirect repo env code clickLog s).state = (repo.GetRules link.ID s1).2) := by
  rcases hG : Get repo env.nowGet code s with ⟨e0 | link, s1⟩
  · rw [Redirect_of_get_error repo env code clickLog s s1 e0 hG]
    exact ⟨rfl, rfl, Or.inl rfl⟩
  · cases hcap : visitCapReached link
    · rcases hr : repo.GetRules link.ID s1 with ⟨e1 | L, s2⟩
      · rw [Redirect_of_rules_error repo env code clickLog s s1 s2 link e1 hG hcap hr]
        exact ⟨rfl, rfl, Or.inr ⟨link, s1, rfl, by rw [hr]⟩⟩
      · exfalso
        rw [Redirect_resolved repo env code clickLog s s1 s2 link L hG hcap hr] at h
        rcases hi : repo.IncrementClicks code s2 with ⟨_ | err, s3⟩
        · rw [hi] at h
          simp only [] at h
          rcases hl : repo.LogClick
              { withRuleID clickLog (matchLoop env clickLog L 0).1 with ShortLinkID := link.ID }
              s3 with ⟨_ | err, s4⟩
          · rw [hl] at h
            simp at h
          · rw [hl] at h
            simp only [Except.error.injEq] at h
            subst h
            rcases hkind with hk | hk | hk | ⟨inner, hk⟩
            · exact absurd hk (by simp)
            · exact absurd hk (by simp)
            · exact absurd hk (by simp)
            · simp only [Err.wrapped.injEq] at hk
              exact absurd hk.1 (by decide)
        · rw [hi] at h
          simp only [Except.error.injEq] at h
          subst h
          rcases hkind with hk | hk | hk | ⟨inner, hk⟩
          · exact absurd hk (by simp)
          · exact absurd hk (by simp)
          · exact absurd hk (by simp)
          · simp only [Err.wrapped.injEq] at hk
            exact absurd hk.1 (by decide)
    · rw [Redirect_of_cap repo env code clickLog s s1 link hG hcap]
      exact ⟨rfl, rfl, Or.inl rfl⟩

/-- C28. A `Redirect` that fails because the link is not found, is expired, has reached
its visit cap, or because its rules cannot be loaded, has called neither `IncrementClicks`
nor `LogClick`. It leaves the counter `clicks:<code>` (every counter), the click log and
the rows of `short_links` as they were, and the clicks of a cached payload as they were;
where no payload was cached, the read of the link may have cached the row, with the
`clicks` of the row. -/
theorem failed_resolve_frame (env : Env) (code : String) (clickLog : ClickLog) (s : Store)
    (e : Err)
    (h : (Redirect (repository env.nowGet) env code clickLog s).result = .error e)
    (hkind : e = Err.ErrShortLinkNotFound ∨ e = Err.ErrShortLinkExpired ∨
      e = Err.ErrMaxVisitsReached ∨ ∃ inner, e = Err.wrapped "failed to get rules" inner) :
    (Redirect (repository env.nowGet) env code clickLog s).incremented = false ∧
    (Redirect (repository env.nowGet) env code clickLog s).logged = false ∧
    (Redirect (repository env.nowGet) env code clickLog s).state.counter = s.counter ∧
    (Redirect (repository env.nowGet) env code clickLog s).state.logs = s.logs ∧
    (Redirect (repository env.nowGet) env code clickLog s).state.links = s.links ∧
    (∀ k, cachedClicks env.nowGet code s = some k →
      cachedClicks env.nowGet code
        (Redirect (repository env.nowGet) env code clickLog s).state = some k) ∧
    (cachedClicks env.nowGet code s = none →
      cachedClicks env.nowGet code
          (Redirect (repository env.nowGet) env code clickLog s).state = none ∨
        cachedClicks env.nowGet code
          (Redirect (repository env.nowGet) env code clickLog s).state =
            durableClicks s code) := by
  obtain ⟨h1, h2, h3⟩ :=
    Redirect_early_error (repository env.nowGet) env code clickLog s e h hkind
  have hG := Get_untouched env.nowGet code s
  have hU : ClicksUntouched env.nowGet code s
      (Redirect (repository env.nowGet) env code clickLog s).state := by
    rcases h3 with h3 | ⟨link, s1, hg, h3⟩
    · rw [h3]
      exact hG
    · rw [h3]
      rw [hg] at hG
      exact ClicksUntouched_trans env.nowGet code s s1 _ hG
        (GetRules_untouched env.nowGet code link.ID s1)
  exact ⟨h1, h2, hU⟩

/-- C28, the theorem at a concrete run: a resolve of `abc123` whose cap of one visit is
used up fails with `ErrMaxVisitsReached` and leaves the cached clicks at 1. -/
theorem failed_resolve_frame_witness :
    (Redirect (repository (t0 + Second)) (sampleEnv (t0 + Second)) "abc123" sampleClick
      stCapOneUsed).result = .error Err.ErrMaxVisitsReached ∧
    cachedClicks (t0 + Second) "abc123" stCapOneUsed = some 1 ∧
    cachedClicks (t0 + Second) "abc123"
      (Redirect (repository (t0 + Second)) (sampleEnv (t0 + Second)) "abc123" sampleClick
        stCapOneUsed).state = some 1 :=
  ⟨by rfl, by rfl,
    (failed_resolve_frame (sampleEnv (t0 + Second)) "abc123" sampleClick stCapOneUsed
      Err.ErrMaxVisitsReached (by rfl) (Or.inr (Or.inr (Or.inl rfl)))).2.2.2.2.2.1 1 (by rfl)⟩

/-! ### `Update` and never-expiring links -/

/-- An `Update` whose input sets `never_expire` to true returns, when it succeeds, a link
that expires a hundred years after the update. -/
theorem Update_sets_never_expire {σ : Type} (repo : Repo σ)
    (urlParse : String → Except String String) (now : Time) (addDate100 : Time → Time)
    (code : String) (input : UpdateShortLinkInput) (s : σ) (link : ShortLink)
    (hne : input.NeverExpire = some true)
    (h : (Update repo urlParse now addDate100 code input s).1 = .ok link) :
    link.NeverExpire = true ∧ link.ExpiresAt = addDate100 now := by
  unfold Update at h
  rcases hg : repo.GetByCode code s with ⟨e | l0, s1⟩
  · rw [hg] at h
    simp at h
  · rw [hg] at h
    simp only [hne] at h
    split at h
    · simp at h
    · split at h
      · simp at h
      · split at h
        · simp at h
        · simp only [Except.ok.injEq] at h
          subst h
          cases input.DefaultRedirect <;> exact ⟨rfl, rfl⟩

/-- C29, the code at the failing input. The never-expiring link `never1` is updated with
an input that carries only `expires_at`, set to the zero time: the update succeeds and
returns a link with `NeverExpire = true` whose `ExpiresAt` is the zero time, before the
instant of the update; the row holds the same, and a resolve that reads the row answers
`ErrShortLinkExpired`. The same input with `expires_at` equal to the instant of the update
gives `ExpiresAt` equal to it, not later. -/
theorem Update_leaves_never_expiring_link_expired :
    (GetByCode (t0 + Second) "never1" stNever).1.toOption.map
      (fun l => (l.NeverExpire, l.ExpiresAt)) = some (true, sampleAddDate t0) ∧
    (Update (repository (t0 + Second)) sampleParse (t0 + Second) sampleAddDate "never1"
      { noChange with ExpiresAt := some zeroTime } stNever).1.toOption.map
      (fun l => (l.NeverExpire, l.ExpiresAt)) = some (true, zeroTime) ∧
    zeroTime < t0 + Second ∧
    stNeverZeroed.links.map (fun r => (r.ShortCode, r.NeverExpire, r.ExpiresAt)) =
      [("never1", true, zeroTime)] ∧
    (Get (repository (t0 + 2 * Second)) (t0 + 2 * Second) "never1"
      { stNeverZeroed with linkCache := fun _ => none }).1 = .error Err.ErrShortLinkExpired ∧
    (Update (repository (t0 + Second)) sampleParse (t0 + Second) sampleAddDate "never1"
      { noChange with ExpiresAt := some (t0 + Second) } stNever).1.toOption.map
      (fun l => (l.NeverExpire, l.ExpiresAt)) = some (true, t0 + Second) := by
  refine ⟨by rfl, by rfl, by decide, by rfl, by rfl, by rfl⟩

/-! ### The create path: `ExpiresAt` and `CreatedAt` -/

/-- What `ShortLinkRepository.Create` returns behind the pointer when it succeeds: the
record with its primary key, with `CreatedAt` stamped by gorm when it was the zero time. -/
theorem repository_Create_ok (now : Time) (l link : ShortLink) (s s1 : Store)
    (h : ShortLinkRepository.Create now l s = (none, link, s1)) :
    link.ExpiresAt = l.ExpiresAt ∧
      link.CreatedAt = (if l.CreatedAt = zeroTime then now else l.CreatedAt) ∧
      link.NeverExpire = l.NeverExpire := by
  obtain ⟨-, -, -, -, -, -, g7, g8, -, -, g11, -⟩ := gormCompleted_fields now l
  unfold ShortLinkRepository.Create at h
  simp only [] at h
  split_ifs at h
  all_goals first
    | (simp at h; done)
    | (simp only [Prod.mk.injEq, true_and] at h
       obtain ⟨h1, -⟩ := h
       subst h1
       exact ⟨g7, g11, g8⟩)

/-- The expiry `ShortLinkUseCase.Create` chooses: a hundred years after its clock reading
for a never-expiring link, the clock reading plus the configured duration when no expiry
is supplied, and the supplied expiry otherwise. -/
theorem usecase_Create_ok (nowRepo : Time) (cenv : CreateEnv) (input : CreateShortLinkInput)
    (s s1 : Store) (link : ShortLink)
    (h : ShortLinkUseCase.Create (repository nowRepo) cenv input s = (.ok link, s1)) :
    link.CreatedAt = (if cenv.nowCreated = zeroTime then nowRepo else cenv.nowCreated) ∧
    link.NeverExpire = input.NeverExpire ∧
    (input.NeverExpire = true → link.ExpiresAt = cenv.addDate100 cenv.nowExpire) ∧
    (input.NeverExpire = false → input.ExpiresAt ≠ zeroTime →
      link.ExpiresAt = input.ExpiresAt) ∧
    (input.NeverExpire = false → input.ExpiresAt = zeroTime →
      ∃ d, cenv.expiration = .ok d ∧ link.ExpiresAt = cenv.nowExpire + d) := by
  unfold ShortLinkUseCase.Create at h
  split at h
  · simp at h
  · split at h
    · simp at h
    · split at h
      · simp at h
      · split at h
        · simp at h
        · rename_i expiresAt hexp
          split at h
          · simp at h
          · rename_i created s2 hcreate
            simp only [Prod.mk.injEq, Except.ok.injEq] at h
            obtain ⟨h1, -⟩ := h
            subst h1
            simp only [repository] at hcreate
            obtain ⟨e1, e2, e3⟩ := repository_Create_ok nowRepo _ _ _ _ hcreate
            refine ⟨e2, e3, ?_, ?_, ?_⟩
            · intro hn
              rw [e1]
              simp only [hn, if_true, Except.ok.injEq] at hexp
              exact hexp.symm
            · intro hn hz
              rw [e1]
              simp only [hn, hz, Bool.false_eq_true, if_false, Except.ok.injEq] at hexp
              exact hexp.symm
            · intro hn hz
              rw [e1]
              simp only [hn, hz, Bool.false_eq_true, if_false, if_true] at hexp
              rcases hd : cenv.expiration with err | d
              · rw [hd] at hexp
                simp at hexp
              · rw [hd] at hexp
                simp only [Except.ok.injEq] at hexp
                exact ⟨d, rfl, hexp.symm⟩

/-- C25, as the code has it. For a create request that the handler answers 201 with the
link `link` (`now` is the clock of the handler's check): `CreatedAt` is the clock the use
case reads for it (were that reading the zero time, gorm would stamp the clock of the
insert, `nowRepo`); a never-expiring link expires a hundred years after the clock the use
case reads for the expiry, whatever expiry was supplied; a supplied expiry is kept and
is not before the handler's clock; without one the expiry is the use case's clock plus
the configured duration. So `ExpiresAt >= CreatedAt` holds when the chosen expiry is not
before the instant at which `CreatedAt` is read. -/
theorem create_path_expiry (nowRepo now : Time) (cenv : CreateEnv)
    (input : CreateShortLinkInput) (s : Store) (link : ShortLink)
    (h : (ShortLinkHandler.Create (repository nowRepo) cenv now input s).1 =
      .json 201 (.shortLink link)) :
    link.CreatedAt = (if cenv.nowCreated = zeroTime then nowRepo else cenv.nowCreated) ∧
    (cenv.nowCreated ≠ zeroTime → link.CreatedAt = cenv.nowCreated) ∧
    (input.NeverExpire = true → link.ExpiresAt = cenv.addDate100 cenv.nowExpire) ∧
    (input.NeverExpire = false → input.ExpiresAt ≠ zeroTime →
      link.ExpiresAt = input.ExpiresAt ∧ now ≤ link.ExpiresAt) ∧
    (input.NeverExpire = false → input.ExpiresAt = zeroTime →
      ∃ d, cenv.expiration = .ok d ∧ link.ExpiresAt = cenv.nowExpire + d) ∧
    ((input.NeverExpire = true → link.CreatedAt ≤ cenv.addDate100 cenv.nowExpire) →
      (input.NeverExpire = false → input.ExpiresAt ≠ zeroTime →
        link.CreatedAt ≤ input.ExpiresAt) →
      (input.NeverExpire = false → input.ExpiresAt = zeroTime →
        ∀ d, cenv.expiration = .ok d → link.CreatedAt ≤ cenv.nowExpire + d) →
      link.ExpiresAt ≥ link.CreatedAt) := by
  unfold ShortLinkHandler.Create at h
  by_cases hchk : input.ExpiresAt ≠ zeroTime ∧ input.ExpiresAt < now
  · rw [if_pos hchk] at h
    simp at h
  · rw [if_neg hchk] at h
    simp only [] at h
    obtain ⟨input2, hin⟩ : ∃ i : CreateShortLinkInput, i = (if input.DefaultRedirect = 0 then
        { input with DefaultRedirect := RedirectPermanent } else input) := ⟨_, rfl⟩
    have hE : input2.ExpiresAt = input.ExpiresAt := by
      rw [hin]
      split_ifs <;> rfl
    have hN : input2.NeverExpire = input.NeverExpire := by
      rw [hin]
      split_ifs <;> rfl
    rw [← hin] at h
    rcases hc : ShortLinkUseCase.Create (repository nowRepo) cenv input2 s with ⟨e | l, s1⟩
    · rw [hc] at h
      simp only [] at h
      have hne : ∀ e : Err, handleError e ≠ .json 201 (.shortLink link) := by
        intro e he
        unfold handleError at he
        split_ifs at he <;> simp at he
      exact absurd h (hne e)
    · rw [hc] at h
      simp only [Response.json.injEq, Body.shortLink.injEq, true_and] at h
      subst h
      obtain ⟨c1, -, c3, c4, c5⟩ := usecase_Create_ok nowRepo cenv input2 s s1 l hc
      simp only [hN, hE] at c3 c4 c5
      have hnow : input.ExpiresAt ≠ zeroTime → now ≤ input.ExpiresAt := by
        intro hz
        by_contra hlt
        exact hchk ⟨hz, not_le.mp hlt⟩
      refine ⟨c1, ?_, c3, ?_, c5, ?_⟩
      · intro hz
        rw [c1, if_neg hz]
      · intro hn hz
        have := c4 hn hz
        exact ⟨this, by rw [this]; exact hnow hz⟩
      · intro a1 a2 a3
        cases hn : input.NeverExpire
        · by_cases hz : input.ExpiresAt = zeroTime
          · obtain ⟨d, hd, he⟩ := c5 hn hz
            rw [he]
            exact a3 hn hz d hd
          · rw [c4 hn hz]
            exact a2 hn hz
        · rw [c3 hn]
          exact a1 hn

/-- C25, the theorem at two requests handled at `t0`: one without an expiry, created with
the configured day, and one that never expires although it supplies an expiry. -/
theorem create_path_expiry_witness :
    (∃ d, (sampleCreateEnv "https").expiration = .ok d ∧
      (okOr sampleLink (ShortLinkUseCase.Create (repository t0) (sampleCreateEnv "https")
        plainInput emptyStore).1).ExpiresAt = (sampleCreateEnv "https").nowExpire + d) ∧
    (okOr sampleLink (ShortLinkUseCase.Create (repository t0) (sampleCreateEnv "https")
        neverInputPassed emptyStore).1).ExpiresAt = sampleAddDate t0 :=
  ⟨(create_path_expiry t0 t0 (sampleCreateEnv "https") sampleInput emptyStore
      (okOr sampleLink (ShortLinkUseCase.Create (repository t0) (sampleCreateEnv "https")
        plainInput emptyStore).1)
      (by rfl)).2.2.2.2.1 (by rfl) (by rfl),
    (create_path_expiry t0 t0 (sampleCreateEnv "https") neverInput emptyStore
      (okOr sampleLink (ShortLinkUseCase.Create (repository t0) (sampleCreateEnv "https")
        neverInputPassed emptyStore).1)
      (by rfl)).2.2.1 (by rfl)⟩

/-- C25, counterexample. A create request supplies `ExpiresAt = t0 + 1000` (one
microsecond after `t0`); the handler reads the clock `t0` and lets it pass, the use case
reads the clock one millisecond later; the clock never goes back. The handler answers
201 with a link whose `ExpiresAt` is before its `CreatedAt`. -/
theorem create_path_expiry_before_createdAt :
    (ShortLinkHandler.Create (repository (t0 + 1000000)) lateCreateEnv t0 soonInput
      emptyStore).1.status = 201 ∧
    (t0 ≤ lateCreateEnv.nowExpire ∧ lateCreateEnv.nowExpire ≤ lateCreateEnv.nowCreated ∧
      lateCreateEnv.nowCreated ≤ lateCreateEnv.nowUpdated) ∧
    (okOr sampleLink (ShortLinkUseCase.Create (repository (t0 + 1000000)) lateCreateEnv
      soonInputPassed emptyStore).1).ExpiresAt = t0 + 1000 ∧
    (okOr sampleLink (ShortLinkUseCase.Create (repository (t0 + 1000000)) lateCreateEnv
      soonInputPassed emptyStore).1).CreatedAt = t0 + 1000000 ∧
    (ShortLinkHandler.Create (repository (t0 + 1000000)) lateCreateEnv t0 soonInput
      emptyStore).1 =
      .json 201 (.shortLink (okOr sampleLink (ShortLinkUseCase.Create
        (repository (t0 + 1000000)) lateCreateEnv soonInputPassed emptyStore).1)) ∧
    t0 + 1000 < t0 + 1000000 := by
  refine ⟨by rfl, by decide, by rfl, by rfl, by rfl, by decide⟩

/-! ### Listing: the sort field -/

/-- `ShortLinkUseCase.List` rejects a sort field that is not empty and not one of
`created_at`, `expires_at`, `clicks`, `short_code`, whatever the repository is: the
repository is not called, no statement is sent and the store is as it was. -/
theorem List_rejects_unlisted_sort_field {σ : Type} (repo : ListingRepo σ)
    (query : PaginationQuery) (sort : ShortLinkSort) (s : σ)
    (hsort : query.Sorting = some sort) (hne : sort.Field ≠ "")
    (hout : ¬ sort.Field ∈ validFields) :
    (ShortLinkUseCase.List repo query s).result =
        .returned (.error (Err.plain ("invalid sort field: " ++ sort.Field))) ∧
      (ShortLinkUseCase.List repo query s).issued = none ∧
      (ShortLinkUseCase.List repo query s).state = s := by
  unfold ShortLinkUseCase.List
  rw [hsort]
  simp only []
  rw [if_pos ⟨hne, hout⟩]
  exact ⟨rfl, rfl, rfl⟩

/-- `ShortLinkUseCase.ListClickLogs` hands its query to the repository as it is. -/
theorem ListClickLogs_forwards_query {σ : Type} (repo : ListingRepo σ) (code : String)
    (query : ClickLogQuery) (s s1 : σ) (link : ShortLink)
    (hfound : repo.GetByCode code s = (.ok link, s1)) :
    (ShortLinkUseCase.ListClickLogs repo code query s).issued =
      (repo.ListClickLogs link.ID query s1).issued := by
  unfold ShortLinkUseCase.ListClickLogs
  rw [hfound]
  simp only []
  split <;> rfl

/-- The ORDER BY clause `ShortLinkRepository.ListClickLogs` sends for a sort field that is
not empty is the field as given, followed by the direction. -/
theorem repository_ListClickLogs_order (db : Database) (id : Nat) (query : ClickLogQuery)
    (sort : ClickLogSort) (s : Store) (hdb : s.dbDown = false) (hsize : query.PageSize ≠ 0)
    (hsort : query.Sorting = some sort) (hne : sort.Field ≠ "") :
    (ShortLinkRepository.ListClickLogs db id query s).issued =
      some ⟨sort.Field ++ " " ++ (if sort.Direction = SortAsc then "ASC" else "DESC"),
        wrapInt (wrapInt (query.Page - 1) * query.PageSize), query.PageSize⟩ := by
  unfold ShortLinkRepository.ListClickLogs
  simp only []
  rw [if_neg (by simp [hdb]), if_neg hsize, hsort]
  simp only [hne, ne_eq, not_false_eq_true, if_true]
  split <;> rfl

/-- C26, the code at the failing input. A listing of the click logs of `abc123` sorted by
`no_such_column`, which is no whitelisted field: `ShortLinkUseCase.ListClickLogs` does not
fail, the repository runs its statement, and the ORDER BY clause sent to the database is
`no_such_column DESC`. The same sort field on the listing of links is rejected by
`ShortLinkUseCase.List` before any statement is sent. -/
theorem ListClickLogs_passes_unlisted_sort_field :
    ¬ "no_such_column" ∈ validFields ∧
    (ShortLinkUseCase.ListClickLogs (listingRepository tableOrderDb t0) "abc123"
      unlistedLogQuery stCreated).issued = some ⟨"no_such_column DESC", 0, 10⟩ ∧
    (ShortLinkUseCase.ListClickLogs (listingRepository tableOrderDb t0) "abc123"
      unlistedLogQuery stCreated).state.dbQueries = stCreated.dbQueries + 2 ∧
    (match (ShortLinkUseCase.ListClickLogs (listingRepository tableOrderDb t0) "abc123"
        unlistedLogQuery stCreated).result with
      | .returned (.ok _) => true
      | _ => false) = true ∧
    (ShortLinkHandler.ListClickLogs (listingRepository tableOrderDb t0) "abc123" none none
      none "no_such_column" "" stCreated).issued = some ⟨"no_such_column DESC", 0, 10⟩ ∧
    (match (ShortLinkUseCase.List (listingRepository tableOrderDb t0) unlistedLinkQuery
        stCreated).result with
      | .returned (.error e) => decide (e = Err.plain "invalid sort field: no_such_column")
      | _ => false) = true ∧
    (ShortLinkUseCase.List (listingRepository tableOrderDb t0) unlistedLinkQuery
      stCreated).issued = none := by
  refine ⟨by decide, by rfl, by rfl, by rfl, by rfl, by rfl, by rfl⟩

/-! ### Listing: pagination -/

theorem wrapInt_of_range (x : Int) (h1 : -(2 ^ 63) ≤ x) (h2 : x < 2 ^ 63) : wrapInt x = x := by
  unfold wrapInt
  norm_num at h1 h2 ⊢
  omega

/-- Go's truncated division of `total + size - 1` by `size` is the ceiling of
`total / size`, for a total that is not negative and a size of at least one. -/
theorem tdiv_ceil (total size : Int) (ht : 0 ≤ total) (hs : 1 ≤ size) :
    Int.tdiv (total + size - 1) size * size ≥ total ∧
    (∀ k : Int, k * size ≥ total → Int.tdiv (total + size - 1) size ≤ k) ∧
    (total = 0 → Int.tdiv (total + size - 1) size = 0) ∧
    0 ≤ Int.tdiv (total + size - 1) size ∧ Int.tdiv (total + size - 1) size ≤ total := by
  have ha : 0 ≤ total + size - 1 := by omega
  have hs0 : 0 ≤ size := by omega
  rw [Int.tdiv_eq_ediv ha hs0]
  have hq := Int.ediv_add_emod (total + size - 1) size
  have hr1 := Int.emod_nonneg (total + size - 1) (by omega : size ≠ 0)
  have hr2 := Int.emod_lt_of_pos (total + size - 1) (by omega : 0 < size)
  have hq0 : 0 ≤ (total + size - 1) / size := Int.ediv_nonneg ha hs0
  refine ⟨by nlinarith, ?_, ?_, hq0, ?_⟩
  · intro k hk
    by_contra hlt
    have : k + 1 ≤ (total + size - 1) / size := by omega
    nlinarith
  · intro h0
    subst h0
    apply Int.ediv_eq_zero_of_lt <;> omega
  · nlinarith

/-- The numbers `List` and `ListClickLogs` compute, inside the range of a Go `int`: the
total pages and the offset come out without wrap-around. -/
theorem page_numbers (total page size : Int) (ht : 0 ≤ total) (ht2 : total < 2 ^ 62)
    (hpage : 1 ≤ page) (hs1 : 1 ≤ size) (hs2 : size ≤ 100)
    (hoff : (page - 1) * size < 2 ^ 63) (order : String) :
    IsPage total page size ⟨order, wrapInt (wrapInt (page - 1) * size), size⟩
      (wrapInt (Int.tdiv (wrapInt (wrapInt (total + size) - 1)) size)) page size := by
  have e1 : wrapInt (total + size) = total + size :=
    wrapInt_of_range _ (by norm_num at ht2 ⊢; omega) (by norm_num at ht2 ⊢; omega)
  have e2 : wrapInt (total + size - 1) = total + size - 1 :=
    wrapInt_of_range _ (by norm_num at ht2 ⊢; omega) (by norm_num at ht2 ⊢; omega)
  obtain ⟨c1, c2, c3, c4, c5⟩ := tdiv_ceil total size ht hs1
  have e3 : wrapInt (Int.tdiv (total + size - 1) size) = Int.tdiv (total + size - 1) size :=
    wrapInt_of_range _ (by norm_num; omega) (by norm_num at ht2 ⊢; omega)
  have hp : page - 1 < 2 ^ 63 := by nlinarith
  have e4 : wrapInt (page - 1) = page - 1 := wrapInt_of_range _ (by norm_num; omega) hp
  have e5 : wrapInt ((page - 1) * size) = (page - 1) * size :=
    wrapInt_of_range _ (by
      have : 0 ≤ (page - 1) * size := by nlinarith
      norm_num
      omega) hoff
  rw [e1, e2, e3, e4, e5]
  exact ⟨c1, c2, c3, rfl, rfl, rfl, rfl⟩

theorem repository_List_page (db : Database) (now : Time) (query : PaginationQuery)
    (s : Store) (hdb : s.dbDown = false) (hpage : 1 ≤ query.Page)
    (hs1 : 1 ≤ query.PageSize) (hs2 : query.PageSize ≤ 100)
    (hoff : (query.Page - 1) * query.PageSize < 2 ^ 63)
    (hrows : (s.links.length : Int) < 2 ^ 62) :
    ∃ stmt, (ShortLinkRepository.List db now query s).issued = some stmt ∧
      ∀ data, db.findLinks stmt (s.links.filter (linkMatches now query.Filter)) = .ok data →
        ∃ r, (ShortLinkRepository.List db now query s).result = .returned (.ok r) ∧
          r.Data = data ∧
          r.Total = ((s.links.filter (linkMatches now query.Filter)).length : Int) ∧
          IsPage r.Total query.Page query.PageSize stmt r.TotalPages r.CurrentPage
            r.PageSize := by
  have hlen : ((s.links.filter (linkMatches now query.Filter)).length : Int) < 2 ^ 62 := by
    have := List.length_filter_le (linkMatches now query.Filter) s.links
    omega
  have hsz : query.PageSize ≠ 0 := by omega
  unfold ShortLinkRepository.List
  simp only []
  rw [if_neg (by simp [hdb]), if_neg hsz]
  rcases hf : db.findLinks _ (s.links.filter (linkMatches now query.Filter)) with e | data
  · refine ⟨_, rfl, ?_⟩
    intro data hd
    rw [hf] at hd
    exact absurd hd (by simp)
  · refine ⟨_, rfl, ?_⟩
    intro d hd
    rw [hf] at hd
    have hdd : data = d := Except.ok.inj hd
    subst hdd
    exact ⟨_, rfl, rfl, rfl,
      page_numbers _ query.Page query.PageSize (by positivity) hlen hpage hs1 hs2 hoff _⟩

theorem repository_ListClickLogs_page (db : Database) (id : Nat) (query : ClickLogQuery)
    (s : Store) (hdb : s.dbDown = false) (hpage : 1 ≤ query.Page)
    (hs1 : 1 ≤ query.PageSize) (hs2 : query.PageSize ≤ 100)
    (hoff : (query.Page - 1) * query.PageSize < 2 ^ 63)
    (hrows : (s.logs.length : Int) < 2 ^ 62) :
    ∃ stmt, (ShortLinkRepository.ListClickLogs db id query s).issued = some stmt ∧
      ∀ data, db.findLogs stmt (s.logs.filter (logMatches id query.Filter)) = .ok data →
        ∃ r, (ShortLinkRepository.ListClickLogs db id query s).result = .returned (.ok r) ∧
          r.Data = data ∧
          r.Total = ((s.logs.filter (logMatches id query.Filter)).length : Int) ∧
          IsPage r.Total query.Page query.PageSize stmt r.TotalPages r.CurrentPage
            r.PageSize := by
  have hlen : ((s.logs.filter (logMatches id query.Filter)).length : Int) < 2 ^ 62 := by
    have := List.length_filter_le (logMatches id query.Filter) s.logs
    omega
  have hsz : query.PageSize ≠ 0 := by omega
  unfold ShortLinkRepository.ListClickLogs
  simp only []
  rw [if_neg (by simp [hdb]), if_neg hsz]
  rcases hf : db.findLogs _ (s.logs.filter (logMatches id query.Filter)) with e | data
  · refine ⟨_, rfl, ?_⟩
    intro data hd
    rw [hf] at hd
    exact absurd hd (by simp)
  · refine ⟨_, rfl, ?_⟩
    intro d hd
    rw [hf] at hd
    have hdd : data = d := Except.ok.inj hd
    subst hdd
    exact ⟨_, rfl, rfl, rfl,
      page_numbers _ query.Page query.PageSize (by positivity) hlen hpage hs1 hs2 hoff _⟩

theorem repository_List_panic (db : Database) (now : Time) (query : PaginationQuery)
    (s : Store) (msg : String)
    (h : (ShortLinkRepository.List db now query s).result = .panic msg) :
    query.PageSize = 0 := by
  by_contra hsz
  unfold ShortLinkRepository.List at h
  simp only [] at h
  rw [if_neg hsz] at h
  split_ifs at h
  all_goals first
    | (simp at h; done)
    | (split at h <;> simp at h)

theorem repository_ListClickLogs_panic (db : Database) (id : Nat) (query : ClickLogQuery)
    (s : Store) (msg : String)
    (h : (ShortLinkRepository.ListClickLogs db id query s).result = .panic msg) :
    query.PageSize = 0 := by
  by_contra hsz
  unfold ShortLinkRepository.ListClickLogs at h
  simp only [] at h
  rw [if_neg hsz] at h
  split_ifs at h
  all_goals first
    | (simp at h; done)
    | (split at h <;> simp at h)

theorem usecase_List_panic (db : Database) (now : Time) (query : PaginationQuery)
    (s : Store) (msg : String)
    (h : (ShortLinkUseCase.List (listingRepository db now) query s).result = .panic msg) :
    query.PageSize = 0 := by
  unfold ShortLinkUseCase.List at h
  split at h
  · simp at h
  · split at h
    · rename_i m hm
      exact repository_List_panic db now query s m hm
    · simp at h
    · simp at h

theorem usecase_ListClickLogs_panic (db : Database) (now : Time) (code : String)
    (query : ClickLogQuery) (s : Store) (msg : String)
    (h : (ShortLinkUseCase.ListClickLogs (listingRepository db now) code query s).result =
      .panic msg) :
    query.PageSize = 0 := by
  unfold ShortLinkUseCase.ListClickLogs at h
  split at h
  · rename_i err s1 hg
    by_cases he : err = Err.ErrShortLinkNotFound
    · rw [if_pos he] at h
      simp at h
    · rw [if_neg he] at h
      simp at h
  · split at h
    · rename_i m hm
      exact repository_ListClickLogs_panic db _ query _ m hm
    · simp at h
    · simp at h

/-- `ShortLinkHandler.List` never ends in a panic: the division by the page size is
reached only with a page size between 1 and 100. -/
theorem handler_List_no_panic (db : Database) (now : Time)
    (pageParam pageSizeParam : Option String) (filter : Option ShortLinkFilter)
    (sortField sortDirection : String) (s : Store) (msg : String) :
    (ShortLinkHandler.List (listingRepository db now) pageParam pageSizeParam filter
      sortField sortDirection s).result ≠ .panic msg := by
  intro h
  unfold ShortLinkHandler.List at h
  rcases ha : atoi (pageParam.getD "1") with _ | page
  · rw [ha] at h
    simp at h
  · rw [ha] at h
    simp only [] at h
    by_cases h1 : page < 1
    · rw [if_pos h1] at h
      simp at h
    · rw [if_neg h1] at h
      rcases hb : atoi (pageSizeParam.getD "10") with _ | size
      · rw [hb] at h
        simp at h
      · rw [hb] at h
        simp only [] at h
        by_cases h3 : size < 1 ∨ size > 100
        · rw [if_pos h3] at h
          simp at h
        · rw [if_neg h3] at h
          split at h
          · rename_i m hm
            have := usecase_List_panic db now _ s m hm
            simp only [] at this
            omega
          · simp at h
          · simp at h

/-- `ShortLinkHandler.ListClickLogs` never ends in a panic. -/
theorem handler_ListClickLogs_no_panic (db : Database) (now : Time) (code : String)
    (pageParam pageSizeParam : Option String) (filter : Option ClickLogFilter)
    (sortField sortDirection : String) (s : Store) (msg : String) :
    (ShortLinkHandler.ListClickLogs (listingRepository db now) code pageParam pageSizeParam
      filter sortField sortDirection s).result ≠ .panic msg := by
  intro h
  unfold ShortLinkHandler.ListClickLogs at h
  rcases hv : validateCode code with _ | err
  · rw [hv] at h
    simp only [] at h
    rcases ha : atoi (pageParam.getD "1") with _ | page
    · rw [ha] at h
      simp at h
    · rw [ha] at h
      simp only [] at h
      by_cases h1 : page < 1
      · rw [if_pos h1] at h
        simp at h
      · rw [if_neg h1] at h
        rcases hb : atoi (pageSizeParam.getD "10") with _ | size
        · rw [hb] at h
          simp at h
        · rw [hb] at h
          simp only [] at h
          by_cases h3 : size < 1 ∨ size > 100
          · rw [if_pos h3] at h
            simp at h
          · rw [if_neg h3] at h
            split at h
            · rename_i m hm
              have := usecase_ListClickLogs_panic db now code _ s m hm
              simp only [] at this
              omega
            · simp at h
            · simp at h
  · rw [hv] at h
    simp at h

/-- `ShortLinkHandler.List` answers 400/400004 to a `page` that is no number or is below
one, and 400/400005 to a `page_size` that is no number or lies outside 1..100; in both
cases no statement is sent. -/
theorem handler_List_rejects {σ : Type} (repo : ListingRepo σ)
    (pageParam pageSizeParam : Option String) (filter : Option ShortLinkFilter)
    (sortField sortDirection : String) (s : σ) :
    ((∀ p, atoi (pageParam.getD "1") = some p → p < 1) →
      (ShortLinkHandler.List repo pageParam pageSizeParam filter sortField sortDirection
        s).result = .response (.json 400 (.coded 400004 "无效的页码" "页码必须是大于0的整数")) ∧
      (ShortLinkHandler.List repo pageParam pageSizeParam filter sortField sortDirection
        s).issued = none) ∧
    ((∃ p, atoi (pageParam.getD "1") = some p ∧ 1 ≤ p) →
      (∀ z, atoi (pageSizeParam.getD "10") = some z → z < 1 ∨ z > 100) →
      (ShortLinkHandler.List repo pageParam pageSizeParam filter sortField sortDirection
        s).result =
        .response (.json 400 (.coded 400005 "无效的每页数量" "每页数量必须是1-100之间的整数")) ∧
      (ShortLinkHandler.List repo pageParam pageSizeParam filter sortField sortDirection
        s).issued = none) := by
  constructor
  · intro hp
    unfold ShortLinkHandler.List
    rcases ha : atoi (pageParam.getD "1") with _ | p
    · exact ⟨rfl, rfl⟩
    · simp only []
      rw [if_pos (hp p ha)]
      exact ⟨rfl, rfl⟩
  · rintro ⟨p, ha, hp1⟩ hz
    unfold ShortLinkHandler.List
    rw [ha]
    simp only []
    rw [if_neg (by omega)]
    rcases hb : atoi (pageSizeParam.getD "10") with _ | z
    · exact ⟨rfl, rfl⟩
    · simp only []
      rw [if_pos (hz z hb)]
      exact ⟨rfl, rfl⟩

/-- C27, as the code has it. For a page `page >= 1` and a page size `1 <= size <= 100`
with `(page - 1) * size` inside the range of a Go `int`, and tables of fewer than `2 ^ 62`
rows: `List` and `ListClickLogs` send a statement with offset `(page - 1) * size` and limit
`size`, and when the database answers it they return the answer with `Total` the number
of rows that pass the filter, `TotalPages` the least `k` with `k * size >= Total` (0 for no
rows), `CurrentPage = page` and `PageSize = size`. The handlers answer 400/400004 to a page
below one and 400/400005 to a page size outside 1..100 without sending a statement, and
never end in the panic of a division by zero. -/
theorem listing_pages (db : Database) (now : Time) (s : Store) (page size : Int)
    (hdb : s.dbDown = false) (hpage : 1 ≤ page) (hs1 : 1 ≤ size) (hs2 : size ≤ 100)
    (hoff : (page - 1) * size < 2 ^ 63)
    (hlinks : (s.links.length : Int) < 2 ^ 62) (hlogs : (s.logs.length : Int) < 2 ^ 62) :
    (∀ filter sort, ∃ stmt,
      (ShortLinkRepository.List db now ⟨page, size, filter, sort⟩ s).issued = some stmt ∧
      ∀ data, db.findLinks stmt (s.links.filter (linkMatches now filter)) = .ok data →
        ∃ r, (ShortLinkRepository.List db now ⟨page, size, filter, sort⟩ s).result =
            .returned (.ok r) ∧
          r.Data = data ∧ r.Total = ((s.links.filter (linkMatches now filter)).length : Int) ∧
          IsPage r.Total page size stmt r.TotalPages r.CurrentPage r.PageSize) ∧
    (∀ id filter sort, ∃ stmt,
      (ShortLinkRepository.ListClickLogs db id ⟨page, size, filter, sort⟩ s).issued =
        some stmt ∧
      ∀ data, db.findLogs stmt (s.logs.filter (logMatches id filter)) = .ok data →
        ∃ r, (ShortLinkRepository.ListClickLogs db id ⟨page, size, filter, sort⟩ s).result =
            .returned (.ok r) ∧
          r.Data = data ∧ r.Total = ((s.logs.filter (logMatches id filter)).length : Int) ∧
          IsPage r.Total page size stmt r.TotalPages r.CurrentPage r.PageSize) ∧
    (∀ (pageParam pageSizeParam : Option String) (filter : Option ShortLinkFilter)
        (sortField sortDirection : String),
      ((∀ p, atoi (pageParam.getD "1") = some p → p < 1) →
        (ShortLinkHandler.List (listingRepository db now) pageParam pageSizeParam filter
          sortField sortDirection s).result =
          .response (.json 400 (.coded 400004 "无效的页码" "页码必须是大于0的整数")) ∧
        (ShortLinkHandler.List (listingRepository db now) pageParam pageSizeParam filter
          sortField sortDirection s).issued = none) ∧
      ((∃ p, atoi (pageParam.getD "1") = some p ∧ 1 ≤ p) →
        (∀ z, atoi (pageSizeParam.getD "10") = some z → z < 1 ∨ z > 100) →
        (ShortLinkHandler.List (listingRepository db now) pageParam pageSizeParam filter
          sortField sortDirection s).result =
          .response (.json 400 (.coded 400005 "无效的每页数量" "每页数量必须是1-100之间的整数")) ∧
        (ShortLinkHandler.List (listingRepository db now) pageParam pageSizeParam filter
          sortField sortDirection s).issued = none) ∧
      ∀ msg, (ShortLinkHandler.List (listingRepository db now) pageParam pageSizeParam
        filter sortField sortDirection s).result ≠ .panic msg) ∧
    (∀ (code : String) (pageParam pageSizeParam : Option String)
        (filter : Option ClickLogFilter) (sortField sortDirection : String) (msg : String),
      (ShortLinkHandler.ListClickLogs (listingRepository db now) code pageParam
        pageSizeParam filter sortField sortDirection s).result ≠ .panic msg) := by
  refine ⟨?_, ?_, ?_, ?_⟩
  · intro filter sort
    exact repository_List_page db now ⟨page, size, filter, sort⟩ s hdb hpage hs1 hs2 hoff
      hlinks
  · intro id filter sort
    exact repository_ListClickLogs_page db id ⟨page, size, filter, sort⟩ s hdb hpage hs1 hs2
      hoff hlogs
  · intro pageParam pageSizeParam filter sortField sortDirection
    obtain ⟨r1, r2⟩ := handler_List_rejects (listingRepository db now) pageParam
      pageSizeParam filter sortField sortDirection s
    exact ⟨r1, r2, fun msg => handler_List_no_panic db now pageParam pageSizeParam filter
      sortField sortDirection s msg⟩
  · intro code pageParam pageSizeParam filter sortField sortDirection msg
    exact handler_ListClickLogs_no_panic db now code pageParam pageSizeParam filter
      sortField sortDirection s msg

/-- C27, the theorem at a concrete listing: the first page of ten of the table that holds
the sample link. -/
theorem listing_pages_witness :
    ∃ stmt,
      (ShortLinkRepository.List tableOrderDb t0 ⟨1, 10, none, none⟩ stCreated).issued =
        some stmt ∧
      ∀ data, tableOrderDb.findLinks stmt (stCreated.links.filter (linkMatches t0 none)) =
          .ok data →
        ∃ r, (ShortLinkRepository.List tableOrderDb t0 ⟨1, 10, none, none⟩ stCreated).result =
            .returned (.ok r) ∧
          r.Data = data ∧
          r.Total = ((stCreated.links.filter (linkMatches t0 none)).length : Int) ∧
          IsPage r.Total 1 10 stmt r.TotalPages r.CurrentPage r.PageSize :=
  (listing_pages tableOrderDb t0 stCreated 1 10 (by rfl) (by decide) (by decide) (by decide)
    (by decide) (by decide) (by decide)).1 none none

/-- C27, counterexample. `GET /api/v1/links?page=288230376151711745&page_size=64` passes
the handler's checks (the page is a Go `int` not below one, the page size lies in
1..100). `(page - 1) * size` is `2 ^ 64`, which a Go `int` holds as 0: the statement is
sent with offset 0, and the answer reports page 288230376151711745 with the row of the
first page. -/
theorem listing_offset_wraps :
    atoi "288230376151711745" = some 288230376151711745 ∧
    atoi "64" = some 64 ∧
    ((288230376151711745 : Int) - 1) * 64 = 2 ^ 64 ∧
    (ShortLinkHandler.List (listingRepository tableOrderDb t0) (some "288230376151711745")
      (some "64") none "" "" stCreated).issued = some ⟨"created_at DESC", 0, 64⟩ ∧
    (match (ShortLinkHandler.List (listingRepository tableOrderDb t0)
        (some "288230376151711745") (some "64") none "" "" stCreated).result with
      | .ok r => (r.Total, r.TotalPages, r.CurrentPage, r.PageSize, r.Data.length)
      | _ => (0, 0, 0, 0, 0)) = (1, 1, 288230376151711745, 64, 1) := by
  refine ⟨by rfl, by rfl, by decide, by rfl, by rfl⟩

/-! ### The visit cap near the end of a link's life -/

/-- C11, the code at the failing input. The link `abc123` has `max_visits = 1` and
`clicks = 0`, in the row and in the cached payload, and expires at `t0 + 60 * Minute`. A
first `Redirect` 1.4 seconds before that succeeds; `IncrementClicks` writes the bumped
payload back with the time to live that `TTL` reports, one second, so the key runs out
0.4 seconds before the link does. A second `Redirect` 0.3 seconds before the expiry,
before the drain goroutine of the first has written to the row, finds no payload, reads
`clicks = 0` from the row and succeeds as well. (With the drain run in between the second
call fails with `ErrMaxVisitsReached`.) With `max_visits = 2` and two calls one
millisecond apart, the drain of the second call ends on the lock the first holds, the
first writes the one click it read, and a third call 0.3 seconds before the expiry, when
both drains have ended and the tickers are a minute from their first tick, succeeds. -/
theorem redirects_past_cap_after_ttl_rounding :
    stCapOne.links.map (fun r => (r.ShortCode, r.Clicks, r.MaxVisits, r.ExpiresAt)) =
      [("abc123", 0, some 1, t0 + 60 * Minute)] ∧
    cachedClicks nearEnd "abc123" stCapOne = some 0 ∧
    (nearEnd < atEnd ∧ atEnd < t0 + 60 * Minute) ∧
    firstNearEnd.result = .ok ("https://b", 1) ∧
    redisTTL nearEnd (some (t0 + 60 * Minute)) = Second ∧
    (firstNearEnd.state.linkCache "abc123").map (fun e => e.expireAt) =
      some (some (t0 + 60 * Minute - 400000000)) ∧
    cachedClicks atEnd "abc123" firstNearEnd.state = none ∧
    durableClicks firstNearEnd.state "abc123" = some 0 ∧
    secondAtEnd.result = .ok ("https://b", 1) ∧
    secondAfterDrain.result = .error Err.ErrMaxVisitsReached ∧
    stCapTwo.links.map (fun r => (r.ShortCode, r.Clicks, r.MaxVisits, r.ExpiresAt)) =
      [("abc123", 0, some 2, t0 + 60 * Minute)] ∧
    capTwoFirst.result = .ok ("https://b", 1) ∧
    capTwoFirstRead.pending = [1] ∧
    capTwoSecond.result = .ok ("https://b", 1) ∧
    capTwoDrained.pending = [] ∧
    durableClicks capTwoDrained.store "abc123" = some 1 ∧
    cachedClicks atEnd "abc123" capTwoDrained.store = none ∧
    capTwoThird.result = .ok ("https://b", 1) := by
  refine ⟨by rfl, by rfl, by decide, by rfl, by rfl, by rfl, by rfl, by rfl, by rfl, by rfl,
    by rfl, by rfl, by rfl, by rfl, by rfl, by rfl, by rfl, by rfl⟩

end Linkit
